import Mathlib

/-!
# Wagering integrity core of `sloter`

A shallow embedding of `src/core/GameEngine.cpp`, `src/security/SecurityManager.cpp`,
`src/auth/AuthManager.cpp`, `src/payment/PaymentSystem.cpp` and the tables of
`src/database/DatabaseManager.h` that the login path uses, followed by theorems
about it.

Modelling conventions.

* `double` amounts are embedded twice. In the definitions without a suffix they
  are exact rationals (`ℚ`); `0.1` is `1/10`, `0.8` is `8/10`; these carry the
  properties stated for exact arithmetic and those in which no amount is
  rounded. In the definitions with the suffix `64` they are IEEE 754 binary64
  values (`Double`): every operation rounds once, to nearest with ties to even
  (no operation is fused with another and none is carried out in a wider
  format), a decimal literal is the nearest binary64 value, overflow gives an
  infinity, and there is one NaN. Properties that depend on rounding, on
  infinities or on NaN are stated over the `64` definitions.
* `int` counters are integers; in the `64` definitions and in the lockout test
  of `Login` the result of an `int` addition is wrapped to 32 bits
  (`wrapInt32`).
* `uint64_t` timestamps are naturals; a subtraction of two of them is taken
  modulo `2^64` (`u64sub`), a store of a clock value is taken modulo `2^64`.
* The clock is an input: every call of
  `high_resolution_clock::now()` is a parameter of the operation that makes it.
* The generator `std::mt19937_64` is an input as well: `rng k` is the `k`-th raw
  64-bit output after seeding, and the engine counts how many it has consumed.
* `std::unordered_map<std::string, std::vector<uint64_t>>` is a function from
  keys to logs; `operator[]` on an absent key yields the empty log.
* A struct field that the source never writes is `none`; a written field is
  `some v`.
* An out-of-range `operator[]` on a vector makes the operation return `none`.
* Library functions (the SHA-256 digest, date formatting) and helpers that are
  declared without a body are inputs of the operations that call them; the
  database is a list of rows, and the `DatabaseManager` calls without a body are
  modelled from the account collaborator of the spec.
* A `std::string` is a `String`, read through its list of characters; the
  character functions `::toupper` and `::isspace` are those of the "C" locale,
  `std::string::find` is the search for a contiguous sublist, and
  `cardNum[i] - '0'` is the character code minus 48 as an integer.
* A random transaction identifier is an input of the operation that draws it.
-/

namespace Sloter

set_option linter.unusedVariables false

/-! ## Machine arithmetic -/

/-- Two to the sixty-fourth, the modulus of `uint64_t`. -/
def U64 : Nat := 2 ^ 64

/-- Subtraction of two `uint64_t` values, wrapping modulo `2^64`. -/
def u64sub (a b : Nat) : Nat := (a % U64 + (U64 - b % U64)) % U64

/-- The value an `int` holds after an arithmetic result `x`: the result wrapped
to 32 bits in two's complement. -/
def wrapInt32 (x : Int) : Int := (x + 2 ^ 31) % 2 ^ 32 - 2 ^ 31

/-! ## GameEngine.h -/

/-- The `enum class SlotSymbol`, in declaration order. -/
inductive SlotSymbol
  | CHERRY | LEMON | ORANGE | PLUM | BELL | BAR | SEVEN | DIAMOND | WILD | SCATTER
  deriving DecidableEq, Repr

open SlotSymbol

/-- The `struct SpinResult`. The two flags are `none` while unwritten. -/
structure SpinResult where
  reels : List (List SlotSymbol)
  winAmount : ℚ
  isWin : Bool
  winLines : List Int
  isBonusTriggered : Option Bool
  isJackpot : Option Bool
  deriving DecidableEq

/-- The `struct GameStats`. -/
structure GameStats where
  totalBet : ℚ
  totalWin : ℚ
  totalSpins : Int
  winningSpins : Int
  rtp : ℚ
  deriving DecidableEq

/-- The mutable members of `class GameEngine`; `rngDraws` counts the raw values
taken from the generator so far. -/
structure GameEngine where
  currentBalance : ℚ
  currentBet : ℚ
  stats : GameStats
  isSpinning : Bool
  lastSpinTime : Nat
  spinHistory : List Nat
  rngDraws : Nat
  deriving DecidableEq

def REEL_COUNT : Nat := 5

def SYMBOL_COUNT : Nat := 3

def PAYLINES : Nat := 25

/-- The paytable filled in by the constructor, one row per symbol. -/
def paytable : SlotSymbol → List ℚ
  | CHERRY => [0, 2, 5, 10, 25]
  | LEMON => [0, 2, 5, 15, 30]
  | ORANGE => [0, 3, 8, 20, 40]
  | PLUM => [0, 3, 10, 25, 50]
  | BELL => [0, 5, 15, 40, 100]
  | BAR => [0, 10, 25, 75, 200]
  | SEVEN => [0, 20, 50, 150, 500]
  | DIAMOND => [0, 50, 100, 300, 1000]
  | WILD => [0, 100, 250, 750, 2500]
  | SCATTER => [0, 2, 5, 20, 100]

/-- The state the constructor leaves: balance 0, bet 1, statistics
`{0, 0, 0, 0, 96.5}`, no history. -/
def GameEngine.fresh : GameEngine :=
  { currentBalance := 0, currentBet := 1,
    stats := { totalBet := 0, totalWin := 0, totalSpins := 0, winningSpins := 0, rtp := 965 / 10 },
    isSpinning := false, lastSpinTime := 0, spinHistory := [], rngDraws := 0 }

/-! ## GameEngine.cpp

Amounts are exact rationals in this section; the same operations in binary64
arithmetic follow under "GameEngine.cpp in binary64". -/

/-- The threshold chain of `GenerateReel`, applied to `randomValue`. -/
def symbolFor (randomValue : Nat) : SlotSymbol :=
  if randomValue < 200 then CHERRY
  else if randomValue < 350 then LEMON
  else if randomValue < 480 then ORANGE
  else if randomValue < 600 then PLUM
  else if randomValue < 720 then BELL
  else if randomValue < 820 then BAR
  else if randomValue < 900 then SEVEN
  else if randomValue < 960 then DIAMOND
  else if randomValue < 990 then WILD
  else SCATTER

/-- The loop of `GenerateReel`: `n` more positions, each from one draw
`rng() % 1000`. -/
def generateSymbols (rng : Nat → Nat) : Nat → GameEngine → List SlotSymbol × GameEngine
  | 0, e => ([], e)
  | n + 1, e =>
    let randomValue := rng e.rngDraws % 1000
    let rest := generateSymbols rng n { e with rngDraws := e.rngDraws + 1 }
    (symbolFor randomValue :: rest.1, rest.2)

/-- `GameEngine::GenerateReel`. -/
def GenerateReel (rng : Nat → Nat) (e : GameEngine) : List SlotSymbol × GameEngine :=
  generateSymbols rng SYMBOL_COUNT e

/-- The reel loop of `Spin`: `n` more reels. -/
def generateReels (rng : Nat → Nat) : Nat → GameEngine → List (List SlotSymbol) × GameEngine
  | 0, e => ([], e)
  | n + 1, e =>
    let reel := GenerateReel rng e
    let rest := generateReels rng n reel.2
    (reel.1 :: rest.1, rest.2)

/-- The read `reels[i][1]`; `none` when either index is out of range. -/
def middleSymbol (reels : List (List SlotSymbol)) (i : Nat) : Option SlotSymbol :=
  match reels[i]? with
  | none => none
  | some reel => reel[1]?

/-- The loop of `CheckWinLine`, with `n` iterations left, at reel `i`. -/
def countMatches (reels : List (List SlotSymbol)) (firstSymbol : SlotSymbol) :
    Nat → Nat → Nat → Option Nat
  | 0, _, matchCount => some matchCount
  | n + 1, i, matchCount =>
    match middleSymbol reels i with
    | none => none
    | some currentSymbol =>
      if currentSymbol = firstSymbol ∨ currentSymbol = WILD ∨ firstSymbol = WILD then
        countMatches reels firstSymbol n (i + 1) (matchCount + 1)
      else some matchCount

/-- `GameEngine::CheckWinLine`. -/
def CheckWinLine (reels : List (List SlotSymbol)) (lineIndex : Int) : Option Bool :=
  if reels.length < 3 then some false
  else
    match middleSymbol reels 0 with
    | none => none
    | some firstSymbol =>
      match countMatches reels firstSymbol (min reels.length 5 - 1) 1 1 with
      | none => none
      | some matchCount => some (decide (3 ≤ matchCount))

/-- One iteration of the payline loop of `CalculateWin`. -/
def paylineStep (e : GameEngine) (reels : List (List SlotSymbol)) (result : SpinResult)
    (line : Int) : Option SpinResult :=
  match CheckWinLine reels line with
  | none => none
  | some true =>
    some { result with
      winLines := result.winLines ++ [line]
      winAmount := result.winAmount + e.currentBet * (1 / 10)
      isWin := true }
  | some false => some result

/-- The payline loop of `CalculateWin` over the remaining lines. -/
def paylineLoop (e : GameEngine) (reels : List (List SlotSymbol)) :
    List Int → SpinResult → Option SpinResult
  | [], result => some result
  | line :: rest, result =>
    match paylineStep e reels result line with
    | none => none
    | some result1 => paylineLoop e reels rest result1

/-- The scatter loops of `CalculateWin`. -/
def scatterCount (reels : List (List SlotSymbol)) : Nat :=
  reels.foldl (fun n reel => reel.foldl (fun m symbol => if symbol = SCATTER then m + 1 else m) n) 0

/-- The local `SpinResult result;` of `CalculateWin` after its first three
assignments: the two flags have not been written. -/
def CalculateWin.start (reels : List (List SlotSymbol)) : SpinResult :=
  { reels := reels, winAmount := 0, isWin := false, winLines := [],
    isBonusTriggered := none, isJackpot := none }

/-- The payline part of `CalculateWin`: the result after the loop over the
`PAYLINES` lines. -/
def CalculateWin.paylines (e : GameEngine) (reels : List (List SlotSymbol)) : Option SpinResult :=
  paylineLoop e reels ((List.range PAYLINES).map Int.ofNat) (CalculateWin.start reels)

/-- `GameEngine::CalculateWin`. -/
def CalculateWin (e : GameEngine) (reels : List (List SlotSymbol)) : Option SpinResult :=
  match CalculateWin.paylines e reels with
  | none => none
  | some result1 =>
    let sc := scatterCount reels
    let result2 : SpinResult :=
      if 3 ≤ sc then
        { result1 with
          isBonusTriggered := some true
          winAmount := result1.winAmount + e.currentBet * sc * 2
          isWin := true }
      else result1
    let result3 : SpinResult :=
      if result2.winAmount > e.currentBet * 100 then { result2 with isJackpot := some true }
      else result2
    some result3

/-- `GameEngine::CanSpin`. -/
def CanSpin (e : GameEngine) : Bool :=
  !e.isSpinning && decide (e.currentBalance ≥ e.currentBet)

/-- `GameEngine::ValidateSpinTiming`, reading the clock as `currentTime`. -/
def ValidateSpinTiming (e : GameEngine) (currentTime : Nat) : Bool × GameEngine :=
  if u64sub currentTime e.lastSpinTime < 100 then (false, e)
  else (true, { e with lastSpinTime := currentTime % U64 })

/-- The differences `spinHistory[i] - spinHistory[i-1]` for `i = 1 ..`. -/
def intervalsOf : List Nat → List Nat
  | a :: b :: rest => u64sub b a :: intervalsOf (b :: rest)
  | _ => []

/-- `GameEngine::DetectPatternAbuse`. -/
def DetectPatternAbuse (e : GameEngine) : Bool :=
  if e.spinHistory.length < 10 then false
  else
    let intervals := intervalsOf e.spinHistory
    if 5 ≤ intervals.length then
      let avgInterval : ℚ := (intervals.map (fun interval : Nat => (interval : ℚ))).sum / intervals.length
      let regularCount := intervals.countP (fun interval : Nat => decide (|(interval : ℚ) - avgInterval| < 10))
      if (regularCount : ℚ) > intervals.length * (8 / 10) then true else false
    else false

/-- `GameEngine::UpdateSpinHistory`, reading the clock as `currentTime`. -/
def UpdateSpinHistory (e : GameEngine) (currentTime : Nat) : GameEngine :=
  let pushed := e.spinHistory ++ [currentTime % U64]
  { e with spinHistory := if pushed.length > 100 then pushed.tail else pushed }

/-- `GameEngine::ResetStats`. -/
def ResetStats (e : GameEngine) : GameEngine :=
  { e with stats := { totalBet := 0, totalWin := 0, totalSpins := 0, winningSpins := 0, rtp := 965 / 10 } }

/-- The `SpinResult result` that `Spin` prepares before its checks and returns
on every rejection. -/
def emptyResult : SpinResult :=
  { reels := [], winAmount := 0, isWin := false, winLines := [],
    isBonusTriggered := some false, isJackpot := some false }

/-- The statistics block of `Spin`: totals, counters, then the RTP. -/
def recordStats (stats : GameStats) (betAmount : ℚ) (result : SpinResult) : GameStats :=
  let s1 : GameStats :=
    { stats with
      totalBet := stats.totalBet + betAmount
      totalWin := stats.totalWin + result.winAmount
      totalSpins := stats.totalSpins + 1
      winningSpins := if result.isWin then stats.winningSpins + 1 else stats.winningSpins }
  if s1.totalBet > 0 then { s1 with rtp := s1.totalWin / s1.totalBet * 100 } else s1

/-- The tail of `Spin` after `CalculateWin`: credit the win, update the
statistics, record the spin time. -/
def Spin.settle (e : GameEngine) (betAmount : ℚ) (result : SpinResult) (tRecord : Nat) :
    GameEngine :=
  let e2 : GameEngine := { e with currentBalance := e.currentBalance + result.winAmount }
  let e3 : GameEngine := { e2 with stats := recordStats e2.stats betAmount result }
  UpdateSpinHistory e3 tRecord

/-- What `Spin` does once the security and balance checks have passed. -/
def Spin.admitted (e : GameEngine) (betAmount : ℚ) (rng : Nat → Nat) (tRecord : Nat) :
    Option (GameEngine × SpinResult) :=
  let e1 : GameEngine := { e with currentBalance := e.currentBalance - betAmount, currentBet := betAmount }
  let gen := generateReels rng REEL_COUNT e1
  match CalculateWin gen.2 gen.1 with
  | none => none
  | some result => some (Spin.settle gen.2 betAmount result tRecord, result)

/-- `GameEngine::Spin`. The clock is read as `tCheck` by `ValidateSpinTiming`
and as `tRecord` by `UpdateSpinHistory`; the `||` chain of the security checks
short-circuits as in the source. -/
def Spin (e : GameEngine) (betAmount : ℚ) (rng : Nat → Nat) (tCheck tRecord : Nat) :
    Option (GameEngine × SpinResult) :=
  if CanSpin e = false then some (e, emptyResult)
  else
    let timing := ValidateSpinTiming e tCheck
    if timing.1 = false then some (timing.2, emptyResult)
    else if DetectPatternAbuse timing.2 = true then some (timing.2, emptyResult)
    else if timing.2.currentBalance < betAmount then some (timing.2, emptyResult)
    else Spin.admitted timing.2 betAmount rng tRecord

/-- Every reel of the grid has a middle row: `reel[1]` is in range. -/
def RowsOk (reels : List (List SlotSymbol)) : Prop := ∀ reel ∈ reels, 2 ≤ reel.length

/-- A grid of `REEL_COUNT` reels with `SYMBOL_COUNT` rows each. -/
def IsGrid (reels : List (List SlotSymbol)) : Prop :=
  reels.length = REEL_COUNT ∧ ∀ reel ∈ reels, reel.length = SYMBOL_COUNT

/-! ## SecurityManager.cpp -/

/-- The `enum class SecurityThreat`. -/
inductive SecurityThreat
  | NONE | MEMORY_TAMPERING | SPEED_HACK | PATTERN_ABUSE | INJECTION_ATTEMPT | DEBUGGER_DETECTED
  | ROOT_DETECTED | EMULATOR_DETECTED
  deriving DecidableEq, Repr

/-- The `struct SecurityEvent`. -/
structure SecurityEvent where
  threat : SecurityThreat
  description : String
  timestamp : Nat
  deviceInfo : String
  deriving DecidableEq

/-- The members of `class SecurityManager` that the validations use: the
per-action log of timestamps, the log of security events and the device
fingerprint; the last two are empty after construction. -/
structure SecurityManager where
  actionHistory : String → List Nat
  securityLog : List SecurityEvent := []
  deviceFingerprint : String := ""

/-- `SecurityManager::IsRateLimited`, reading the clock as `currentTime`:
entries with `currentTime - timestamp > 60000` are erased from the log of the
action, then the size of the log is compared with the limit of the action. -/
def SecurityManager.IsRateLimited (s : SecurityManager) (action : String) (currentTime : Nat) :
    Bool × SecurityManager :=
  let history := (s.actionHistory action).filter
    (fun timestamp => !decide (u64sub currentTime timestamp > 60000))
  let s1 : SecurityManager := { s with actionHistory := Function.update s.actionHistory action history }
  if action = "spin" then (decide (history.length ≥ 100), s1)
  else if action = "payment" then (decide (history.length ≥ 10), s1)
  else (decide (history.length ≥ 50), s1)

/-- `SecurityManager::UpdateActionHistory`, reading the clock as `currentTime`. -/
def SecurityManager.UpdateActionHistory (s : SecurityManager) (action : String)
    (currentTime : Nat) : SecurityManager :=
  { s with actionHistory :=
      Function.update s.actionHistory action (s.actionHistory action ++ [currentTime % U64]) }

/-- A security manager with no recorded action. -/
def SecurityManager.empty : SecurityManager := { actionHistory := fun _ => [] }

/-- `SecurityManager::LogSecurityEvent`, reading the clock as `currentTime`:
the event is appended and the oldest one is erased once the log holds more than
1000. -/
def SecurityManager.LogSecurityEvent (s : SecurityManager) (threat : SecurityThreat)
    (description : String) (currentTime : Nat) : SecurityManager :=
  let event : SecurityEvent :=
    { threat := threat, description := description, timestamp := currentTime % U64,
      deviceInfo := s.deviceFingerprint }
  let pushed := s.securityLog ++ [event]
  { s with securityLog := if pushed.length > 1000 then pushed.tail else pushed }

/-- `SecurityManager::ValidateGameAction`. The clock is read as `tCheck` by
`IsRateLimited` and as `tRecord` by `LogSecurityEvent` or
`UpdateActionHistory`. -/
def SecurityManager.ValidateGameAction (s : SecurityManager) (action : String)
    (tCheck tRecord : Nat) : Bool × SecurityManager :=
  let limited := s.IsRateLimited action tCheck
  if limited.1 = true then
    (false, limited.2.LogSecurityEvent SecurityThreat.SPEED_HACK
      ("Rate limit exceeded for action: " ++ action) tRecord)
  else (true, limited.2.UpdateActionHistory action tRecord)

/-- The library function `::toupper` in the "C" locale: the letters `a` to `z`
go to `A` to `Z`, every other character stays. -/
def toupper (c : Char) : Char := c.toUpper

/-- The `dangerousPatterns` of `ValidateUserInput`, in source order. -/
def dangerousPatterns : List String :=
  ["SELECT", "INSERT", "UPDATE", "DELETE", "DROP", "<script", "javascript:", "eval(", "exec(",
    "../", "..\\", "cmd.exe", "/bin/sh"]

/-- `SecurityManager::ValidateUserInput`, reading the clock as `currentTime`
when it logs: the input is upper-cased character by character, and the first
pattern that `upperInput.find` locates makes the call log an event and return
false. -/
def SecurityManager.ValidateUserInput (s : SecurityManager) (input : String) (currentTime : Nat) :
    Bool × SecurityManager :=
  let upperInput := input.data.map toupper
  match dangerousPatterns.find? (fun pattern => decide (pattern.data <:+: upperInput)) with
  | some pattern =>
    (false, s.LogSecurityEvent SecurityThreat.INJECTION_ATTEMPT
      ("Dangerous pattern detected: " ++ pattern) currentTime)
  | none => (true, s)

/-- The patterns of `dangerousPatterns` without a lower-case letter. -/
def upperCasePatterns : List String :=
  ["SELECT", "INSERT", "UPDATE", "DELETE", "DROP", "../", "..\\"]

/-! ## AuthManager.cpp -/

/-- The rate-limiting members of `class AuthManager` and the security settings
`Login` reads, with the values the constructor gives them. -/
structure AuthManager where
  loginAttempts : String → List Nat
  registrationAttempts : String → List Nat
  maxFailedAttempts : Int := 5
  lockoutDurationMinutes : Int := 30
  sessionTimeoutMinutes : Int := 1440
  requireEmailVerification : Bool := true

/-- `AuthManager::IsRateLimited`, reading the clock as `currentTime`. The map
is chosen by `action == "login"`, the entry at `identifier + ":" + action` is
purged of timestamps older than an hour, and its size is compared with 10 for
`"login"`, with 3 for `"register"`; any other action is never limited. -/
def AuthManager.IsRateLimited (a : AuthManager) (identifier action : String) (currentTime : Nat) :
    Bool × AuthManager :=
  let key := identifier ++ ":" ++ action
  let keep := fun (timestamp : Nat) => !decide (u64sub currentTime timestamp > 3600000)
  let attempts :=
    (if action = "login" then a.loginAttempts key else a.registrationAttempts key).filter keep
  let a1 : AuthManager :=
    if action = "login" then { a with loginAttempts := Function.update a.loginAttempts key attempts }
    else { a with registrationAttempts := Function.update a.registrationAttempts key attempts }
  if action = "login" then (decide (attempts.length ≥ 10), a1)
  else if action = "register" then (decide (attempts.length ≥ 3), a1)
  else (false, a1)

/-- `AuthManager::UpdateRateLimit`, reading the clock as `currentTime`. -/
def AuthManager.UpdateRateLimit (a : AuthManager) (identifier action : String) (currentTime : Nat) :
    AuthManager :=
  let key := identifier ++ ":" ++ action
  if action = "login" then
    { a with loginAttempts := Function.update a.loginAttempts key (a.loginAttempts key ++ [currentTime % U64]) }
  else if action = "register" then
    { a with registrationAttempts :=
        Function.update a.registrationAttempts key (a.registrationAttempts key ++ [currentTime % U64]) }
  else a

/-- An auth manager with no recorded attempt. -/
def AuthManager.empty : AuthManager :=
  { loginAttempts := fun _ => [], registrationAttempts := fun _ => [] }

/-! ## The specification's symbol table and run rule -/

/-- The fixed order in which the spec walks the symbol weight table. -/
def specOrder : List SlotSymbol :=
  [CHERRY, LEMON, ORANGE, PLUM, BELL, BAR, SEVEN, DIAMOND, WILD, SCATTER]

/-- The weights the spec assigns, out of a denomination of 1000. -/
def specWeight : SlotSymbol → Nat
  | CHERRY => 200 | LEMON => 150 | ORANGE => 130 | PLUM => 120 | BELL => 120
  | BAR => 100 | SEVEN => 80 | DIAMOND => 60 | WILD => 30 | SCATTER => 10

/-- The spec's selection rule: walk the cumulative weight boundaries in order,
starting at `lower`, and take the first symbol whose cumulative upper bound
exceeds the draw `v`. -/
def specSelect (weight : SlotSymbol → Nat) (v : Nat) : List SlotSymbol → Nat → Option SlotSymbol
  | [], _ => none
  | s :: rest, lower =>
    if v < lower + weight s then some s else specSelect weight v rest (lower + weight s)

/-- The cumulative lower bound of each symbol in `specOrder`. -/
def cumulativeLower : SlotSymbol → Nat
  | CHERRY => 0 | LEMON => 200 | ORANGE => 350 | PLUM => 480 | BELL => 600
  | BAR => 720 | SEVEN => 820 | DIAMOND => 900 | WILD => 960 | SCATTER => 990

/-- How many of the 1000 draw values make `GenerateReel` choose `s`. -/
def drawsChoosing (s : SlotSymbol) : Nat :=
  (List.range 1000).countP (fun v => decide (symbolFor v = s))

/-- The symbols a payline reads: the middle row, in reel order. -/
def specLine (reels : List (List SlotSymbol)) : List SlotSymbol :=
  reels.filterMap (fun reel => reel[1]?)

/-- The spec's run, scanned left to right: `target` is the first non-wild
symbol met so far; the run ends at the first symbol that neither equals it nor
is WILD. -/
def specRun : Option SlotSymbol → List SlotSymbol → Nat
  | _, [] => 0
  | target, s :: rest =>
    if s = WILD then 1 + specRun target rest
    else
      match target with
      | none => 1 + specRun (some s) rest
      | some t => if s = t then 1 + specRun target rest else 0

/-- The spec's run length of a line, counted from reel 0. -/
def specRunLength (line : List SlotSymbol) : Nat := specRun none line

/-! ## The specification's rate limits -/

/-- The limit the spec gives each `SecurityManager` action per minute. -/
def specActionLimit (action : String) : Nat :=
  if action = "spin" then 100 else if action = "payment" then 10 else 50

/-- The attempts recorded for an action that are at most 60 seconds old at
`now`. -/
def recentActions (s : SecurityManager) (action : String) (now : Nat) : List Nat :=
  (s.actionHistory action).filter (fun t => decide (now - t ≤ 60000))

/-- The log that holds the attempts recorded for the key
`(identifier, action)`. -/
def AuthManager.recorded (a : AuthManager) (identifier action : String) : List Nat :=
  if action = "login" then a.loginAttempts (identifier ++ ":" ++ action)
  else a.registrationAttempts (identifier ++ ":" ++ action)

/-- The attempts recorded for the key that are at most one hour old at `now`. -/
def AuthManager.recentAttempts (a : AuthManager) (identifier action : String) (now : Nat) :
    List Nat :=
  (a.recorded identifier action).filter (fun t => decide (now - t ≤ 3600000))

/-- A fresh engine after `SetBalance(10)`: balance 10, current bet 1. -/
def fundedEngine : GameEngine := { GameEngine.fresh with currentBalance := 10 }

/-- A generator whose draws give reel 1 all LEMON and every other reel all
CHERRY, so that the middle row starts CHERRY, LEMON and no line matches. -/
def rngNoWin (k : Nat) : Nat := if k / 3 = 1 then 200 else 0

/-- The grid that `rngNoWin` produces from draw 0 on. -/
def gridNoWin : List (List SlotSymbol) :=
  [[CHERRY, CHERRY, CHERRY], [LEMON, LEMON, LEMON], [CHERRY, CHERRY, CHERRY],
    [CHERRY, CHERRY, CHERRY], [CHERRY, CHERRY, CHERRY]]

/-- A grid whose middle row reads WILD, CHERRY, LEMON, LEMON, LEMON. -/
def gridWildLead : List (List SlotSymbol) :=
  [[CHERRY, WILD, CHERRY], [CHERRY, CHERRY, CHERRY], [LEMON, LEMON, LEMON],
    [LEMON, LEMON, LEMON], [LEMON, LEMON, LEMON]]

/-- An engine whose current bet is 20. -/
def engineBet20 : GameEngine := { GameEngine.fresh with currentBalance := 100, currentBet := 20 }

/-- A grid of CHERRY only: every line is five cherries. -/
def gridCherries : List (List SlotSymbol) :=
  [[CHERRY, CHERRY, CHERRY], [CHERRY, CHERRY, CHERRY], [CHERRY, CHERRY, CHERRY],
    [CHERRY, CHERRY, CHERRY], [CHERRY, CHERRY, CHERRY]]

/-- A grid of DIAMOND only: every line is five diamonds. -/
def gridDiamonds : List (List SlotSymbol) :=
  [[DIAMOND, DIAMOND, DIAMOND], [DIAMOND, DIAMOND, DIAMOND], [DIAMOND, DIAMOND, DIAMOND],
    [DIAMOND, DIAMOND, DIAMOND], [DIAMOND, DIAMOND, DIAMOND]]

/-- A grid whose lines are three cherries followed by two lemons. -/
def gridThreeCherries : List (List SlotSymbol) :=
  [[CHERRY, CHERRY, CHERRY], [CHERRY, CHERRY, CHERRY], [CHERRY, CHERRY, CHERRY],
    [LEMON, LEMON, LEMON], [LEMON, LEMON, LEMON]]

/-- A grid with four scatters and no matching line (middle row CHERRY, LEMON,
...). -/
def gridFourScatters : List (List SlotSymbol) :=
  [[SCATTER, CHERRY, SCATTER], [SCATTER, LEMON, SCATTER], [CHERRY, CHERRY, CHERRY],
    [CHERRY, CHERRY, CHERRY], [CHERRY, CHERRY, CHERRY]]

/-- The paytable entry the spec selects for a line: the row of the matched
symbol, at the column of the run length (columns are run lengths 1 to 5). -/
def specLineWin (symbol : SlotSymbol) (runLength : Nat) : ℚ :=
  (paytable symbol).getD (runLength - 1) 0

/-- A security manager that recorded ten "payment" attempts at the clock
readings 1000 to 1009. -/
def tenPayments : SecurityManager :=
  { actionHistory := fun action =>
      if action = "payment" then [1000, 1001, 1002, 1003, 1004, 1005, 1006, 1007, 1008, 1009]
      else [] }

/-- An auth manager that recorded ten "login" attempts from 10.0.0.1 at the
clock readings 1000 to 1009. -/
def tenLogins : AuthManager :=
  { loginAttempts := fun key =>
      if key = "10.0.0.1:login" then [1000, 1001, 1002, 1003, 1004, 1005, 1006, 1007, 1008, 1009]
      else []
    registrationAttempts := fun _ => [] }

/-- An auth manager that recorded three "register" attempts of the identifier
"a:b", under the key "a:b:register". -/
def threeRegistrations : AuthManager :=
  { loginAttempts := fun _ => []
    registrationAttempts := fun key => if key = "a:b:register" then [100, 200, 300] else [] }

/-! ## The specification's timing-regularity rule -/

/-- The consecutive inter-arrival intervals of a history, as plain
differences. -/
def specIntervals : List Nat → List Nat
  | a :: b :: rest => (b - a) :: specIntervals (b :: rest)
  | _ => []

/-- The arithmetic mean of the intervals. -/
def specMean (intervals : List Nat) : ℚ :=
  (intervals.map (fun x : Nat => (x : ℚ))).sum / intervals.length

/-- The number of intervals that differ from the mean by less than 10 ms. -/
def specRegularCount (intervals : List Nat) : Nat :=
  intervals.countP (fun x : Nat => decide (|(x : ℚ) - specMean intervals| < 10))

/-- A history of `n` timestamps spaced exactly `d` apart, starting at `start`. -/
def evenHistory (start d n : Nat) : List Nat :=
  (List.range n).map (fun i => start + i * d)

/-- `GameEngine::SetBalance`. -/
def SetBalance (e : GameEngine) (balance : ℚ) : GameEngine := { e with currentBalance := balance }

/-- `GameEngine::SetBet`. -/
def SetBet (e : GameEngine) (bet : ℚ) : GameEngine := { e with currentBet := bet }

/-- The engine states reachable from a freshly constructed engine by the
public calls `SetBalance`, `SetBet`, `Spin` and `ResetStats`. -/
inductive Reachable : GameEngine → Prop
  | fresh : Reachable GameEngine.fresh
  | setBalance (e : GameEngine) (balance : ℚ) : Reachable e → Reachable (SetBalance e balance)
  | setBet (e : GameEngine) (bet : ℚ) : Reachable e → Reachable (SetBet e bet)
  | resetStats (e : GameEngine) : Reachable e → Reachable (ResetStats e)
  | spin (e e2 : GameEngine) (betAmount : ℚ) (rng : Nat → Nat) (tCheck tRecord : Nat)
      (result : SpinResult) :
      Reachable e → Spin e betAmount rng tCheck tRecord = some (e2, result) → Reachable e2

/-- A generator whose every draw is 0: every position is CHERRY. -/
def rngCherries (k : Nat) : Nat := 0

/-- The engine `fundedEngine` after `Spin(1)` at the generator `rngNoWin`. -/
def engineAfterOneSpin : GameEngine :=
  { currentBalance := 9, currentBet := 1,
    stats := { totalBet := 1, totalWin := 0, totalSpins := 1, winningSpins := 0, rtp := 0 },
    isSpinning := false, lastSpinTime := 1000, spinHistory := [1001], rngDraws := 15 }

/-! ## PaymentSystem.h and PaymentSystem.cpp

Amounts are exact rationals in this section; the wallet and fraud operations in
binary64 arithmetic follow under "PaymentSystem.cpp in binary64 arithmetic". -/

/-- The `enum class PaymentMethod`. -/
inductive PaymentMethod
  | CREDIT_CARD | DEBIT_CARD | PAYPAL | GOOGLE_PAY | APPLE_PAY | CRYPTO | BANK_TRANSFER | GIFT_CARD
  deriving DecidableEq, Repr

/-- The `enum class TransactionStatus`. -/
inductive TransactionStatus
  | PENDING | PROCESSING | COMPLETED | FAILED | CANCELLED | REFUNDED | DISPUTED
  deriving DecidableEq, Repr

/-- The `enum class Currency`. -/
inductive Currency
  | USD | EUR | GBP | JPY | CAD | AUD | BTC | ETH
  deriving DecidableEq, Repr

/-- The `struct Transaction` of the payment system. -/
structure Transaction where
  transactionId : String
  userId : String
  amount : ℚ
  currency : Currency
  method : PaymentMethod
  status : TransactionStatus
  timestamp : Nat
  description : String
  merchantReference : String
  gatewayResponse : String
  isRefundable : Bool
  deriving DecidableEq

/-- The `struct WalletBalance`. -/
structure WalletBalance where
  balance : ℚ
  currency : Currency
  lastUpdated : Nat
  recentTransactions : List Transaction
  deriving DecidableEq

/-- The wallet, history and fraud-detection members of `class PaymentSystem`.
A map whose `find` is used has `none` for an absent key. -/
structure PaymentSystem where
  userWallets : String → Option WalletBalance
  transactionHistory : List Transaction
  userTransactionTimes : String → List Nat
  dailySpendLimits : String → Option ℚ

/-- The state the constructor leaves: every map and the history empty. -/
def PaymentSystem.new : PaymentSystem :=
  { userWallets := fun _ => none, transactionHistory := [],
    userTransactionTimes := fun _ => [], dailySpendLimits := fun _ => none }

/-- `PaymentSystem::Initialize`: `dailySpendLimits["default"] = 1000.0`. -/
def PaymentSystem.Initialize (p : PaymentSystem) : PaymentSystem :=
  { p with dailySpendLimits := Function.update p.dailySpendLimits "default" (some 1000) }

/-- `PaymentSystem::SetDailySpendLimit`. -/
def PaymentSystem.SetDailySpendLimit (p : PaymentSystem) (userId : String) (limit : ℚ) :
    PaymentSystem :=
  { p with dailySpendLimits := Function.update p.dailySpendLimits userId (some limit) }

/-- `PaymentSystem::GetDailySpendLimit`: the entry of the user when `find`
succeeds, otherwise `dailySpendLimits["default"]`, which inserts 0 when that key
is absent too. -/
def PaymentSystem.GetDailySpendLimit (p : PaymentSystem) (userId : String) : ℚ × PaymentSystem :=
  match p.dailySpendLimits userId with
  | some limit => (limit, p)
  | none =>
    match p.dailySpendLimits "default" with
    | some limit => (limit, p)
    | none => (0, { p with dailySpendLimits := Function.update p.dailySpendLimits "default" (some 0) })

/-! ## DatabaseManager.h and the login path of AuthManager.cpp -/

/-- The `struct User` of `DatabaseManager.h`. -/
structure User where
  id : Int
  username : String
  email : String
  passwordHash : String
  salt : String
  balance : ℚ
  dailyLimit : ℚ
  isActive : Bool
  isVerified : Bool
  createdAt : String
  updatedAt : String
  lastLogin : String
  failedLoginAttempts : Int
  lockedUntil : String
  deviceFingerprint : String
  twoFactorSecret : String
  isTwoFactorEnabled : Bool
  deriving DecidableEq

/-- The value-initialised `User user = {}`: id 0, empty strings, false. -/
def User.none : User :=
  { id := 0, username := "", email := "", passwordHash := "", salt := "", balance := 0,
    dailyLimit := 0, isActive := false, isVerified := false, createdAt := "", updatedAt := "",
    lastLogin := "", failedLoginAttempts := 0, lockedUntil := "", deviceFingerprint := "",
    twoFactorSecret := "", isTwoFactorEnabled := false }

/-- The fields of `struct SecurityEvent` that `AuthManager::LogSecurityEvent`
fills in. -/
structure AuthEvent where
  userId : Int
  eventType : String
  severity : String
  description : String
  ipAddress : String
  userAgent : String
  deriving DecidableEq

/-- The tables of the database that the login path reads and writes: the rows
of `users` and of `security_events`. -/
structure Database where
  users : List User
  securityEvents : List AuthEvent

/-- `DatabaseManager::GetUserByUsername`: the row selected by
`WHERE username = ...`, or `User{}` when there is none. -/
def Database.GetUserByUsername (db : Database) (username : String) : User :=
  (db.users.find? (fun u => decide (u.username = username))).getD User.none

/-- Modelled from the spec: `DatabaseManager::GetUser` is declared in
`DatabaseManager.h` and has no body in the sources; as the account collaborator
of the spec it returns the stored record of the account, or `User{}`. -/
def Database.GetUser (db : Database) (userId : Int) : User :=
  (db.users.find? (fun u => decide (u.id = userId))).getD User.none

/-- The effect of `UPDATE users SET ... WHERE id = userId`: the row of the
account is replaced by `f` of it. -/
def Database.updateUser (db : Database) (userId : Int) (f : User → User) : Database :=
  { db with users := db.users.map (fun u => if u.id = userId then f u else u) }

/-- Modelled from the spec: `DatabaseManager::IncrementFailedLogins` has no
body in the sources; it is `IncrementFailedAttempts(account)` of the spec, which
adds one to the stored counter of the account. -/
def Database.IncrementFailedLogins (db : Database) (userId : Int) : Database :=
  db.updateUser userId (fun u => { u with failedLoginAttempts := u.failedLoginAttempts + 1 })

/-- Modelled from the spec: `DatabaseManager::ResetFailedLogins` has no body in
the sources; it is `ResetFailedAttempts(account)` of the spec, which sets the
stored counter of the account to 0. -/
def Database.ResetFailedLogins (db : Database) (userId : Int) : Database :=
  db.updateUser userId (fun u => { u with failedLoginAttempts := 0 })

/-- Modelled from the spec: `DatabaseManager::LockUser` has no body in the
sources; it is `SetLocked(account, until)` of the spec, which stores `until` as
the `lockedUntil` of the account. -/
def Database.LockUser (db : Database) (userId : Int) (lockUntil : String) : Database :=
  db.updateUser userId (fun u => { u with lockedUntil := lockUntil })

/-- `DatabaseManager::LogSecurityEvent`: one more row in `security_events`. -/
def Database.LogSecurityEvent (db : Database) (event : AuthEvent) : Database :=
  { db with securityEvents := db.securityEvents ++ [event] }

/-- `AuthManager::LogSecurityEvent`. -/
def AuthManager.LogSecurityEvent (db : Database) (userId : Int)
    (eventType description ipAddress userAgent : String) : Database :=
  db.LogSecurityEvent
    { userId := userId, eventType := eventType, severity := "medium", description := description,
      ipAddress := ipAddress, userAgent := userAgent }

/-- The `enum class AuthResult`. -/
inductive AuthResult
  | SUCCESS | INVALID_CREDENTIALS | USER_NOT_FOUND | USER_LOCKED | USER_INACTIVE
  | EMAIL_NOT_VERIFIED | TWO_FACTOR_REQUIRED | INVALID_TWO_FACTOR | SESSION_EXPIRED
  | INVALID_SESSION | RATE_LIMITED | SECURITY_VIOLATION | DATABASE_ERROR | UNKNOWN_ERROR
  deriving DecidableEq, Repr

/-- The `struct AuthToken`. -/
structure AuthToken where
  accessToken : String
  refreshToken : String
  tokenType : String
  expiresIn : Int
  scope : String
  userId : String
  deriving DecidableEq

/-- The `struct LoginRequest`. -/
structure LoginRequest where
  username : String
  password : String
  deviceFingerprint : String
  ipAddress : String
  userAgent : String
  twoFactorCode : String
  rememberMe : Bool
  deriving DecidableEq

/-- The library and undefined helpers the login path calls, as inputs: the
SHA-256 digest in hex of OpenSSL, `put_time(gmtime(t), "%Y-%m-%d %H:%M:%S")`,
`ValidateTwoFactorCode` (declared, without a body) and `GenerateJWT`. -/
structure AuthLib where
  sha256hex : String → String
  formatTime : Int → String
  ValidateTwoFactorCode : String → String → Bool
  GenerateJWT : Int → String → String

/-- What one call of `Login` reads from outside: the millisecond clock in
`IsRateLimited` and in `UpdateRateLimit`, the system clock in seconds in
`IsUserLocked` and where the lock time is computed, and the token
`CreateUserSession` returns (empty on a database failure). -/
structure LoginClock where
  tLimit : Nat
  tLocked : Int
  tLock : Int
  tUpdate : Nat
  sessionToken : String

/-- `AuthManager::HashPassword`. -/
def HashPassword (lib : AuthLib) (password salt : String) : String :=
  lib.sha256hex (password ++ salt)

/-- `AuthManager::VerifyPassword`. -/
def VerifyPassword (lib : AuthLib) (password hash salt : String) : Bool :=
  decide (HashPassword lib password salt = hash)

/-- `AuthManager::IsUserLocked`. The system clock is read as `now` and, as in
the source, never used. -/
def AuthManager.IsUserLocked (a : AuthManager) (db : Database) (userId : Int) (now : Int) : Bool :=
  let user := db.GetUser userId
  if user.id = 0 then false
  else if user.lockedUntil = "" then false
  else decide (user.failedLoginAttempts ≥ a.maxFailedAttempts)

/-- What a call of `Login` leaves: its return value, the manager, the database
and the `token` out-parameter. -/
structure LoginOutcome where
  result : AuthResult
  auth : AuthManager
  db : Database
  token : AuthToken

/-- `AuthManager::Login`. The `onLogin` callback is not modelled. -/
def AuthManager.Login (a : AuthManager) (lib : AuthLib) (db : Database) (clock : LoginClock)
    (request : LoginRequest) (token : AuthToken) : LoginOutcome :=
  let limited := a.IsRateLimited request.ipAddress "login" clock.tLimit
  let a1 := limited.2
  if limited.1 = true then
    { result := AuthResult.RATE_LIMITED, auth := a1, token := token,
      db := AuthManager.LogSecurityEvent db 0 "rate_limit_exceeded" "Login rate limit exceeded"
        request.ipAddress request.userAgent }
  else
    let user := db.GetUserByUsername request.username
    if user.id = 0 then
      { result := AuthResult.USER_NOT_FOUND, db := db, token := token,
        auth := a1.UpdateRateLimit request.ipAddress "login" clock.tUpdate }
    else if a1.IsUserLocked db user.id clock.tLocked = true then
      { result := AuthResult.USER_LOCKED, auth := a1, token := token,
        db := AuthManager.LogSecurityEvent db user.id "login_attempt_locked"
          "Login attempt on locked account" request.ipAddress request.userAgent }
    else if user.isActive = false then
      { result := AuthResult.USER_INACTIVE, auth := a1, db := db, token := token }
    else if VerifyPassword lib request.password user.passwordHash user.salt = false then
      let db1 := db.IncrementFailedLogins user.id
      let db2 :=
        if wrapInt32 (user.failedLoginAttempts + 1) ≥ a1.maxFailedAttempts then
          AuthManager.LogSecurityEvent
            (db1.LockUser user.id (lib.formatTime (clock.tLock + a1.lockoutDurationMinutes * 60)))
            user.id "account_locked" "Account locked due to failed login attempts"
            request.ipAddress request.userAgent
        else db1
      { result := AuthResult.INVALID_CREDENTIALS, db := db2, token := token,
        auth := a1.UpdateRateLimit request.ipAddress "login" clock.tUpdate }
    else if (a1.requireEmailVerification && !user.isVerified) = true then
      { result := AuthResult.EMAIL_NOT_VERIFIED, auth := a1, db := db, token := token }
    else if (user.isTwoFactorEnabled && decide (request.twoFactorCode = "")) = true then
      { result := AuthResult.TWO_FACTOR_REQUIRED, auth := a1, db := db, token := token }
    else if (user.isTwoFactorEnabled &&
        !lib.ValidateTwoFactorCode user.twoFactorSecret request.twoFactorCode) = true then
      { result := AuthResult.INVALID_TWO_FACTOR, auth := a1, token := token,
        db := AuthManager.LogSecurityEvent db user.id "invalid_2fa"
          "Invalid two-factor authentication code" request.ipAddress request.userAgent }
    else
      let db1 := db.ResetFailedLogins user.id
      if clock.sessionToken = "" then
        { result := AuthResult.DATABASE_ERROR, auth := a1, db := db1, token := token }
      else
        { result := AuthResult.SUCCESS, auth := a1,
          db := AuthManager.LogSecurityEvent db1 user.id "login_success"
            "User logged in successfully" request.ipAddress request.userAgent,
          token :=
            { accessToken := lib.GenerateJWT user.id user.username,
              refreshToken := clock.sessionToken, tokenType := "Bearer",
              expiresIn := a1.sessionTimeoutMinutes * 60, scope := "user",
              userId := toString user.id } }

/-- Stand-ins for the library functions, for evaluating `Login` on concrete
requests: a tagging function in place of the SHA-256 digest, the decimal
numeral in place of the formatted date. -/
def stubLib : AuthLib :=
  { sha256hex := fun s => "sha256(" ++ s ++ ")"
    formatTime := fun t => toString t
    ValidateTwoFactorCode := fun secret code => decide (secret = code)
    GenerateJWT := fun userId _ => "mock_jwt_token_" ++ toString userId }

/-- The account "alice", id 1, password "Secret#1" with salt "na", active and
verified, no failed attempt, not locked. -/
def aliceUser : User :=
  { User.none with
    id := 1, username := "alice", passwordHash := "sha256(Secret#1na)", salt := "na",
    isActive := true, isVerified := true }

/-- Clock readings of one login call at second `t`. -/
def clockAt (t : Nat) : LoginClock :=
  { tLimit := 1000 * t, tLocked := t, tLock := t, tUpdate := 1000 * t, sessionToken := "session" }

/-- An empty `AuthToken`. -/
def AuthToken.none : AuthToken :=
  { accessToken := "", refreshToken := "", tokenType := "", expiresIn := 0, scope := "",
    userId := "" }

/-- The account "bob", id 7, with five failed attempts recorded and a lock
that ended on 2024-01-01 at 00:30:00. -/
def bobUser : User :=
  { User.none with
    id := 7, username := "bob", passwordHash := "sha256(Secret#1na)", salt := "na",
    isActive := true, isVerified := true, failedLoginAttempts := 5,
    lockedUntil := "2024-01-01 00:30:00" }

/-- The account "carol", id 8, locked until 2099 with no failed attempt
recorded. -/
def carolUser : User :=
  { User.none with
    id := 8, username := "carol", passwordHash := "sha256(Secret#1na)", salt := "na",
    isActive := true, isVerified := true, failedLoginAttempts := 0,
    lockedUntil := "2099-01-01 00:00:00" }

/-- The account "dave", id 2, password "Secret#1", active, not locked, three
failed attempts recorded, e-mail address not verified. -/
def daveUser : User :=
  { User.none with
    id := 2, username := "dave", passwordHash := "sha256(Secret#1na)", salt := "na",
    isActive := true, isVerified := false, failedLoginAttempts := 3 }

/-- The account "erin", id 3, password "Secret#1", active, verified, not
locked, three failed attempts recorded. -/
def erinUser : User :=
  { User.none with
    id := 3, username := "erin", passwordHash := "sha256(Secret#1na)", salt := "na",
    isActive := true, isVerified := true, failedLoginAttempts := 3 }

/-- A database holding the accounts alice, dave, erin, bob and carol. -/
def dbAccounts : Database :=
  { users := [aliceUser, daveUser, erinUser, bobUser, carolUser], securityEvents := [] }

/-- A login request for "erin" with her password. -/
def erinRequest : LoginRequest :=
  { username := "erin", password := "Secret#1", deviceFingerprint := "", ipAddress := "10.0.0.3",
    userAgent := "", twoFactorCode := "", rememberMe := false }

/-- A login request for "dave" with his password. -/
def daveRequest : LoginRequest :=
  { username := "dave", password := "Secret#1", deviceFingerprint := "", ipAddress := "10.0.0.2",
    userAgent := "", twoFactorCode := "", rememberMe := false }

/-- The setting of a verified password: the account named in the request
exists, its row is the one stored under its id, it is active, and the password
of the request verifies. -/
def PassingAccount (lib : AuthLib) (db : Database) (request : LoginRequest) (user : User) :
    Prop :=
  db.GetUserByUsername request.username = user ∧ user.id ≠ 0 ∧ db.GetUser user.id = user ∧
    user.isActive = true ∧
    VerifyPassword lib request.password user.passwordHash user.salt = true

/-- The checks of `Login` between the password check and the reset of the
counter: e-mail verification when required, and the two-factor code when the
account has two-factor authentication enabled. -/
def passesLaterChecks (a : AuthManager) (lib : AuthLib) (request : LoginRequest) (user : User) :
    Bool :=
  !(a.requireEmailVerification && !user.isVerified) &&
    !(user.isTwoFactorEnabled && decide (request.twoFactorCode = "")) &&
    !(user.isTwoFactorEnabled &&
      !lib.ValidateTwoFactorCode user.twoFactorSecret request.twoFactorCode)

/-! ## Raw generator outputs behind a draw -/

/-- How many of the `2^64` raw outputs `v` of the generator give the draw `r`
under `rng() % 1000`. -/
def rawOutputsDrawing (r : Nat) : Nat := Nat.count (fun v => v % 1000 = r) U64

/-- How many of the `2^64` raw outputs of the generator make `GenerateReel`
choose the symbol `s`. -/
def rawOutputsChoosing (s : SlotSymbol) : Nat :=
  Nat.count (fun v => symbolFor (v % 1000) = s) U64

/-! ## PaymentSystem.cpp: card numbers -/

/-- The `struct PaymentInfo`. -/
structure PaymentInfo where
  cardNumber : String
  expiryDate : String
  cvv : String
  holderName : String
  billingAddress : String
  method : PaymentMethod
  deriving DecidableEq

/-- The library function `::isspace` in the "C" locale: the space and the
control characters `\t`, `\n`, `\v`, `\f`, `\r`. -/
def isspace (c : Char) : Bool :=
  decide (c.toNat = 32) || (decide (9 ≤ c.toNat) && decide (c.toNat ≤ 13))

/-- The body of the Luhn loop for one character: `cardNum[i] - '0'`, doubled
and reduced by 9 when above 9 if `alternate` is set. -/
def luhnDigit (alternate : Bool) (c : Char) : Int :=
  let digit : Int := (c.toNat : Int) - 48
  if alternate then (if digit * 2 > 9 then digit * 2 - 9 else digit * 2) else digit

/-- The Luhn loop of `ValidatePaymentInfo`, from the last character down to the
first: the argument lists the characters still to visit, last one first. -/
def luhnLoop : List Char → Bool → Int → Int
  | [], _, sum => sum
  | c :: rest, alternate, sum => luhnLoop rest (!alternate) (sum + luhnDigit alternate c)

/-- `PaymentSystem::ValidatePaymentInfo`. The remainder `sum % 10` of C++
truncates toward zero (`Int.tmod`). -/
def PaymentSystem.ValidatePaymentInfo (paymentInfo : PaymentInfo) : Bool :=
  if paymentInfo.cardNumber.length = 0 ∨ paymentInfo.holderName.length = 0 then false
  else if paymentInfo.method = PaymentMethod.CREDIT_CARD ∨
      paymentInfo.method = PaymentMethod.DEBIT_CARD then
    let cardNum := paymentInfo.cardNumber.data.filter (fun c => !isspace c)
    if cardNum.length < 13 ∨ cardNum.length > 19 then false
    else if Int.tmod (luhnLoop cardNum.reverse false 0) 10 ≠ 0 then false
    else true
  else true

/-- The card number with the character at index `k` replaced by `c`. -/
def replaceDigit (cardNumber : String) (k : Nat) (c : Char) : String :=
  String.mk (cardNumber.data.set k c)

/-- A credit card with the sixteen-digit number 4111 1111 1111 1111, written
without blanks. -/
def cardAlice : PaymentInfo :=
  { cardNumber := "4111111111111111", expiryDate := "12/30", cvv := "123",
    holderName := "Alice Example", billingAddress := "1 Main Street",
    method := PaymentMethod.CREDIT_CARD }

/-- A decimal digit: one of the characters `'0'` to `'9'`. -/
def isDecimalDigit (c : Char) : Bool := decide (48 ≤ c.toNat) && decide (c.toNat ≤ 57)

/-! ## Sequences of game-action validations -/

/-- The clock readings of a sequence of `ValidateGameAction` calls, in the
order they are taken: each call reads the clock in `IsRateLimited` and again
when it records or logs. -/
def clockReadings : List (Nat × Nat) → List Nat
  | [] => []
  | call :: rest => call.1 :: call.2 :: clockReadings rest

/-- A sequence of `ValidateGameAction(action)` calls on one manager, each given
by its two clock readings: the final state and the return values in call
order. -/
def validateRun (action : String) (s : SecurityManager) (calls : List (Nat × Nat)) :
    SecurityManager × List Bool :=
  calls.foldl
    (fun acc call =>
      ((acc.1.ValidateGameAction action call.1 call.2).2,
        acc.2 ++ [(acc.1.ValidateGameAction action call.1 call.2).1]))
    (s, [])

/-- The times at which the admitted calls of a sequence recorded their
attempt. -/
def admittedTimes (calls : List (Nat × Nat)) (results : List Bool) : List Nat :=
  ((calls.zip results).filter (fun p => p.2)).map (fun p => p.1.2)

/-- The clock reading of the rate-limit check of the last call of a sequence. -/
def lastCheck (calls : List (Nat × Nat)) : Nat :=
  (calls.getLast?.map (fun call => call.1)).getD 0

/-- Eleven `ValidateGameAction` calls one millisecond apart, from clock reading
1000 on. -/
def elevenCalls : List (Nat × Nat) := (List.range 11).map (fun i => (1000 + i, 1000 + i))

/-! ## Rate-limit windows as the unsigned difference sees them -/

/-- The timestamps of a log whose age at `now` is at most `window`, the age
being `now - t` modulo `2^64`, which is how the unsigned subtraction of the two
purges takes it. -/
def windowed (window now : Nat) (log : List Nat) : List Nat :=
  log.filter (fun t => decide (((now : Int) - (t : Int)) % (2 ^ 64 : Int) ≤ (window : Int)))

/-! ## Accounts at the lockout threshold -/

/-- Stand-ins for the library functions whose formatted date is the decimal
numeral of the time after the letter "T": like the `put_time` format of the
source, it never yields the empty string. -/
def stampLib : AuthLib :=
  { sha256hex := fun s => "sha256(" ++ s ++ ")"
    formatTime := fun t => "T" ++ toString t
    ValidateTwoFactorCode := fun secret code => decide (secret = code)
    GenerateJWT := fun userId _ => "mock_jwt_token_" ++ toString userId }

/-- The account "frank", id 4, password "Secret#1", active, verified, not
locked, four failed attempts recorded. -/
def frankUser : User :=
  { User.none with
    id := 4, username := "frank", passwordHash := "sha256(Secret#1na)", salt := "na",
    isActive := true, isVerified := true, failedLoginAttempts := 4 }

/-- The account "grace", id 5, password "Secret#1", active, verified, not
locked, whose counter holds `INT_MAX`. -/
def graceUser : User :=
  { User.none with
    id := 5, username := "grace", passwordHash := "sha256(Secret#1na)", salt := "na",
    isActive := true, isVerified := true, failedLoginAttempts := 2147483647 }

/-- A database holding the accounts frank and grace. -/
def dbThreshold : Database := { users := [frankUser, graceUser], securityEvents := [] }

/-- A login request for `username` with the password "wrong" from 10.0.0.1. -/
def wrongRequest (username : String) : LoginRequest :=
  { username := username, password := "wrong", deviceFingerprint := "", ipAddress := "10.0.0.1",
    userAgent := "", twoFactorCode := "", rememberMe := false }

set_option exponentiation.threshold 5000

/-! ## Binary64 arithmetic

The C++ type `double` is IEEE 754 binary64, and its operations round to
nearest, ties to even. A finite value is an integer multiple `n * 2^-1074` of
the least subnormal whose magnitude has at most 53 significant bits and lies
below `2^1024`; it is represented by the integer `n`. The two zeros are
identified: the code never divides by a double that can be zero and never
reads a sign bit, so it cannot tell them apart. -/

/-- The nearest integer to `a / d`, ties to the even one. -/
def roundHalfEven (a d : Nat) : Nat :=
  if 2 * (a % d) < d then a / d
  else if d < 2 * (a % d) then a / d + 1
  else if a / d % 2 = 0 then a / d else a / d + 1

/-- The number of binary digits of `n`, in at most `fuel` steps: 1024 digits at
a time while `n` has more than 1024, then 128, 16 and 2 at a time, then one. -/
def bitsAux : Nat → Nat → Nat
  | 0, _ => 0
  | fuel + 1, n =>
    if n = 0 then 0
    else if 2 ^ 1024 ≤ n then bitsAux fuel (n / 2 ^ 1024) + 1024
    else if 2 ^ 128 ≤ n then bitsAux fuel (n / 2 ^ 128) + 128
    else if 2 ^ 16 ≤ n then bitsAux fuel (n / 2 ^ 16) + 16
    else if 2 ^ 2 ≤ n then bitsAux fuel (n / 2 ^ 2) + 2
    else bitsAux fuel (n / 2) + 1

/-- The number of binary digits of `n`. -/
def bitLength (n : Nat) : Nat := bitsAux n n

/-- The quotient `a / d` rounded to 53 significant bits, to nearest and ties to
even, as a natural number; the exponent is not bounded here. -/
def roundMagnitude (a d : Nat) : Nat :=
  roundHalfEven a (d * 2 ^ (bitLength (a / d) - 53)) * 2 ^ (bitLength (a / d) - 53)

/-- The magnitudes, in units of `2^-1074`, of the finite binary64 values: below
`2^1024` and with no bit set under the 53 leading ones. -/
def IsBinary64 (n : Nat) : Prop := n < 2 ^ 2098 ∧ n % 2 ^ (bitLength n - 53) = 0

instance (n : Nat) : Decidable (IsBinary64 n) := by
  unfold IsBinary64
  exact inferInstance

/-- A natural number with at most 53 significant bits. -/
def IsRounded (n : Nat) : Prop := ∃ m e : Nat, n = m * 2 ^ e ∧ m < 2 ^ 53

/-- A value of the C++ type `double`: a finite value `n * 2^-1074`, an
infinity, or a NaN. -/
inductive Double
  | finite (n : Int) (h : IsBinary64 n.natAbs)
  | posInf
  | negInf
  | nan
  deriving DecidableEq

/-- The binary64 value nearest to `num / den` units of `2^-1074`, ties to even;
an infinity when the rounded magnitude reaches `2^1024`. A zero denominator is
never passed and gives NaN. -/
def Double.round (num : Int) (den : Nat) : Double :=
  if den = 0 then Double.nan
  else if h : IsBinary64 (roundMagnitude num.natAbs den) then
    if num < 0 then
      Double.finite (-(roundMagnitude num.natAbs den : Int))
        (by rw [Int.natAbs_neg, Int.natAbs_ofNat]; exact h)
    else Double.finite (roundMagnitude num.natAbs den : Int) (by rw [Int.natAbs_ofNat]; exact h)
  else if num < 0 then Double.negInf else Double.posInf

/-- The double `0.0`. -/
def Double.zero : Double := Double.finite 0 (by decide)

/-- The conversion of an integer to `double`. -/
def Double.ofInt (k : Int) : Double := Double.round (k * ((2 ^ 1074 : Nat) : Int)) 1

/-- The `double` that the decimal literal `num / den` denotes. -/
def Double.ofRatio (num : Int) (den : Nat) : Double :=
  Double.round (num * ((2 ^ 1074 : Nat) : Int)) den

/-- Unary minus. -/
def Double.neg : Double → Double
  | Double.finite n h => Double.finite (-n) (by rw [Int.natAbs_neg]; exact h)
  | Double.posInf => Double.negInf
  | Double.negInf => Double.posInf
  | Double.nan => Double.nan

/-- The operator `+` on doubles. -/
def Double.add : Double → Double → Double
  | Double.finite a _, Double.finite b _ => Double.round (a + b) 1
  | Double.nan, _ => Double.nan
  | _, Double.nan => Double.nan
  | Double.posInf, Double.negInf => Double.nan
  | Double.negInf, Double.posInf => Double.nan
  | Double.posInf, _ => Double.posInf
  | _, Double.posInf => Double.posInf
  | Double.negInf, _ => Double.negInf
  | _, Double.negInf => Double.negInf

/-- The operator `-` on doubles. -/
def Double.sub (x y : Double) : Double := Double.add x (Double.neg y)

/-- The product of an infinity, negative or not, with the finite value `n`:
NaN for a zero, otherwise the infinity of the product's sign. -/
def infTimes (negative : Bool) (n : Int) : Double :=
  if n = 0 then Double.nan
  else if (decide (n < 0) != negative) = true then Double.negInf else Double.posInf

/-- The operator `*` on doubles. -/
def Double.mul : Double → Double → Double
  | Double.finite a _, Double.finite b _ => Double.round (a * b) (2 ^ 1074)
  | Double.nan, _ => Double.nan
  | _, Double.nan => Double.nan
  | Double.posInf, Double.finite b _ => infTimes false b
  | Double.negInf, Double.finite b _ => infTimes true b
  | Double.finite a _, Double.posInf => infTimes false a
  | Double.finite a _, Double.negInf => infTimes true a
  | Double.posInf, Double.posInf => Double.posInf
  | Double.negInf, Double.negInf => Double.posInf
  | Double.posInf, Double.negInf => Double.negInf
  | Double.negInf, Double.posInf => Double.negInf

/-- The operator `/` on doubles. A finite value divided by a zero is taken as
divided by `+0`; the code never divides by a zero. -/
def Double.div : Double → Double → Double
  | Double.finite a _, Double.finite b _ =>
    if b = 0 then
      (if a = 0 then Double.nan else if a < 0 then Double.negInf else Double.posInf)
    else
      Double.round
        (if b < 0 then -(a * ((2 ^ 1074 : Nat) : Int)) else a * ((2 ^ 1074 : Nat) : Int)) b.natAbs
  | Double.nan, _ => Double.nan
  | _, Double.nan => Double.nan
  | Double.finite _ _, Double.posInf => Double.zero
  | Double.finite _ _, Double.negInf => Double.zero
  | Double.posInf, Double.finite b _ => if b < 0 then Double.negInf else Double.posInf
  | Double.negInf, Double.finite b _ => if b < 0 then Double.posInf else Double.negInf
  | Double.posInf, Double.posInf => Double.nan
  | Double.posInf, Double.negInf => Double.nan
  | Double.negInf, Double.posInf => Double.nan
  | Double.negInf, Double.negInf => Double.nan

/-- The operator `<` on doubles; false when an operand is NaN. -/
def Double.lt : Double → Double → Bool
  | Double.finite a _, Double.finite b _ => decide (a < b)
  | Double.nan, _ => false
  | _, Double.nan => false
  | _, Double.negInf => false
  | Double.negInf, _ => true
  | Double.posInf, _ => false
  | _, Double.posInf => true

/-- The operator `<=` on doubles; false when an operand is NaN. -/
def Double.le : Double → Double → Bool
  | Double.finite a _, Double.finite b _ => decide (a ≤ b)
  | Double.nan, _ => false
  | _, Double.nan => false
  | Double.negInf, _ => true
  | _, Double.posInf => true
  | _, Double.negInf => false
  | Double.posInf, _ => false

/-- The function `std::abs` on doubles. -/
def Double.abs : Double → Double
  | Double.finite n h => Double.finite n.natAbs (by rw [Int.natAbs_ofNat]; exact h)
  | Double.posInf => Double.posInf
  | Double.negInf => Double.posInf
  | Double.nan => Double.nan

/-- The exact value of a finite double in units of `2^-1074`; 0 for the other
values. -/
def Double.units : Double → Int
  | Double.finite n _ => n
  | _ => 0

/-- The double is a finite value. -/
def Double.isFinite : Double → Bool
  | Double.finite _ _ => true
  | _ => false

/-- The finite double `r * 2^-1074`, for a magnitude `r`. -/
def Double.ofUnits (r : Nat) (h : IsBinary64 r) : Double :=
  Double.finite (r : Int) (by rw [Int.natAbs_ofNat]; exact h)

/-- The double is finite, not negative, and at most `g * 2^-1074`. -/
def Double.AtMost (x : Double) (g : Nat) : Prop :=
  ∃ (r : Nat) (h : IsBinary64 r), x = Double.ofUnits r h ∧ r ≤ g

/-- The double is `+inf`, or finite and at least `g * 2^-1074`. -/
def Double.AtLeast (x : Double) (g : Nat) : Prop :=
  x = Double.posInf ∨ ∃ (r : Nat) (h : IsBinary64 r), x = Double.ofUnits r h ∧ g ≤ r

/-! ## GameEngine.cpp in binary64

The same operations as above, with every `double` a binary64 value and every
`int` counter wrapped to 32 bits. The theorems that depend on how an amount is
rounded or on where a counter wraps are stated over these definitions. -/

/-- The `struct SpinResult`, with a binary64 win amount. -/
structure SpinResult64 where
  reels : List (List SlotSymbol)
  winAmount : Double
  isWin : Bool
  winLines : List Int
  isBonusTriggered : Option Bool
  isJackpot : Option Bool
  deriving DecidableEq

/-- The `struct GameStats`, with binary64 totals and `int` counters. -/
structure GameStats64 where
  totalBet : Double
  totalWin : Double
  totalSpins : Int
  winningSpins : Int
  rtp : Double
  deriving DecidableEq

/-- The mutable members of `class GameEngine`, with binary64 amounts. -/
structure GameEngine64 where
  currentBalance : Double
  currentBet : Double
  stats : GameStats64
  isSpinning : Bool
  lastSpinTime : Nat
  spinHistory : List Nat
  rngDraws : Nat
  deriving DecidableEq

/-- The statistics `{0.0, 0.0, 0, 0, 96.5}`. -/
def initialStats64 : GameStats64 :=
  { totalBet := Double.zero, totalWin := Double.zero, totalSpins := 0, winningSpins := 0,
    rtp := Double.ofRatio 965 10 }

/-- The state the constructor leaves: balance 0.0, bet 1.0, statistics
`{0.0, 0.0, 0, 0, 96.5}`, no history. -/
def GameEngine64.fresh : GameEngine64 :=
  { currentBalance := Double.zero, currentBet := Double.ofInt 1, stats := initialStats64,
    isSpinning := false, lastSpinTime := 0, spinHistory := [], rngDraws := 0 }

/-- The loop of `GenerateReel`: `n` more positions, each from one draw
`rng() % 1000`. -/
def generateSymbols64 (rng : Nat → Nat) : Nat → GameEngine64 → List SlotSymbol × GameEngine64
  | 0, e => ([], e)
  | n + 1, e =>
    let randomValue := rng e.rngDraws % 1000
    let rest := generateSymbols64 rng n { e with rngDraws := e.rngDraws + 1 }
    (symbolFor randomValue :: rest.1, rest.2)

/-- `GameEngine::GenerateReel`. -/
def GenerateReel64 (rng : Nat → Nat) (e : GameEngine64) : List SlotSymbol × GameEngine64 :=
  generateSymbols64 rng SYMBOL_COUNT e

/-- The reel loop of `Spin`: `n` more reels. -/
def generateReels64 (rng : Nat → Nat) :
    Nat → GameEngine64 → List (List SlotSymbol) × GameEngine64
  | 0, e => ([], e)
  | n + 1, e =>
    let reel := GenerateReel64 rng e
    let rest := generateReels64 rng n reel.2
    (reel.1 :: rest.1, rest.2)

/-- One iteration of the payline loop of `CalculateWin`: `lineWin` is the
rounded product `currentBet * 0.1`, and it is added with one more rounding. -/
def paylineStep64 (e : GameEngine64) (reels : List (List SlotSymbol)) (result : SpinResult64)
    (line : Int) : Option SpinResult64 :=
  match CheckWinLine reels line with
  | none => none
  | some true =>
    some { result with
      winLines := result.winLines ++ [line]
      winAmount := Double.add result.winAmount (Double.mul e.currentBet (Double.ofRatio 1 10))
      isWin := true }
  | some false => some result

/-- The payline loop of `CalculateWin` over the remaining lines. -/
def paylineLoop64 (e : GameEngine64) (reels : List (List SlotSymbol)) :
    List Int → SpinResult64 → Option SpinResult64
  | [], result => some result
  | line :: rest, result =>
    match paylineStep64 e reels result line with
    | none => none
    | some result1 => paylineLoop64 e reels rest result1

/-- The scatter loops of `CalculateWin`, counting in an `int`. -/
def scatterCount64 (reels : List (List SlotSymbol)) : Int :=
  reels.foldl
    (fun n reel => reel.foldl (fun m symbol => if symbol = SCATTER then wrapInt32 (m + 1) else m) n)
    0

/-- The local `SpinResult result;` of `CalculateWin` after its first three
assignments: the two flags have not been written. -/
def CalculateWin64.start (reels : List (List SlotSymbol)) : SpinResult64 :=
  { reels := reels, winAmount := Double.zero, isWin := false, winLines := [],
    isBonusTriggered := none, isJackpot := none }

/-- The payline part of `CalculateWin`: the result after the loop over the
`PAYLINES` lines. -/
def CalculateWin64.paylines (e : GameEngine64) (reels : List (List SlotSymbol)) :
    Option SpinResult64 :=
  paylineLoop64 e reels ((List.range PAYLINES).map Int.ofNat) (CalculateWin64.start reels)

/-- The scatter payout `currentBet * scatterCount * 2`: the count is converted
to `double`, and each of the two products is rounded. -/
def scatterPayout64 (currentBet : Double) (sc : Int) : Double :=
  Double.mul (Double.mul currentBet (Double.ofInt sc)) (Double.ofInt 2)

/-- `GameEngine::CalculateWin`. -/
def CalculateWin64 (e : GameEngine64) (reels : List (List SlotSymbol)) : Option SpinResult64 :=
  match CalculateWin64.paylines e reels with
  | none => none
  | some result1 =>
    let sc := scatterCount64 reels
    let result2 : SpinResult64 :=
      if 3 ≤ sc then
        { result1 with
          isBonusTriggered := some true
          winAmount := Double.add result1.winAmount (scatterPayout64 e.currentBet sc)
          isWin := true }
      else result1
    let result3 : SpinResult64 :=
      if Double.lt (Double.mul e.currentBet (Double.ofInt 100)) result2.winAmount = true then
        { result2 with isJackpot := some true }
      else result2
    some result3

/-- `GameEngine::CanSpin`. -/
def CanSpin64 (e : GameEngine64) : Bool :=
  !e.isSpinning && Double.le e.currentBet e.currentBalance

/-- `GameEngine::ValidateSpinTiming`, reading the clock as `currentTime`. -/
def ValidateSpinTiming64 (e : GameEngine64) (currentTime : Nat) : Bool × GameEngine64 :=
  if u64sub currentTime e.lastSpinTime < 100 then (false, e)
  else (true, { e with lastSpinTime := currentTime % U64 })

/-- The sum loop of `DetectPatternAbuse`: each interval is converted to
`double` and added to `avgInterval` with one rounding. -/
def sumIntervals64 (intervals : List Nat) : Double :=
  intervals.foldl
    (fun (avgInterval : Double) (interval : Nat) =>
      Double.add avgInterval (Double.ofInt (interval : Int)))
    Double.zero

/-- The test `std::abs(static_cast<double>(interval) - avgInterval) < 10`. -/
def isRegular64 (avgInterval : Double) (interval : Nat) : Bool :=
  Double.lt (Double.abs (Double.sub (Double.ofInt interval) avgInterval)) (Double.ofInt 10)

/-- The counting loop of `DetectPatternAbuse`, counting in an `int`. -/
def regularCount64 (avgInterval : Double) (intervals : List Nat) : Int :=
  intervals.foldl
    (fun (regularCount : Int) (interval : Nat) =>
      if isRegular64 avgInterval interval = true then wrapInt32 (regularCount + 1)
      else regularCount)
    0

/-- The verdict of `DetectPatternAbuse` on the intervals: the mean is the
rounded quotient of the rounded sum by the size, and the count, converted to
`double`, is compared with the rounded product `intervals.size() * 0.8`. -/
def tooRegular64 (intervals : List Nat) : Bool :=
  let avgInterval := Double.div (sumIntervals64 intervals) (Double.ofInt intervals.length)
  Double.lt (Double.mul (Double.ofInt intervals.length) (Double.ofRatio 8 10))
    (Double.ofInt (regularCount64 avgInterval intervals))

/-- `GameEngine::DetectPatternAbuse`. -/
def DetectPatternAbuse64 (e : GameEngine64) : Bool :=
  if e.spinHistory.length < 10 then false
  else if 5 ≤ (intervalsOf e.spinHistory).length then tooRegular64 (intervalsOf e.spinHistory)
  else false

/-- `GameEngine::UpdateSpinHistory`, reading the clock as `currentTime`. -/
def UpdateSpinHistory64 (e : GameEngine64) (currentTime : Nat) : GameEngine64 :=
  let pushed := e.spinHistory ++ [currentTime % U64]
  { e with spinHistory := if pushed.length > 100 then pushed.tail else pushed }

/-- `GameEngine::ResetStats`. -/
def ResetStats64 (e : GameEngine64) : GameEngine64 := { e with stats := initialStats64 }

/-- `GameEngine::SetBalance`. -/
def SetBalance64 (e : GameEngine64) (balance : Double) : GameEngine64 :=
  { e with currentBalance := balance }

/-- `GameEngine::SetBet`. -/
def SetBet64 (e : GameEngine64) (bet : Double) : GameEngine64 := { e with currentBet := bet }

/-- `GameEngine::Shutdown`. -/
def Shutdown64 (e : GameEngine64) : GameEngine64 := { e with spinHistory := [] }

/-- The `SpinResult result` that `Spin` prepares before its checks and returns
on every rejection. -/
def emptyResult64 : SpinResult64 :=
  { reels := [], winAmount := Double.zero, isWin := false, winLines := [],
    isBonusTriggered := some false, isJackpot := some false }

/-- The statistics block of `Spin`: totals, counters, then the RTP. -/
def recordStats64 (stats : GameStats64) (betAmount : Double) (result : SpinResult64) :
    GameStats64 :=
  let s1 : GameStats64 :=
    { stats with
      totalBet := Double.add stats.totalBet betAmount
      totalWin := Double.add stats.totalWin result.winAmount
      totalSpins := wrapInt32 (stats.totalSpins + 1)
      winningSpins :=
        if result.isWin then wrapInt32 (stats.winningSpins + 1) else stats.winningSpins }
  if Double.lt Double.zero s1.totalBet = true then
    { s1 with rtp := Double.mul (Double.div s1.totalWin s1.totalBet) (Double.ofInt 100) }
  else s1

/-- The tail of `Spin` after `CalculateWin`: credit the win, update the
statistics, record the spin time. -/
def Spin64.settle (e : GameEngine64) (betAmount : Double) (result : SpinResult64)
    (tRecord : Nat) : GameEngine64 :=
  let e2 : GameEngine64 :=
    { e with currentBalance := Double.add e.currentBalance result.winAmount }
  let e3 : GameEngine64 := { e2 with stats := recordStats64 e2.stats betAmount result }
  UpdateSpinHistory64 e3 tRecord

/-- What `Spin` does once the security and balance checks have passed. -/
def Spin64.admitted (e : GameEngine64) (betAmount : Double) (rng : Nat → Nat) (tRecord : Nat) :
    Option (GameEngine64 × SpinResult64) :=
  let e1 : GameEngine64 :=
    { e with currentBalance := Double.sub e.currentBalance betAmount, currentBet := betAmount }
  let gen := generateReels64 rng REEL_COUNT e1
  match CalculateWin64 gen.2 gen.1 with
  | none => none
  | some result => some (Spin64.settle gen.2 betAmount result tRecord, result)

/-- `GameEngine::Spin`. The clock is read as `tCheck` by `ValidateSpinTiming`
and as `tRecord` by `UpdateSpinHistory`; the `||` chain of the security checks
short-circuits as in the source. -/
def Spin64 (e : GameEngine64) (betAmount : Double) (rng : Nat → Nat) (tCheck tRecord : Nat) :
    Option (GameEngine64 × SpinResult64) :=
  if CanSpin64 e = false then some (e, emptyResult64)
  else
    let timing := ValidateSpinTiming64 e tCheck
    if timing.1 = false then some (timing.2, emptyResult64)
    else if DetectPatternAbuse64 timing.2 = true then some (timing.2, emptyResult64)
    else if Double.lt timing.2.currentBalance betAmount = true then some (timing.2, emptyResult64)
    else Spin64.admitted timing.2 betAmount rng tRecord

/-- The value of an amount `w` after `n` statements `w += step`, each addition
rounded. -/
def addTimes (w step : Double) : Nat → Double
  | 0 => w
  | n + 1 => Double.add (addTimes w step n) step

/-- An engine as constructed, with the current bet `bet`. -/
def engineWithBet (bet : Double) : GameEngine64 := { GameEngine64.fresh with currentBet := bet }

/-- A grid with three scatters and no matching line (middle row CHERRY, LEMON,
...). -/
def gridThreeScatters : List (List SlotSymbol) :=
  [[SCATTER, CHERRY, SCATTER], [SCATTER, LEMON, CHERRY], [CHERRY, CHERRY, CHERRY],
    [CHERRY, CHERRY, CHERRY], [CHERRY, CHERRY, CHERRY]]

/-- A call `Spin(betAmount)` is admitted: it passes `CanSpin`, the timing
check, the pattern check and the balance check. -/
def SpinAdmitted64 (e : GameEngine64) (betAmount : Double) (tCheck : Nat) : Prop :=
  CanSpin64 e = true ∧ (ValidateSpinTiming64 e tCheck).1 = true ∧
    DetectPatternAbuse64 (ValidateSpinTiming64 e tCheck).2 = false ∧
    Double.lt e.currentBalance betAmount = false

/-- A fresh engine after `SetBalance(10)`: balance 10, current bet 1. -/
def fundedEngine64 : GameEngine64 := SetBalance64 GameEngine64.fresh (Double.ofInt 10)

/-! ## Sequences of public calls on the binary64 engine -/

/-- `GameEngine::Initialize`: it reserves capacity for the history, which
changes no value, and returns true. -/
def Initialize64 (e : GameEngine64) : Bool × GameEngine64 := (true, e)

/-- `GameEngine::Update`, whose body is empty. -/
def Update64 (e : GameEngine64) : GameEngine64 := e

/-- `GameEngine::ReportSuspiciousActivity`, whose body is empty. -/
def ReportSuspiciousActivity64 (e : GameEngine64) : GameEngine64 := e

/-- The public calls of `GameEngine` other than `Shutdown` and the `const`
readers: `Spin` with its bet and two clock readings, `SetBalance`, `SetBet`,
`ResetStats`, `Initialize`, `Update` and `ReportSuspiciousActivity`. -/
inductive EngineCall64
  | callSpin (betAmount : Double) (tCheck tRecord : Nat)
  | callSetBalance (balance : Double)
  | callSetBet (bet : Double)
  | callResetStats
  | callInitialize
  | callUpdate
  | callReportSuspiciousActivity

/-- The engine after one public call. -/
def applyCall64 (rng : Nat → Nat) (e : GameEngine64) : EngineCall64 → Option GameEngine64
  | EngineCall64.callSpin betAmount tCheck tRecord =>
    (Spin64 e betAmount rng tCheck tRecord).map Prod.fst
  | EngineCall64.callSetBalance balance => some (SetBalance64 e balance)
  | EngineCall64.callSetBet bet => some (SetBet64 e bet)
  | EngineCall64.callResetStats => some (ResetStats64 e)
  | EngineCall64.callInitialize => some (Initialize64 e).2
  | EngineCall64.callUpdate => some (Update64 e)
  | EngineCall64.callReportSuspiciousActivity => some (ReportSuspiciousActivity64 e)

/-- The engine after a sequence of public calls. -/
def engineRun64 (rng : Nat → Nat) : GameEngine64 → List EngineCall64 → Option GameEngine64
  | e, [] => some e
  | e, call :: rest =>
    match applyCall64 rng e call with
    | none => none
    | some e1 => engineRun64 rng e1 rest

/-- A funded engine, balance 100 and bet 1, whose history holds 20 timestamps
spaced 500 ms apart, the last spin at 10500. -/
def flaggedEngine64 : GameEngine64 :=
  { GameEngine64.fresh with
    currentBalance := Double.ofInt 100, lastSpinTime := 10500,
    spinHistory := evenHistory 1000 500 20 }

/-- A funded engine whose history holds 10 timestamps at irregular distances
(700, 2400, 500, 3300, 200, 2900, 300, 2700 and 2500 ms). -/
def jitterEngine64 : GameEngine64 :=
  { GameEngine64.fresh with
    currentBalance := Double.ofInt 100, lastSpinTime := 16500,
    spinHistory := [1000, 1700, 4100, 4600, 7900, 8100, 11000, 11300, 14000, 16500] }

/-! ## PaymentSystem.cpp in binary64 arithmetic

The wallet, history and fraud-detection members of `class PaymentSystem` with
every `double` a binary64 value. -/

/-- The `struct Transaction`, its `double amount` a binary64 value. -/
structure Transaction64 where
  transactionId : String
  userId : String
  amount : Double
  currency : Currency
  method : PaymentMethod
  status : TransactionStatus
  timestamp : Nat
  description : String
  merchantReference : String
  gatewayResponse : String
  isRefundable : Bool
  deriving DecidableEq

/-- The `struct WalletBalance`, its `double balance` a binary64 value. -/
structure WalletBalance64 where
  balance : Double
  currency : Currency
  lastUpdated : Nat
  recentTransactions : List Transaction64
  deriving DecidableEq

/-- The wallet, history and fraud-detection members of `class PaymentSystem`.
A map whose `find` is used has `none` for an absent key. -/
structure PaymentSystem64 where
  userWallets : String → Option WalletBalance64
  transactionHistory : List Transaction64
  userTransactionTimes : String → List Nat
  dailySpendLimits : String → Option Double

/-- The state the constructor leaves: every map and the history empty. -/
def PaymentSystem64.new : PaymentSystem64 :=
  { userWallets := fun _ => none, transactionHistory := [],
    userTransactionTimes := fun _ => [], dailySpendLimits := fun _ => none }

/-- `PaymentSystem::Initialize`: `dailySpendLimits["default"] = 1000.0`. -/
def PaymentSystem64.Initialize (p : PaymentSystem64) : PaymentSystem64 :=
  { p with
    dailySpendLimits :=
      Function.update p.dailySpendLimits "default" (some (Double.ofInt 1000)) }

/-- `PaymentSystem::GetDailySpendLimit`: the entry of the user when `find`
succeeds, otherwise `dailySpendLimits["default"]`, which inserts 0.0 when that
key is absent too. -/
def PaymentSystem64.GetDailySpendLimit (p : PaymentSystem64) (userId : String) : Double × PaymentSystem64 :=
  match p.dailySpendLimits userId with
  | some limit => (limit, p)
  | none =>
    match p.dailySpendLimits "default" with
    | some limit => (limit, p)
    | none =>
      (Double.zero,
        { p with
          dailySpendLimits := Function.update p.dailySpendLimits "default" (some Double.zero) })

/-- The earlier transaction attempts of the user that are at most one hour old
at `now`. -/
def PaymentSystem64.recentAttempts (p : PaymentSystem64) (userId : String) (now : Nat) : List Nat :=
  (p.userTransactionTimes userId).filter (fun t => decide (now - t ≤ 3600000))

/-- `PaymentSystem::DeductFunds`. The value of `GenerateTransactionId()` is the
input `transactionId` and the clock is read as `currentTime`; the two string
members the function leaves alone are empty. -/
def PaymentSystem64.DeductFunds (p : PaymentSystem64) (userId : String) (amount : Double)
    (transactionId : String) (currentTime : Nat) : Bool × PaymentSystem64 :=
  if Double.le amount Double.zero = true then (false, p)
  else
    match p.userWallets userId with
    | none => (false, p)
    | some wallet =>
      if Double.lt wallet.balance amount = true then (false, p)
      else
        let transaction : Transaction64 :=
          { transactionId := transactionId, userId := userId, amount := Double.neg amount,
            currency := Currency.USD, method := PaymentMethod.DEBIT_CARD,
            status := TransactionStatus.COMPLETED, timestamp := currentTime % U64,
            description := "Funds deducted for game play", merchantReference := "",
            gatewayResponse := "", isRefundable := false }
        let wallet1 : WalletBalance64 :=
          { wallet with
            balance := Double.sub wallet.balance amount
            lastUpdated := transaction.timestamp
            recentTransactions := wallet.recentTransactions ++ [transaction] }
        (true,
          { p with
            userWallets := Function.update p.userWallets userId (some wallet1)
            transactionHistory := p.transactionHistory ++ [transaction] })

/-- A payment system in which "alice" holds a wallet of `balance` and nobody
else holds one. -/
def paymentWallet64 (balance : Double) : PaymentSystem64 :=
  { PaymentSystem64.new with
    userWallets := fun userId =>
      if userId = "alice" then
        some { balance := balance, currency := Currency.USD, lastUpdated := 0,
               recentTransactions := [] }
      else none }

/-! # Theorems -/

/-! ## Shape of generated grids and definedness of the evaluation -/

theorem IsGrid.rowsOk {reels : List (List SlotSymbol)} (h : IsGrid reels) : RowsOk reels := by
  intro reel hr
  have := h.2 reel hr
  simp [SYMBOL_COUNT] at this
  omega

theorem generateSymbols_length (rng : Nat → Nat) (n : Nat) (e : GameEngine) :
    (generateSymbols rng n e).1.length = n := by
  induction n generalizing e with
  | zero => rfl
  | succ n ih => simp [generateSymbols, ih]

theorem generateSymbols_state (rng : Nat → Nat) (n : Nat) (e : GameEngine) :
    (generateSymbols rng n e).2 = { e with rngDraws := e.rngDraws + n } := by
  induction n generalizing e with
  | zero => rfl
  | succ n ih => simp [generateSymbols, ih]; omega

theorem generateReels_length (rng : Nat → Nat) (n : Nat) (e : GameEngine) :
    (generateReels rng n e).1.length = n := by
  induction n generalizing e with
  | zero => rfl
  | succ n ih => simp [generateReels, ih]

theorem generateReels_rows (rng : Nat → Nat) (n : Nat) (e : GameEngine) :
    ∀ reel ∈ (generateReels rng n e).1, reel.length = SYMBOL_COUNT := by
  induction n generalizing e with
  | zero => intro reel h; simp [generateReels] at h
  | succ n ih =>
    intro reel h
    simp only [generateReels, List.mem_cons] at h
    rcases h with h | h
    · rw [h]; exact generateSymbols_length rng SYMBOL_COUNT e
    · exact ih _ reel h

theorem generateReels_state (rng : Nat → Nat) (n : Nat) (e : GameEngine) :
    (generateReels rng n e).2 = { e with rngDraws := e.rngDraws + SYMBOL_COUNT * n } := by
  induction n generalizing e with
  | zero => rfl
  | succ n ih =>
    simp only [generateReels, GenerateReel, ih, generateSymbols_state]
    simp only [GameEngine.mk.injEq, true_and]
    ring

theorem generateReels_isGrid (rng : Nat → Nat) (e : GameEngine) :
    IsGrid (generateReels rng REEL_COUNT e).1 :=
  ⟨generateReels_length rng REEL_COUNT e, generateReels_rows rng REEL_COUNT e⟩

theorem middleSymbol_defined {reels : List (List SlotSymbol)} (h : RowsOk reels) {i : Nat}
    (hi : i < reels.length) : ∃ s, middleSymbol reels i = some s := by
  have h2 : 2 ≤ (reels[i]).length := h _ (List.getElem_mem hi)
  have h1 : 1 < (reels[i]).length := by omega
  refine ⟨(reels[i])[1], ?_⟩
  simp [middleSymbol, List.getElem?_eq_getElem hi, List.getElem?_eq_getElem h1]

theorem countMatches_defined {reels : List (List SlotSymbol)} (h : RowsOk reels)
    (firstSymbol : SlotSymbol) (n i matchCount : Nat) (hi : i + n ≤ reels.length) :
    ∃ m, countMatches reels firstSymbol n i matchCount = some m := by
  induction n generalizing i matchCount with
  | zero => exact ⟨matchCount, rfl⟩
  | succ n ih =>
    obtain ⟨s, hs⟩ := middleSymbol_defined h (show i < reels.length by omega)
    simp only [countMatches, hs]
    split
    · exact ih (i + 1) (matchCount + 1) (by omega)
    · exact ⟨matchCount, rfl⟩

theorem CheckWinLine_defined {reels : List (List SlotSymbol)} (h : RowsOk reels) (lineIndex : Int) :
    ∃ b, CheckWinLine reels lineIndex = some b := by
  unfold CheckWinLine
  split
  · exact ⟨false, rfl⟩
  · rename_i hlen
    obtain ⟨s, hs⟩ := middleSymbol_defined h (show 0 < reels.length by omega)
    obtain ⟨m, hm⟩ := countMatches_defined h s (min reels.length 5 - 1) 1 1 (by omega)
    simp only [hs, hm]
    exact ⟨_, rfl⟩

/-- The line index is never read. -/
theorem CheckWinLine_line (reels : List (List SlotSymbol)) (i j : Int) :
    CheckWinLine reels i = CheckWinLine reels j := rfl

/-- The payline loop when every line does not match. -/
theorem paylineLoop_false (e : GameEngine) {reels : List (List SlotSymbol)}
    (h : CheckWinLine reels 0 = some false) (lines : List Int) (result : SpinResult) :
    paylineLoop e reels lines result = some result := by
  induction lines generalizing result with
  | nil => rfl
  | cons line rest ih =>
    have hl : CheckWinLine reels line = some false := (CheckWinLine_line reels line 0).trans h
    simp [paylineLoop, paylineStep, hl, ih]

/-- The payline loop when every line matches: each line is appended and paid
a tenth of the current bet. -/
theorem paylineLoop_true (e : GameEngine) {reels : List (List SlotSymbol)}
    (h : CheckWinLine reels 0 = some true) (lines : List Int) (result : SpinResult) :
    paylineLoop e reels lines result =
      some { result with
        winLines := result.winLines ++ lines
        winAmount := result.winAmount + lines.length * (e.currentBet * (1 / 10))
        isWin := if lines = [] then result.isWin else true } := by
  induction lines generalizing result with
  | nil => simp [paylineLoop]
  | cons line rest ih =>
    have hl : CheckWinLine reels line = some true := (CheckWinLine_line reels line 0).trans h
    simp only [paylineLoop, paylineStep, hl, ih]
    simp only [List.append_assoc, List.singleton_append, List.length_cons, Nat.cast_add,
      Nat.cast_one, reduceCtorEq, if_false, Option.some.injEq, SpinResult.mk.injEq, true_and,
      and_true]
    constructor
    · ring
    · split <;> rfl

theorem CalculateWin_paylines_defined (e : GameEngine) {reels : List (List SlotSymbol)}
    (h : RowsOk reels) : ∃ r, CalculateWin.paylines e reels = some r := by
  obtain ⟨b, hb⟩ := CheckWinLine_defined h 0
  cases b with
  | false => exact ⟨_, paylineLoop_false e hb _ _⟩
  | true => exact ⟨_, paylineLoop_true e hb _ _⟩

theorem CalculateWin_defined (e : GameEngine) {reels : List (List SlotSymbol)}
    (h : RowsOk reels) : ∃ r, CalculateWin e reels = some r := by
  obtain ⟨r1, hr1⟩ := CalculateWin_paylines_defined e h
  simp only [CalculateWin, hr1]
  exact ⟨_, rfl⟩

/-! ## The two outcomes of `Spin` -/

theorem ValidateSpinTiming_frame (e : GameEngine) (currentTime : Nat) :
    (ValidateSpinTiming e currentTime).2.currentBalance = e.currentBalance ∧
    (ValidateSpinTiming e currentTime).2.currentBet = e.currentBet ∧
    (ValidateSpinTiming e currentTime).2.stats = e.stats ∧
    (ValidateSpinTiming e currentTime).2.isSpinning = e.isSpinning ∧
    (ValidateSpinTiming e currentTime).2.spinHistory = e.spinHistory ∧
    (ValidateSpinTiming e currentTime).2.rngDraws = e.rngDraws := by
  unfold ValidateSpinTiming
  split <;> simp

theorem recordStats_totalBet (stats : GameStats) (betAmount : ℚ) (result : SpinResult) :
    (recordStats stats betAmount result).totalBet = stats.totalBet + betAmount := by
  unfold recordStats
  dsimp only
  split <;> rfl

theorem recordStats_totalWin (stats : GameStats) (betAmount : ℚ) (result : SpinResult) :
    (recordStats stats betAmount result).totalWin = stats.totalWin + result.winAmount := by
  unfold recordStats
  dsimp only
  split <;> rfl

/-- An admitted spin always completes, and this is the state it leaves. -/
theorem Spin_admitted_spec (e : GameEngine) (betAmount : ℚ) (rng : Nat → Nat) (tRecord : Nat) :
    ∃ e2 result, Spin.admitted e betAmount rng tRecord = some (e2, result) ∧
      CalculateWin
        (generateReels rng REEL_COUNT
          { e with currentBalance := e.currentBalance - betAmount, currentBet := betAmount }).2
        (generateReels rng REEL_COUNT
          { e with currentBalance := e.currentBalance - betAmount, currentBet := betAmount }).1
        = some result ∧
      e2.currentBalance = e.currentBalance - betAmount + result.winAmount ∧
      e2.currentBet = betAmount ∧
      e2.stats = recordStats e.stats betAmount result ∧
      e2.isSpinning = e.isSpinning ∧
      e2.lastSpinTime = e.lastSpinTime ∧
      e2.spinHistory = (UpdateSpinHistory e tRecord).spinHistory ∧
      e2.rngDraws = e.rngDraws + SYMBOL_COUNT * REEL_COUNT := by
  obtain ⟨result, hres⟩ := CalculateWin_defined
    (generateReels rng REEL_COUNT
      { e with currentBalance := e.currentBalance - betAmount, currentBet := betAmount }).2
    (generateReels_isGrid rng
      { e with currentBalance := e.currentBalance - betAmount, currentBet := betAmount }).rowsOk
  refine ⟨Spin.settle (generateReels rng REEL_COUNT
      { e with currentBalance := e.currentBalance - betAmount, currentBet := betAmount }).2
      betAmount result tRecord, result, ?_, hres, ?_⟩
  · simp only [Spin.admitted, hres]
  · simp [Spin.settle, generateReels_state, UpdateSpinHistory]

/-- The three ways a call of `Spin` can go: rejected before the timing check,
rejected after it, or admitted. -/
theorem Spin_cases (e : GameEngine) (betAmount : ℚ) (rng : Nat → Nat) (tCheck tRecord : Nat) :
    (CanSpin e = false ∧ Spin e betAmount rng tCheck tRecord = some (e, emptyResult)) ∨
    (CanSpin e = true ∧
      ((ValidateSpinTiming e tCheck).1 = false ∨
        DetectPatternAbuse (ValidateSpinTiming e tCheck).2 = true ∨
        (ValidateSpinTiming e tCheck).2.currentBalance < betAmount) ∧
      Spin e betAmount rng tCheck tRecord = some ((ValidateSpinTiming e tCheck).2, emptyResult)) ∨
    (CanSpin e = true ∧ (ValidateSpinTiming e tCheck).1 = true ∧
      DetectPatternAbuse (ValidateSpinTiming e tCheck).2 = false ∧
      ¬ (ValidateSpinTiming e tCheck).2.currentBalance < betAmount ∧
      Spin e betAmount rng tCheck tRecord =
        Spin.admitted (ValidateSpinTiming e tCheck).2 betAmount rng tRecord) := by
  unfold Spin
  by_cases h1 : CanSpin e = false
  · left; simp [h1]
  · right
    have h1t : CanSpin e = true := by simpa using h1
    by_cases h2 : (ValidateSpinTiming e tCheck).1 = false
    · left; simp [h1t, h2]
    · have h2t : (ValidateSpinTiming e tCheck).1 = true := by simpa using h2
      by_cases h3 : DetectPatternAbuse (ValidateSpinTiming e tCheck).2 = true
      · left; simp [h1t, h2t, h3]
      · have h3f : DetectPatternAbuse (ValidateSpinTiming e tCheck).2 = false := by simpa using h3
        by_cases h4 : (ValidateSpinTiming e tCheck).2.currentBalance < betAmount
        · left; simp [h1t, h2t, h3f, h4]
        · right; simp [h1t, h2t, h3f, h4]

/-! ## C1 -/

/-- C1. Every call of `Spin`, from any engine state, with any bet, generator
and clock readings, returns, and the change of the balance equals the change of
`stats.totalWin` minus the change of `stats.totalBet`. -/
theorem C1_spin_balance_matches_ledger (e : GameEngine) (betAmount : ℚ) (rng : Nat → Nat)
    (tCheck tRecord : Nat) :
    ∃ e2 result, Spin e betAmount rng tCheck tRecord = some (e2, result) ∧
      e2.currentBalance - e.currentBalance =
        (e2.stats.totalWin - e.stats.totalWin) - (e2.stats.totalBet - e.stats.totalBet) := by
  obtain ⟨hbal, -, hstats, -⟩ := ValidateSpinTiming_frame e tCheck
  rcases Spin_cases e betAmount rng tCheck tRecord with ⟨-, h⟩ | ⟨-, -, h⟩ | ⟨-, -, -, -, h⟩
  · exact ⟨e, emptyResult, h, by simp⟩
  · exact ⟨_, emptyResult, h, by rw [hbal, hstats]; simp⟩
  · obtain ⟨e2, result, hs, -, hb, -, hst, -⟩ :=
      Spin_admitted_spec (ValidateSpinTiming e tCheck).2 betAmount rng tRecord
    refine ⟨e2, result, h.trans hs, ?_⟩
    rw [hb, hst, recordStats_totalBet, recordStats_totalWin, hbal, hstats]
    ring

/-! ## Evaluation at the generator `rngNoWin` -/

theorem CheckWinLine_gridNoWin : CheckWinLine gridNoWin 0 = some false := by decide

theorem scatterCount_gridNoWin : scatterCount gridNoWin = 0 := by decide

theorem generateReels_rngNoWin (e : GameEngine) (h : e.rngDraws = 0) :
    generateReels rngNoWin REEL_COUNT e = (gridNoWin, { e with rngDraws := 15 }) := by
  simp [generateReels, GenerateReel, generateSymbols, REEL_COUNT, SYMBOL_COUNT, h, rngNoWin,
    symbolFor, gridNoWin]

/-! ## C2 -/

/-- C2, the code at a negative bet. On a fresh engine with balance 10 the call
`Spin(-5)` is not rejected: it consumes 15 random draws, returns a generated
grid, raises the balance from 10 to 15, stores -5 as the current bet, counts a
spin, records -5 as wagered and writes the jackpot flag. The claim asks for the
empty result with balance, bet and statistics unchanged and no draw. -/
theorem C2_negative_bet_is_admitted :
    Spin fundedEngine (-5) rngNoWin 1000 1001 =
      some ({ currentBalance := 15, currentBet := -5,
              stats := { totalBet := -5, totalWin := 0, totalSpins := 1, winningSpins := 0,
                         rtp := 965 / 10 },
              isSpinning := false, lastSpinTime := 1000, spinHistory := [1001], rngDraws := 15 },
            { reels := gridNoWin, winAmount := 0, isWin := false, winLines := [],
              isBonusTriggered := none, isJackpot := some true }) := by
  norm_num [Spin, CanSpin, fundedEngine, GameEngine.fresh, ValidateSpinTiming, u64sub, U64,
    DetectPatternAbuse, Spin.admitted, generateReels_rngNoWin, CalculateWin, CalculateWin.paylines,
    paylineLoop_false _ CheckWinLine_gridNoWin, scatterCount_gridNoWin, CalculateWin.start,
    Spin.settle, recordStats, UpdateSpinHistory]

/-! ## C3 -/

/-- C3 as stated fails. With balance 10 the call `Spin(20)` at clock reading
1000 returns the empty result, yet the engine is not what it was: the
last-spin timestamp went from 0 to 1000. -/
theorem C3_counterexample :
    fundedEngine.currentBalance < 20 ∧
    Spin fundedEngine 20 rngNoWin 1000 1001 =
      some ({ fundedEngine with lastSpinTime := 1000 }, emptyResult) ∧
    ({ fundedEngine with lastSpinTime := 1000 } : GameEngine).lastSpinTime
      ≠ fundedEngine.lastSpinTime := by
  refine ⟨?_, ?_, ?_⟩
  · norm_num [fundedEngine, GameEngine.fresh]
  · norm_num [Spin, CanSpin, fundedEngine, GameEngine.fresh, ValidateSpinTiming, u64sub, U64,
      DetectPatternAbuse]
  · simp [fundedEngine, GameEngine.fresh]

/-- C3, amended. For every engine state and every bet greater than the
balance, `Spin` returns the empty result and leaves the balance, the current
bet, the statistics, the spin history, the spinning flag and the generator
untouched. The last-spin timestamp is unchanged when `CanSpin` fails or the call
comes less than 100 ms after it; otherwise it becomes the time of the call. -/
theorem C3_insufficient_funds_frame (e : GameEngine) (betAmount : ℚ) (rng : Nat → Nat)
    (tCheck tRecord : Nat) (h : e.currentBalance < betAmount) :
    ∃ e2, Spin e betAmount rng tCheck tRecord = some (e2, emptyResult) ∧
      e2.currentBalance = e.currentBalance ∧
      e2.currentBet = e.currentBet ∧
      e2.stats = e.stats ∧
      e2.spinHistory = e.spinHistory ∧
      e2.isSpinning = e.isSpinning ∧
      e2.rngDraws = e.rngDraws ∧
      e2.lastSpinTime =
        (if CanSpin e = true ∧ ¬ u64sub tCheck e.lastSpinTime < 100 then tCheck % U64
         else e.lastSpinTime) := by
  obtain ⟨hbal, hbet, hstats, hspin, hhist, hrng⟩ := ValidateSpinTiming_frame e tCheck
  rcases Spin_cases e betAmount rng tCheck tRecord with ⟨hc, hs⟩ | ⟨hc, -, hs⟩ | ⟨-, -, -, hnb, -⟩
  · exact ⟨e, hs, rfl, rfl, rfl, rfl, rfl, rfl, by simp [hc]⟩
  · refine ⟨_, hs, hbal, hbet, hstats, hhist, hspin, hrng, ?_⟩
    unfold ValidateSpinTiming
    by_cases ht : u64sub tCheck e.lastSpinTime < 100
    · simp [ht]
    · simp [ht, hc]
  · exact absurd (hbal ▸ h) hnb

theorem C3_insufficient_funds_frame_witness :
    fundedEngine.currentBalance < 20 ∧
    ∃ e2, Spin fundedEngine 20 rngNoWin 1000 1001 = some (e2, emptyResult) ∧
      e2.currentBalance = fundedEngine.currentBalance ∧
      e2.currentBet = fundedEngine.currentBet ∧
      e2.stats = fundedEngine.stats ∧
      e2.spinHistory = fundedEngine.spinHistory ∧
      e2.isSpinning = fundedEngine.isSpinning ∧
      e2.rngDraws = fundedEngine.rngDraws ∧
      e2.lastSpinTime =
        (if CanSpin fundedEngine = true ∧ ¬ u64sub 1000 fundedEngine.lastSpinTime < 100
         then 1000 % U64 else fundedEngine.lastSpinTime) :=
  ⟨by norm_num [fundedEngine, GameEngine.fresh],
   C3_insufficient_funds_frame fundedEngine 20 rngNoWin 1000 1001
     (by norm_num [fundedEngine, GameEngine.fresh])⟩

/-! ## C4 -/

theorem symbolFor_cases (v : Nat) :
    (0 ≤ v ∧ v < 200 ∧ symbolFor v = CHERRY) ∨
    (200 ≤ v ∧ v < 350 ∧ symbolFor v = LEMON) ∨
    (350 ≤ v ∧ v < 480 ∧ symbolFor v = ORANGE) ∨
    (480 ≤ v ∧ v < 600 ∧ symbolFor v = PLUM) ∨
    (600 ≤ v ∧ v < 720 ∧ symbolFor v = BELL) ∨
    (720 ≤ v ∧ v < 820 ∧ symbolFor v = BAR) ∨
    (820 ≤ v ∧ v < 900 ∧ symbolFor v = SEVEN) ∨
    (900 ≤ v ∧ v < 960 ∧ symbolFor v = DIAMOND) ∨
    (960 ≤ v ∧ v < 990 ∧ symbolFor v = WILD) ∨
    (990 ≤ v ∧ symbolFor v = SCATTER) := by
  unfold symbolFor
  by_cases h0 : v < 200
  · left; exact ⟨by omega, h0, if_pos h0⟩
  rw [if_neg h0]
  by_cases h1 : v < 350
  · right; left; exact ⟨by omega, h1, if_pos h1⟩
  rw [if_neg h1]
  by_cases h2 : v < 480
  · right; right; left; exact ⟨by omega, h2, if_pos h2⟩
  rw [if_neg h2]
  by_cases h3 : v < 600
  · right; right; right; left; exact ⟨by omega, h3, if_pos h3⟩
  rw [if_neg h3]
  by_cases h4 : v < 720
  · right; right; right; right; left; exact ⟨by omega, h4, if_pos h4⟩
  rw [if_neg h4]
  by_cases h5 : v < 820
  · right; right; right; right; right; left; exact ⟨by omega, h5, if_pos h5⟩
  rw [if_neg h5]
  by_cases h6 : v < 900
  · right; right; right; right; right; right; left; exact ⟨by omega, h6, if_pos h6⟩
  rw [if_neg h6]
  by_cases h7 : v < 960
  · right; right; right; right; right; right; right; left; exact ⟨by omega, h7, if_pos h7⟩
  rw [if_neg h7]
  by_cases h8 : v < 990
  · right; right; right; right; right; right; right; right; left
    exact ⟨by omega, h8, if_pos h8⟩
  rw [if_neg h8]
  right; right; right; right; right; right; right; right; right
  exact ⟨by omega, rfl⟩

/-- The draw values that make the code choose `s` are exactly those between the
cumulative lower bound of `s` and that bound plus the weight of `s`. -/
theorem symbolFor_eq_iff (s : SlotSymbol) (v : Nat) (hv : v < 1000) :
    symbolFor v = s ↔ cumulativeLower s ≤ v ∧ v < cumulativeLower s + specWeight s := by
  rcases symbolFor_cases v with
    ⟨h1, h2, h3⟩ | ⟨h1, h2, h3⟩ | ⟨h1, h2, h3⟩ | ⟨h1, h2, h3⟩ | ⟨h1, h2, h3⟩ | ⟨h1, h2, h3⟩ |
    ⟨h1, h2, h3⟩ | ⟨h1, h2, h3⟩ | ⟨h1, h2, h3⟩ | ⟨h1, h3⟩ <;>
  rw [h3] <;> cases s <;> simp only [cumulativeLower, specWeight] <;>
  constructor <;> intro h <;> first
    | exact absurd h (by decide)
    | omega
    | trivial

theorem specSelect_eq_symbolFor (v : Nat) (h : v < 1000) :
    specSelect specWeight v specOrder 0 = some (symbolFor v) := by
  simp only [specSelect, specOrder, specWeight, symbolFor, apply_ite some, Nat.zero_add,
    Nat.reduceAdd]
  simp only [h, if_true]

theorem countP_range_interval (n lo hi : Nat) :
    (List.range n).countP (fun v => decide (lo ≤ v ∧ v < hi)) = min n hi - min n lo := by
  induction n with
  | zero => simp
  | succ n ih =>
    rw [List.range_succ, List.countP_append, ih]
    by_cases h : lo ≤ n ∧ n < hi
    · simp [h]; omega
    · simp [h]; omega

theorem drawsChoosing_interval (s : SlotSymbol) (lo hi : Nat)
    (h : ∀ v, v < 1000 → (symbolFor v = s ↔ lo ≤ v ∧ v < hi)) :
    drawsChoosing s = min 1000 hi - min 1000 lo := by
  unfold drawsChoosing
  rw [← countP_range_interval]
  apply List.countP_congr
  intro v hv
  simp only [decide_eq_true_eq]
  exact h v (List.mem_range.mp hv)

theorem generateSymbols_three (rng : Nat → Nat) (e : GameEngine) :
    (generateSymbols rng 3 e).1 =
      [symbolFor (rng e.rngDraws % 1000), symbolFor (rng (e.rngDraws + 1) % 1000),
        symbolFor (rng (e.rngDraws + 2) % 1000)] := by
  simp [generateSymbols]

/-- C4. `GenerateReel` fills its three positions with `symbolFor (rng() % 1000)`
from three successive draws. For every draw value `v` in `[0, 1000)` that symbol
is the first one, in the order CHERRY, LEMON, ORANGE, PLUM, BELL, BAR, SEVEN,
DIAMOND, WILD, SCATTER, whose cumulative upper bound exceeds `v`; each symbol is
chosen by exactly weight-many of the 1000 draw values; the weights are
200, 150, 130, 120, 120, 100, 80, 60, 30, 10 and sum to 1000. -/
theorem C4_first_symbol_exceeding_draw :
    (∀ (rng : Nat → Nat) (e : GameEngine),
      (GenerateReel rng e).1 =
        [symbolFor (rng e.rngDraws % 1000), symbolFor (rng (e.rngDraws + 1) % 1000),
          symbolFor (rng (e.rngDraws + 2) % 1000)]) ∧
    (∀ v : Fin 1000, specSelect specWeight v.val specOrder 0 = some (symbolFor v.val)) ∧
    (∀ s : SlotSymbol, drawsChoosing s = specWeight s) ∧
    specOrder.map specWeight = [200, 150, 130, 120, 120, 100, 80, 60, 30, 10] ∧
    (specOrder.map specWeight).sum = 1000 := by
  refine ⟨fun rng e => generateSymbols_three rng e, fun v => specSelect_eq_symbolFor v.val v.isLt,
    ?_, rfl, rfl⟩
  intro s
  rw [drawsChoosing_interval s (cumulativeLower s) (cumulativeLower s + specWeight s)
    (symbolFor_eq_iff s)]
  cases s <;> rfl

/-! ## C5 -/

theorem specLine_getElem {reels : List (List SlotSymbol)} (h : RowsOk reels) (i : Nat) :
    (specLine reels)[i]? = middleSymbol reels i := by
  induction reels generalizing i with
  | nil => simp [specLine, middleSymbol]
  | cons reel rest ih =>
    have hrest : RowsOk rest := fun r hr => h r (List.mem_cons_of_mem _ hr)
    have h2 : 2 ≤ reel.length := h reel (List.mem_cons_self _ _)
    have h1 : 1 < reel.length := by omega
    have hcons : specLine (reel :: rest) = reel[1] :: specLine rest := by
      simp [specLine, List.filterMap_cons, List.getElem?_eq_getElem h1]
    rw [hcons]
    cases i with
    | zero => simp [middleSymbol, List.getElem?_eq_getElem h1]
    | succ i =>
      have := ih hrest i
      simpa [middleSymbol] using this

theorem specLine_length {reels : List (List SlotSymbol)} (h : RowsOk reels) :
    (specLine reels).length = reels.length := by
  induction reels with
  | nil => rfl
  | cons reel rest ih =>
    have hrest : RowsOk rest := fun r hr => h r (List.mem_cons_of_mem _ hr)
    have h2 : 2 ≤ reel.length := h reel (List.mem_cons_self _ _)
    have h1 : 1 < reel.length := by omega
    simp [specLine, List.filterMap_cons, List.getElem?_eq_getElem h1] at ih ⊢
    exact ih hrest

/-- The loop of `CheckWinLine` counts the longest run of matching symbols among the next `n` of the line. -/
theorem countMatches_eq_takeWhile {reels : List (List SlotSymbol)} (h : RowsOk reels)
    (firstSymbol : SlotSymbol) (n i matchCount : Nat) (hi : i + n ≤ reels.length) :
    countMatches reels firstSymbol n i matchCount =
      some (matchCount + ((((specLine reels).drop i).take n).takeWhile
        (fun s => decide (s = firstSymbol ∨ s = WILD ∨ firstSymbol = WILD))).length) := by
  induction n generalizing i matchCount with
  | zero => simp [countMatches]
  | succ n ih =>
    have hlen : i < (specLine reels).length := by rw [specLine_length h]; omega
    have hm : middleSymbol reels i = some ((specLine reels)[i]) := by
      rw [← specLine_getElem h i, List.getElem?_eq_getElem hlen]
    rw [List.drop_eq_getElem_cons hlen, List.take_succ_cons]
    simp only [countMatches, hm]
    by_cases hc : (specLine reels)[i] = firstSymbol ∨ (specLine reels)[i] = WILD ∨ firstSymbol = WILD
    · rw [if_pos hc, ih (i + 1) (matchCount + 1) (by omega), List.takeWhile_cons_of_pos (by simpa using hc)]
      simp only [List.length_cons]
      congr 1
      omega
    · rw [if_neg hc, List.takeWhile_cons_of_neg (by simpa using hc)]
      simp

theorem specRun_some_eq_takeWhile (t : SlotSymbol) (ht : t ≠ WILD) (l : List SlotSymbol) :
    specRun (some t) l = (l.takeWhile (fun s => decide (s = t ∨ s = WILD ∨ t = WILD))).length := by
  induction l with
  | nil => rfl
  | cons s rest ih =>
    by_cases hw : s = WILD
    · simp [specRun, hw, ih]; omega
    · by_cases hs : s = t
      · simp [specRun, hw, hs, ih, ht]; omega
      · simp [specRun, hw, hs, ht]

/-- C5 as stated fails. On the 5x3 grid whose middle row reads WILD, CHERRY,
LEMON, LEMON, LEMON the code reports a win, while the run of the claim ends at
the first LEMON and has length 2. -/
theorem C5_counterexample :
    IsGrid gridWildLead ∧ CheckWinLine gridWildLead 0 = some true ∧
      specRunLength (specLine gridWildLead) = 2 := by
  refine ⟨⟨rfl, ?_⟩, by decide, by decide⟩
  simp [gridWildLead, SYMBOL_COUNT]

/-- C5, amended. For every 5x3 grid and every line index, `CheckWinLine`
returns, and it reports a win iff the middle symbol of reel 0 is WILD or the
run of the claim (ended by the first symbol that neither equals the first
non-wild symbol met nor is WILD) has length at least 3. -/
theorem C5_win_iff_wild_lead_or_run (reels : List (List SlotSymbol)) (lineIndex : Int)
    (h : IsGrid reels) :
    ∃ b, CheckWinLine reels lineIndex = some b ∧
      (b = true ↔ (middleSymbol reels 0 = some WILD ∨ 3 ≤ specRunLength (specLine reels))) := by
  have hr := h.rowsOk
  have hlen : reels.length = 5 := h.1
  have hl : (specLine reels).length = 5 := by rw [specLine_length hr, hlen]
  obtain ⟨m0, rest, hline⟩ : ∃ m0 rest, specLine reels = m0 :: rest := by
    cases hs : specLine reels with
    | nil => rw [hs] at hl; simp at hl
    | cons a l => exact ⟨a, l, rfl⟩
  have hrest : rest.length = 4 := by rw [hline] at hl; simpa using hl
  have hm0 : middleSymbol reels 0 = some m0 := by
    rw [← specLine_getElem hr 0, hline]; simp
  have hcount := countMatches_eq_takeWhile hr m0 4 1 1 (by omega)
  have hdrop : ((specLine reels).drop 1).take 4 = rest := by
    rw [hline]; simp [← hrest]
  rw [hdrop] at hcount
  have hcheck : CheckWinLine reels lineIndex = some (decide (3 ≤ 1 + (rest.takeWhile
      (fun s => decide (s = m0 ∨ s = WILD ∨ m0 = WILD))).length)) := by
    unfold CheckWinLine
    rw [if_neg (by omega), hm0, hlen]
    simp only [Nat.min_self, Nat.add_one_sub_one, hcount]
  refine ⟨_, hcheck, ?_⟩
  rw [hm0, hline]
  by_cases hw : m0 = WILD
  · subst hw
    have hall : rest.takeWhile (fun s => decide (s = WILD ∨ s = WILD ∨ WILD = WILD)) = rest := by
      rw [List.takeWhile_eq_self_iff]
      intro x _
      simp
    rw [hall, hrest]
    simp
  · have hspec : specRunLength (m0 :: rest) = 1 + specRun (some m0) rest := by
      simp [specRunLength, specRun, hw]
    rw [hspec, specRun_some_eq_takeWhile m0 hw rest]
    simp [hw]

theorem C5_win_iff_wild_lead_or_run_witness :
    IsGrid gridWildLead ∧
    ∃ b, CheckWinLine gridWildLead 7 = some b ∧
      (b = true ↔ (middleSymbol gridWildLead 0 = some WILD ∨
        3 ≤ specRunLength (specLine gridWildLead))) :=
  ⟨⟨rfl, by simp [gridWildLead, SYMBOL_COUNT]⟩,
   C5_win_iff_wild_lead_or_run gridWildLead 7 ⟨rfl, by simp [gridWildLead, SYMBOL_COUNT]⟩⟩

/-! ## The scatter part of `CalculateWin` -/

theorem paylineLoop_flags (e : GameEngine) (reels : List (List SlotSymbol)) (lines : List Int)
    (start result : SpinResult) (h : paylineLoop e reels lines start = some result) :
    result.isBonusTriggered = start.isBonusTriggered ∧ result.isJackpot = start.isJackpot ∧
      result.reels = start.reels := by
  induction lines generalizing start with
  | nil =>
    simp only [paylineLoop, Option.some.injEq] at h
    subst h
    exact ⟨rfl, rfl, rfl⟩
  | cons line rest ih =>
    simp only [paylineLoop, paylineStep] at h
    cases hc : CheckWinLine reels line with
    | none => simp [hc] at h
    | some b =>
      cases b with
      | false =>
        simp only [hc] at h
        exact ih _ h
      | true =>
        simp only [hc] at h
        have hstep := ih _ h
        exact hstep

/-- What `CalculateWin` adds to the result of the payline loop. -/
theorem CalculateWin_of_paylines (e : GameEngine) (reels : List (List SlotSymbol))
    (lines : SpinResult) (h : CalculateWin.paylines e reels = some lines) :
    ∃ result, CalculateWin e reels = some result ∧
      (result.isBonusTriggered = some true ↔ 3 ≤ scatterCount reels) ∧
      (¬ 3 ≤ scatterCount reels → result.isBonusTriggered = none) ∧
      result.winAmount = lines.winAmount +
        (if 3 ≤ scatterCount reels then e.currentBet * scatterCount reels * 2 else 0) := by
  have hflag : lines.isBonusTriggered = none := (paylineLoop_flags e reels _ _ lines h).1
  simp only [CalculateWin, h]
  refine ⟨_, rfl, ?_, ?_, ?_⟩
  · by_cases hs : 3 ≤ scatterCount reels
    · simp only [hs, if_true, iff_true]
      split <;> rfl
    · simp only [hs, if_false, iff_false]
      split <;> simp [hflag]
  · intro hs
    simp only [hs, if_false]
    split <;> simp [hflag]
  · by_cases hs : 3 ≤ scatterCount reels
    · simp only [hs, if_true]
      split <;> rfl
    · simp only [hs, if_false, add_zero]
      split <;> rfl

/-! ## C6 -/

theorem CheckWinLine_gridCherries : CheckWinLine gridCherries 0 = some true := by decide

theorem CheckWinLine_gridDiamonds : CheckWinLine gridDiamonds 0 = some true := by decide

theorem CheckWinLine_gridThreeCherries : CheckWinLine gridThreeCherries 0 = some true := by decide

/-- The payline part of the win when the lines match: `PAYLINES` times a tenth
of the current bet. -/
theorem paylines_winAmount_of_match (e : GameEngine) {reels : List (List SlotSymbol)}
    (h : CheckWinLine reels 0 = some true) :
    (CalculateWin.paylines e reels).map (fun r => r.winAmount) = some (25 * (e.currentBet * (1 / 10))) := by
  rw [CalculateWin.paylines, paylineLoop_true e h]
  simp [CalculateWin.start, PAYLINES]

/-- C6, the code at three winning grids. With a current bet of 20, five
cherries, five diamonds and three cherries on every line all get the same
payline win, 25 lines at a tenth of the bet, 50 in total. The paytable entries
for these lines are 25, 1000 and 5: the win is not looked up by symbol and run
length, and lines that differ in symbol or run length are not paid by their
different entries. -/
theorem C6_payline_win_ignores_paytable :
    (CalculateWin.paylines engineBet20 gridCherries).map (fun r => r.winAmount) = some 50 ∧
    (CalculateWin.paylines engineBet20 gridDiamonds).map (fun r => r.winAmount) = some 50 ∧
    (CalculateWin.paylines engineBet20 gridThreeCherries).map (fun r => r.winAmount) = some 50 ∧
    (CalculateWin engineBet20 gridCherries).map (fun r => r.winAmount) = some 50 ∧
    (CalculateWin engineBet20 gridDiamonds).map (fun r => r.winAmount) = some 50 ∧
    specRunLength (specLine gridCherries) = 5 ∧ specLineWin CHERRY 5 = 25 ∧
    specRunLength (specLine gridDiamonds) = 5 ∧ specLineWin DIAMOND 5 = 1000 ∧
    specRunLength (specLine gridThreeCherries) = 3 ∧ specLineWin CHERRY 3 = 5 := by
  have h1 := paylines_winAmount_of_match engineBet20 CheckWinLine_gridCherries
  have h2 := paylines_winAmount_of_match engineBet20 CheckWinLine_gridDiamonds
  have h3 := paylines_winAmount_of_match engineBet20 CheckWinLine_gridThreeCherries
  have hb : (25 : ℚ) * (engineBet20.currentBet * (1 / 10)) = 50 := by
    norm_num [engineBet20, GameEngine.fresh]
  rw [hb] at h1 h2 h3
  refine ⟨h1, h2, h3, ?_, ?_, by decide, ?_, by decide, ?_, by decide, ?_⟩
  · obtain ⟨l, hl⟩ := CalculateWin_paylines_defined engineBet20
      (show RowsOk gridCherries by unfold RowsOk; decide)
    obtain ⟨r, hr, -, -, hw⟩ := CalculateWin_of_paylines engineBet20 gridCherries l hl
    rw [hl] at h1
    simp only [Option.map_some', Option.some.injEq] at h1
    rw [hr, Option.map_some', hw, h1, if_neg (by decide), add_zero]
  · obtain ⟨l, hl⟩ := CalculateWin_paylines_defined engineBet20
      (show RowsOk gridDiamonds by unfold RowsOk; decide)
    obtain ⟨r, hr, -, -, hw⟩ := CalculateWin_of_paylines engineBet20 gridDiamonds l hl
    rw [hl] at h2
    simp only [Option.map_some', Option.some.injEq] at h2
    rw [hr, Option.map_some', hw, h2, if_neg (by decide), add_zero]
  · norm_num [specLineWin, paytable]
  · norm_num [specLineWin, paytable]
  · norm_num [specLineWin, paytable]

/-! ## Rate-limit windows -/

theorem u64sub_of_le {now t : Nat} (ht : t ≤ now) (hnow : now < U64) : u64sub now t = now - t := by
  unfold u64sub
  have hU : U64 = 18446744073709551616 := by norm_num [U64]
  rw [hU] at hnow ⊢
  omega

theorem securityIsRateLimited_fst (s : SecurityManager) (action : String) (now : Nat) :
    (s.IsRateLimited action now).1 = decide (specActionLimit action ≤
      ((s.actionHistory action).filter
        (fun timestamp => !decide (u64sub now timestamp > 60000))).length) := by
  unfold SecurityManager.IsRateLimited specActionLimit
  by_cases h1 : action = "spin"
  · simp [h1]
  · by_cases h2 : action = "payment"
    · simp [h2]
    · simp [h1, h2]

theorem securityIsRateLimited_log (s : SecurityManager) (action : String) (now : Nat) :
    (s.IsRateLimited action now).2.actionHistory action =
      (s.actionHistory action).filter
        (fun timestamp => !decide (u64sub now timestamp > 60000)) := by
  unfold SecurityManager.IsRateLimited
  by_cases h1 : action = "spin"
  · simp [h1]
  · by_cases h2 : action = "payment"
    · simp [h2]
    · simp [h1, h2]

theorem securityFoldl_update_log (action : String) (ts : List Nat) (s : SecurityManager) :
    (ts.foldl (fun st t => st.UpdateActionHistory action t) s).actionHistory action
      = s.actionHistory action ++ ts.map (fun t => t % U64) := by
  induction ts generalizing s with
  | nil => simp
  | cons t rest ih =>
    rw [List.foldl_cons, ih]
    simp [SecurityManager.UpdateActionHistory]

/-! ## The rate limits of `AuthManager` -/

theorem authIsRateLimited_fst (a : AuthManager) (identifier action : String) (now : Nat) :
    (a.IsRateLimited identifier action now).1 =
      if action = "login" then
        decide (10 ≤ ((a.loginAttempts (identifier ++ ":" ++ action)).filter
          (fun timestamp => !decide (u64sub now timestamp > 3600000))).length)
      else if action = "register" then
        decide (3 ≤ ((a.registrationAttempts (identifier ++ ":" ++ action)).filter
          (fun timestamp => !decide (u64sub now timestamp > 3600000))).length)
      else false := by
  unfold AuthManager.IsRateLimited
  by_cases h1 : action = "login"
  · simp [h1]
  · by_cases h2 : action = "register"
    · simp [h2]
    · simp [h1, h2]

theorem authIsRateLimited_snd (a : AuthManager) (identifier action : String) (now : Nat) :
    (a.IsRateLimited identifier action now).2 =
      if action = "login" then
        { a with
          loginAttempts :=
            Function.update a.loginAttempts (identifier ++ ":" ++ action)
              ((a.loginAttempts (identifier ++ ":" ++ action)).filter
                (fun timestamp => !decide (u64sub now timestamp > 3600000))) }
      else
        { a with
          registrationAttempts :=
            Function.update a.registrationAttempts (identifier ++ ":" ++ action)
              ((a.registrationAttempts (identifier ++ ":" ++ action)).filter
                (fun timestamp => !decide (u64sub now timestamp > 3600000))) } := by
  unfold AuthManager.IsRateLimited
  by_cases h1 : action = "login"
  · simp [h1]
  · by_cases h2 : action = "register"
    · simp [h2]
    · simp [h1, h2]

/-! ## C10 -/

theorem intervalsOf_length (h : List Nat) : (intervalsOf h).length = h.length - 1 := by
  induction h with
  | nil => rfl
  | cons a rest ih =>
    cases rest with
    | nil => rfl
    | cons b rest2 =>
      simp only [intervalsOf, List.length_cons] at ih ⊢
      omega

theorem intervalsOf_eq_specIntervals (h : List Nat) (hsorted : List.Sorted (· ≤ ·) h)
    (hu64 : ∀ t ∈ h, t < U64) : intervalsOf h = specIntervals h := by
  induction h with
  | nil => rfl
  | cons a rest ih =>
    cases rest with
    | nil => rfl
    | cons b rest2 =>
      have hab : a ≤ b := List.rel_of_sorted_cons hsorted b (List.mem_cons_self _ _)
      have hb : b < U64 := hu64 b (by simp)
      simp only [intervalsOf, specIntervals]
      rw [u64sub_of_le hab hb, ih hsorted.of_cons (fun t ht => hu64 t (List.mem_cons_of_mem _ ht))]

theorem evenHistory_succ (start d n : Nat) :
    evenHistory start d (n + 1) = start :: evenHistory (start + d) d n := by
  simp only [evenHistory, List.range_succ_eq_map, List.map_cons, List.map_map, Nat.zero_mul,
    Nat.add_zero]
  congr 1
  apply List.map_congr_left
  intro i _
  simp only [Function.comp_apply, Nat.succ_eq_add_one]
  ring

theorem u64sub_add_self (a d : Nat) : u64sub (a + d) a = d % U64 := by
  unfold u64sub
  have hU : U64 = 18446744073709551616 := by norm_num [U64]
  rw [hU]
  omega

theorem intervalsOf_evenHistory (start d n : Nat) :
    intervalsOf (evenHistory start d (n + 1)) = List.replicate n (d % U64) := by
  induction n generalizing start with
  | zero => simp [evenHistory, intervalsOf]
  | succ n ih =>
    rw [evenHistory_succ, evenHistory_succ, intervalsOf, ← evenHistory_succ, ih,
      u64sub_add_self, List.replicate_succ]

/-! ## C18 -/

theorem UpdateSpinHistory_history (e : GameEngine) (t : Nat) (h : e.spinHistory.length ≤ 100) :
    (UpdateSpinHistory e t).spinHistory
      = (e.spinHistory ++ [t % U64]).drop (e.spinHistory.length + 1 - 100) := by
  unfold UpdateSpinHistory
  simp only [List.length_append, List.length_singleton]
  by_cases hfull : e.spinHistory.length + 1 > 100
  · have h1 : e.spinHistory.length + 1 - 100 = 1 := by omega
    rw [if_pos hfull, h1, List.drop_one]
  · have h0 : e.spinHistory.length + 1 - 100 = 0 := by omega
    rw [if_neg hfull, h0, List.drop_zero]

theorem foldl_UpdateSpinHistory (ts : List Nat) (e : GameEngine)
    (h : e.spinHistory.length ≤ 100) :
    (ts.foldl UpdateSpinHistory e).spinHistory
      = (e.spinHistory ++ ts.map (fun t => t % U64)).drop
          (e.spinHistory.length + ts.length - 100) := by
  induction ts generalizing e with
  | nil =>
    have h0 : e.spinHistory.length + ([] : List Nat).length - 100 = 0 := by
      simp only [List.length_nil]; omega
    rw [h0, List.drop_zero, List.map_nil, List.append_nil, List.foldl_nil]
  | cons t rest ih =>
    have hstep := UpdateSpinHistory_history e t h
    have hlen : (UpdateSpinHistory e t).spinHistory.length ≤ 100 := by
      rw [hstep, List.length_drop, List.length_append, List.length_singleton]
      omega
    have hL : (e.spinHistory ++ [t % U64]).length = e.spinHistory.length + 1 := by simp
    have hk : e.spinHistory.length + 1 - 100 ≤ (e.spinHistory ++ [t % U64]).length := by
      rw [hL]; omega
    have hdl : ((e.spinHistory ++ [t % U64]).drop (e.spinHistory.length + 1 - 100)).length
        = e.spinHistory.length + 1 - (e.spinHistory.length + 1 - 100) := by
      rw [List.length_drop, hL]
    rw [List.foldl_cons, ih _ hlen, hstep, hdl, ← List.drop_append_of_le_length hk,
      List.drop_drop, List.append_assoc, List.singleton_append, List.map_cons, List.length_cons]
    congr 1
    omega

/-- C18. After any sequence of calls of `UpdateSpinHistory` at the clock
readings `ts`, starting from an empty history, the history holds exactly the
last `min (length ts) 100` recorded timestamps in the order they were recorded,
and never more than 100. -/
theorem C18_history_keeps_last_hundred (e : GameEngine) (ts : List Nat)
    (hempty : e.spinHistory = []) :
    (ts.foldl UpdateSpinHistory e).spinHistory
      = (ts.map (fun t => t % U64)).drop (ts.length - 100) ∧
    (ts.foldl UpdateSpinHistory e).spinHistory.length = min ts.length 100 ∧
    (ts.foldl UpdateSpinHistory e).spinHistory.length ≤ 100 := by
  have hfold := foldl_UpdateSpinHistory ts e (by simp [hempty])
  rw [hempty] at hfold
  simp only [List.nil_append, List.length_nil, Nat.zero_add] at hfold
  rw [hfold, List.length_drop, List.length_map]
  exact ⟨rfl, by omega, by omega⟩

theorem C18_history_keeps_last_hundred_witness :
    ((List.range 150).foldl UpdateSpinHistory GameEngine.fresh).spinHistory
      = ((List.range 150).map (fun t => t % U64)).drop ((List.range 150).length - 100) ∧
    ((List.range 150).foldl UpdateSpinHistory GameEngine.fresh).spinHistory.length
      = min (List.range 150).length 100 ∧
    ((List.range 150).foldl UpdateSpinHistory GameEngine.fresh).spinHistory.length ≤ 100 :=
  C18_history_keeps_last_hundred GameEngine.fresh (List.range 150) rfl

/-! ## Evaluation at the generator `rngCherries` -/

theorem generateReels_rngCherries (e : GameEngine) :
    generateReels rngCherries REEL_COUNT e
      = (gridCherries, { e with rngDraws := e.rngDraws + 15 }) := by
  simp [generateReels, GenerateReel, generateSymbols, REEL_COUNT, SYMBOL_COUNT, rngCherries,
    symbolFor, gridCherries]

theorem scatterCount_gridCherries : scatterCount gridCherries = 0 := by decide

/-! ## C20 -/

/-- The RTP invariant: once something is wagered, the reported RTP is the
percentage of the total win in the total bet. -/
theorem recordStats_rtp (stats : GameStats) (betAmount : ℚ) (result : SpinResult)
    (hpos : 0 < (recordStats stats betAmount result).totalBet) :
    (recordStats stats betAmount result).rtp
      = (recordStats stats betAmount result).totalWin
          / (recordStats stats betAmount result).totalBet * 100 := by
  rw [recordStats_totalBet] at hpos
  unfold recordStats
  dsimp only
  rw [if_pos hpos]

theorem Spin_stats (e e2 : GameEngine) (betAmount : ℚ) (rng : Nat → Nat) (tCheck tRecord : Nat)
    (result : SpinResult) (h : Spin e betAmount rng tCheck tRecord = some (e2, result)) :
    e2.stats = e.stats ∨ e2.stats = recordStats e.stats betAmount result := by
  obtain ⟨-, -, hstats, -⟩ := ValidateSpinTiming_frame e tCheck
  rcases Spin_cases e betAmount rng tCheck tRecord with ⟨-, hs⟩ | ⟨-, -, hs⟩ | ⟨-, -, -, -, hs⟩
  · rw [hs] at h
    simp only [Option.some.injEq, Prod.mk.injEq] at h
    left; rw [← h.1]
  · rw [hs] at h
    simp only [Option.some.injEq, Prod.mk.injEq] at h
    left; rw [← h.1, hstats]
  · obtain ⟨e3, r3, hadmit, -, -, -, hst, -⟩ :=
      Spin_admitted_spec (ValidateSpinTiming e tCheck).2 betAmount rng tRecord
    rw [hs, hadmit] at h
    simp only [Option.some.injEq, Prod.mk.injEq] at h
    right; rw [← h.1, ← h.2, hst, hstats]

/-- The invariant behind C20, in the form `Spin` computes it. -/
theorem Reachable_rtp (e : GameEngine) (hreach : Reachable e) :
    0 < e.stats.totalBet → e.stats.rtp = e.stats.totalWin / e.stats.totalBet * 100 := by
  induction hreach with
  | fresh => intro h; simp [GameEngine.fresh] at h
  | setBalance e balance _ ih => exact ih
  | setBet e bet _ ih => exact ih
  | resetStats e _ _ => intro h; simp [ResetStats] at h
  | spin e e2 betAmount rng tCheck tRecord result _ hspin ih =>
    intro h
    rcases Spin_stats e e2 betAmount rng tCheck tRecord result hspin with hsame | hrec
    · rw [hsame] at h ⊢
      exact ih h
    · rw [hrec] at h ⊢
      exact recordStats_rtp _ _ _ h

/-- C20. In every engine state reachable from a fresh engine by `SetBalance`,
`SetBet`, `Spin` and `ResetStats` calls in which `stats.totalBet > 0`, the
reported `stats.rtp` equals `100 * stats.totalWin / stats.totalBet`. -/
theorem C20_rtp_is_win_over_bet (e : GameEngine) (hreach : Reachable e)
    (hpos : 0 < e.stats.totalBet) :
    e.stats.rtp = 100 * e.stats.totalWin / e.stats.totalBet := by
  rw [Reachable_rtp e hreach hpos]
  ring

theorem Spin_fundedEngine_one :
    Spin fundedEngine 1 rngNoWin 1000 1001 =
      some (engineAfterOneSpin,
            { reels := gridNoWin, winAmount := 0, isWin := false, winLines := [],
              isBonusTriggered := none, isJackpot := none }) := by
  norm_num [Spin, CanSpin, fundedEngine, GameEngine.fresh, ValidateSpinTiming, u64sub, U64,
    DetectPatternAbuse, Spin.admitted, generateReels_rngNoWin, CalculateWin, CalculateWin.paylines,
    paylineLoop_false _ CheckWinLine_gridNoWin, scatterCount_gridNoWin, CalculateWin.start,
    Spin.settle, recordStats, UpdateSpinHistory, engineAfterOneSpin]

theorem C20_rtp_is_win_over_bet_witness :
    engineAfterOneSpin.stats.rtp
      = 100 * engineAfterOneSpin.stats.totalWin / engineAfterOneSpin.stats.totalBet :=
  C20_rtp_is_win_over_bet engineAfterOneSpin
    (Reachable.spin fundedEngine engineAfterOneSpin 1 rngNoWin 1000 1001 _
      (Reachable.setBalance GameEngine.fresh 10 Reachable.fresh) Spin_fundedEngine_one)
    (by norm_num [engineAfterOneSpin])

/-! ## C12 -/

/-- C12 as stated fails for the subject named "default". After `Initialize`,
"alice" has no limit of her own and gets 1000; once `SetDailySpendLimit` has
been called for the other subject "default" with 5, she gets 5. -/
theorem C12_counterexample :
    "default" ≠ "alice" ∧
    (PaymentSystem.new.Initialize.GetDailySpendLimit "alice").1 = 1000 ∧
    ((PaymentSystem.new.Initialize.SetDailySpendLimit "default" 5).GetDailySpendLimit "alice").1
      = 5 := by
  refine ⟨by decide, ?_, ?_⟩
  · simp [PaymentSystem.GetDailySpendLimit, PaymentSystem.Initialize, PaymentSystem.new,
      Function.update]
  · simp [PaymentSystem.GetDailySpendLimit, PaymentSystem.SetDailySpendLimit,
      PaymentSystem.Initialize, PaymentSystem.new, Function.update]

theorem GetDailySpendLimit_of_own (p : PaymentSystem) (userId : String) (limit : ℚ)
    (h : p.dailySpendLimits userId = some limit) : (p.GetDailySpendLimit userId).1 = limit := by
  simp [PaymentSystem.GetDailySpendLimit, h]

theorem GetDailySpendLimit_of_default (p : PaymentSystem) (userId : String) (limit : ℚ)
    (h : p.dailySpendLimits userId = none) (hd : p.dailySpendLimits "default" = some limit) :
    (p.GetDailySpendLimit userId).1 = limit := by
  simp [PaymentSystem.GetDailySpendLimit, h, hd]

theorem foldl_SetDailySpendLimit_frame (sets : List (String × ℚ)) (p : PaymentSystem)
    (key : String) (h : ∀ s ∈ sets, s.1 ≠ key) :
    (sets.foldl (fun q s => q.SetDailySpendLimit s.1 s.2) p).dailySpendLimits key
      = p.dailySpendLimits key := by
  induction sets generalizing p with
  | nil => rfl
  | cons s rest ih =>
    rw [List.foldl_cons, ih _ (fun x hx => h x (List.mem_cons_of_mem _ hx))]
    have hs : key ≠ s.1 := Ne.symm (h s (List.mem_cons_self _ _))
    simp [PaymentSystem.SetDailySpendLimit, Function.update_noteq hs]

/-- C12, amended. For all subjects `u` and `v` with `u` different from `v` and
every limit `x`, `SetDailySpendLimit(u, x)` makes `GetDailySpendLimit(u)` return
`x`; it leaves `GetDailySpendLimit(v)` unchanged when `u` is not the key
"default" or `v` has a limit of its own. So after `Initialize` a subject with no
limit of its own gets the default 1000 whatever limits were set for other
subjects than "default". -/
theorem C12_limit_frame (p : PaymentSystem) (u v : String) (x : ℚ) (huv : u ≠ v)
    (hres : u ≠ "default" ∨ (p.dailySpendLimits v).isSome = true) :
    ((p.SetDailySpendLimit u x).GetDailySpendLimit u).1 = x ∧
    ((p.SetDailySpendLimit u x).GetDailySpendLimit v).1 = (p.GetDailySpendLimit v).1 ∧
    (∀ (p0 : PaymentSystem) (sets : List (String × ℚ)),
      p0.dailySpendLimits v = none → (∀ s ∈ sets, s.1 ≠ v ∧ s.1 ≠ "default") →
      ((sets.foldl (fun q s => q.SetDailySpendLimit s.1 s.2) p0.Initialize).GetDailySpendLimit
        v).1 = 1000) := by
  refine ⟨?_, ?_, ?_⟩
  · exact GetDailySpendLimit_of_own _ u x (by simp [PaymentSystem.SetDailySpendLimit])
  · have hv : (p.SetDailySpendLimit u x).dailySpendLimits v = p.dailySpendLimits v := by
      simp [PaymentSystem.SetDailySpendLimit, Function.update_noteq (Ne.symm huv)]
    cases hown : p.dailySpendLimits v with
    | some l =>
      rw [GetDailySpendLimit_of_own _ v l (hv.trans hown), GetDailySpendLimit_of_own _ v l hown]
    | none =>
      have hu : u ≠ "default" := by
        rcases hres with h | h
        · exact h
        · rw [hown] at h; exact absurd h (by decide)
      have hd : (p.SetDailySpendLimit u x).dailySpendLimits "default"
          = p.dailySpendLimits "default" := by
        simp [PaymentSystem.SetDailySpendLimit, Function.update_noteq (Ne.symm hu)]
      unfold PaymentSystem.GetDailySpendLimit
      rw [hv, hd, hown]
      dsimp only
      cases p.dailySpendLimits "default" <;> rfl
  · intro p0 sets hnone hsets
    by_cases hvd : v = "default"
    · refine GetDailySpendLimit_of_own _ v 1000 ?_
      rw [foldl_SetDailySpendLimit_frame sets _ v (fun s hs => (hsets s hs).1), hvd]
      simp [PaymentSystem.Initialize]
    · refine GetDailySpendLimit_of_default _ v 1000 ?_ ?_
      · rw [foldl_SetDailySpendLimit_frame sets _ v (fun s hs => (hsets s hs).1)]
        simp [PaymentSystem.Initialize, Function.update_noteq hvd, hnone]
      · rw [foldl_SetDailySpendLimit_frame sets _ "default" (fun s hs => (hsets s hs).2)]
        simp [PaymentSystem.Initialize]

theorem C12_limit_frame_witness :
    ((PaymentSystem.new.Initialize.SetDailySpendLimit "bob" 250).GetDailySpendLimit "bob").1
      = 250 ∧
    ((PaymentSystem.new.Initialize.SetDailySpendLimit "bob" 250).GetDailySpendLimit "alice").1
      = (PaymentSystem.new.Initialize.GetDailySpendLimit "alice").1 :=
  ⟨(C12_limit_frame PaymentSystem.new.Initialize "bob" "alice" 250 (by decide)
      (Or.inl (by decide))).1,
   (C12_limit_frame PaymentSystem.new.Initialize "bob" "alice" 250 (by decide)
      (Or.inl (by decide))).2.1⟩

/-! ## Lockout -/

theorem getD_map_none (g : User → User) (hg : g User.none = User.none) (o : Option User) :
    (o.map g).getD User.none = g (o.getD User.none) := by
  cases o with
  | none => exact hg.symm
  | some u => rfl

theorem GetUser_updateUser (db : Database) (t : Int) (f : User → User) (ht : t ≠ 0)
    (hf : ∀ u, (f u).id = u.id) (x : Int) :
    (db.updateUser t f).GetUser x
      = if (db.GetUser x).id = t then f (db.GetUser x) else db.GetUser x := by
  have hnone : (fun u : User => if u.id = t then f u else u) User.none = User.none := by
    have h0 : User.none.id ≠ t := fun h => ht (h.symm.trans rfl)
    simp [h0]
  have hpred : ((fun u : User => decide (u.id = x)) ∘ fun u : User => if u.id = t then f u else u)
      = fun u : User => decide (u.id = x) := by
    funext u
    by_cases hu : u.id = t
    · simp [hu, hf]
    · simp [hu]
  unfold Database.GetUser Database.updateUser
  rw [List.find?_map, hpred,
    getD_map_none (fun u : User => if u.id = t then f u else u) hnone]

theorem GetUser_LogSecurityEvent (db : Database) (userId : Int)
    (eventType description ipAddress userAgent : String) (x : Int) :
    (AuthManager.LogSecurityEvent db userId eventType description ipAddress userAgent).GetUser x
      = db.GetUser x := rfl

theorem IsRateLimited_login_settings (a : AuthManager) (identifier : String) (t : Nat) :
    (a.IsRateLimited identifier "login" t).2.maxFailedAttempts = a.maxFailedAttempts ∧
    (a.IsRateLimited identifier "login" t).2.lockoutDurationMinutes = a.lockoutDurationMinutes ∧
    (a.IsRateLimited identifier "login" t).2.requireEmailVerification
      = a.requireEmailVerification ∧
    ((a.IsRateLimited identifier "login" t).2.loginAttempts (identifier ++ ":" ++ "login")).length
      ≤ (a.loginAttempts (identifier ++ ":" ++ "login")).length := by
  rw [authIsRateLimited_snd, if_pos rfl]
  refine ⟨rfl, rfl, rfl, ?_⟩
  dsimp only
  rw [Function.update_same]
  exact List.length_filter_le _ _

theorem IsRateLimited_login_of_short (a : AuthManager) (identifier : String) (t : Nat)
    (h : (a.loginAttempts (identifier ++ ":" ++ "login")).length < 10) :
    (a.IsRateLimited identifier "login" t).1 = false := by
  rw [authIsRateLimited_fst, if_pos rfl]
  have hle := List.length_filter_le (fun timestamp => !decide (u64sub t timestamp > 3600000))
    (a.loginAttempts (identifier ++ ":" ++ "login"))
  simp only [decide_eq_false_iff_not, not_le]
  omega

theorem IsUserLocked_settings (a b : AuthManager) (db : Database) (userId : Int) (now : Int)
    (h : a.maxFailedAttempts = b.maxFailedAttempts) :
    a.IsUserLocked db userId now = b.IsUserLocked db userId now := by
  unfold AuthManager.IsUserLocked
  rw [h]

/-- C14, the code on two stored accounts. "bob" has five failed attempts and a
lock that ended on 2024-01-01 00:30:00: `IsUserLocked` reports him locked at
every time, also long after the lock has ended. "carol" is locked until 2099
with no failed attempt: she is reported as not locked at every time, also while
`now < lockedUntil`. The clock is read and never compared. -/
theorem C14_lock_ignores_the_clock :
    (∀ now : Int, AuthManager.empty.IsUserLocked dbAccounts 7 now = true) ∧
    (∀ now : Int, AuthManager.empty.IsUserLocked dbAccounts 8 now = false) ∧
    (dbAccounts.GetUser 7).lockedUntil = "2024-01-01 00:30:00" ∧
    (dbAccounts.GetUser 8).lockedUntil = "2099-01-01 00:00:00" :=
  ⟨fun _ => rfl, fun _ => rfl, by decide, by decide⟩

/-! ## C15 -/

/-- C15 as stated fails. "dave" is active and not locked and supplies his
correct password, but his e-mail address is not verified: `Login` returns
`EMAIL_NOT_VERIFIED` before the reset, and his counter stays at 3. -/
theorem C15_counterexample :
    VerifyPassword stubLib daveRequest.password daveUser.passwordHash daveUser.salt = true ∧
    AuthManager.empty.IsUserLocked dbAccounts 2 (clockAt 5000).tLocked = false ∧
    (AuthManager.empty.Login stubLib dbAccounts (clockAt 5000) daveRequest AuthToken.none).result
      = AuthResult.EMAIL_NOT_VERIFIED ∧
    (dbAccounts.GetUser 2).failedLoginAttempts = 3 ∧
    ((AuthManager.empty.Login stubLib dbAccounts (clockAt 5000) daveRequest AuthToken.none).db.GetUser
      2).failedLoginAttempts = 3 := by
  refine ⟨by decide, by decide, ?_, by decide, ?_⟩
  · decide
  · decide

/-- What `Login` returns and leaves once the password has verified. -/
theorem Login_right_password (a : AuthManager) (lib : AuthLib) (db : Database)
    (clock : LoginClock) (request : LoginRequest) (token : AuthToken) (user : User)
    (hacc : PassingAccount lib db request user)
    (hlim : (a.IsRateLimited request.ipAddress "login" clock.tLimit).1 = false)
    (hunlocked : a.IsUserLocked db user.id clock.tLocked = false) :
    (passesLaterChecks a lib request user = true →
      ((a.Login lib db clock request token).result = AuthResult.SUCCESS ∨
        (a.Login lib db clock request token).result = AuthResult.DATABASE_ERROR) ∧
      (a.Login lib db clock request token).db.GetUser user.id
        = { user with failedLoginAttempts := 0 }) ∧
    (passesLaterChecks a lib request user = false →
      ((a.Login lib db clock request token).result = AuthResult.EMAIL_NOT_VERIFIED ∨
        (a.Login lib db clock request token).result = AuthResult.TWO_FACTOR_REQUIRED ∨
        (a.Login lib db clock request token).result = AuthResult.INVALID_TWO_FACTOR) ∧
      (a.Login lib db clock request token).db.GetUser user.id = user) := by
  obtain ⟨hname, hid, hrow, hactive, hright⟩ := hacc
  obtain ⟨hmax1, -, hreq1, -⟩ := IsRateLimited_login_settings a request.ipAddress clock.tLimit
  have hlocked1 : (a.IsRateLimited request.ipAddress "login" clock.tLimit).2.IsUserLocked db
      user.id clock.tLocked = false := by
    rw [IsUserLocked_settings _ a db user.id clock.tLocked hmax1]
    exact hunlocked
  have hreset : (db.ResetFailedLogins user.id).GetUser user.id
      = { user with failedLoginAttempts := 0 } := by
    unfold Database.ResetFailedLogins
    rw [GetUser_updateUser db user.id (fun u => { u with failedLoginAttempts := 0 }) hid
      (fun _ => rfl), hrow, if_pos rfl]
  unfold AuthManager.Login passesLaterChecks
  simp only [hname, hlim, hid, hlocked1, hactive, hright, hreq1, Bool.false_eq_true,
    Bool.true_eq_false, if_false, if_true]
  by_cases h1 : (a.requireEmailVerification && !user.isVerified) = true
  · simp [h1, hrow]
  · by_cases h2 : (user.isTwoFactorEnabled && decide (request.twoFactorCode = "")) = true
    · simp only [h1, h2, if_false, if_true]
      simp [hrow]
    · by_cases h3 : (user.isTwoFactorEnabled &&
          !lib.ValidateTwoFactorCode user.twoFactorSecret request.twoFactorCode) = true
      · simp only [h1, h2, h3, if_false, if_true]
        simp [hrow, GetUser_LogSecurityEvent]
      · simp only [h1, h2, h3, if_false]
        simp only [Bool.not_eq_true] at h1 h2 h3
        by_cases h4 : clock.sessionToken = ""
        · simp [h1, h2, h3, h4, hreset, hactive]
        · simp [h1, h2, h3, h4, hreset, hactive, GetUser_LogSecurityEvent]

/-- C15, amended. Every `Login` call in which the supplied password verifies
for an account that is not locked leaves `lockedUntil` as it was. It resets the
counter of the account to 0 when the call also passes the e-mail verification
and two-factor checks (returning `SUCCESS`, or `DATABASE_ERROR` when no session
is created), whatever the counter was; when one of those checks rejects, the
counter keeps its value. -/
theorem C15_verified_password_resets_counter (a : AuthManager) (lib : AuthLib) (db : Database)
    (clock : LoginClock) (request : LoginRequest) (token : AuthToken) (user : User)
    (hacc : PassingAccount lib db request user)
    (hlim : (a.IsRateLimited request.ipAddress "login" clock.tLimit).1 = false)
    (hunlocked : a.IsUserLocked db user.id clock.tLocked = false) :
    ((a.Login lib db clock request token).db.GetUser user.id).lockedUntil = user.lockedUntil ∧
    (passesLaterChecks a lib request user = true →
      ((a.Login lib db clock request token).result = AuthResult.SUCCESS ∨
        (a.Login lib db clock request token).result = AuthResult.DATABASE_ERROR) ∧
      ((a.Login lib db clock request token).db.GetUser user.id).failedLoginAttempts = 0) ∧
    (passesLaterChecks a lib request user = false →
      ((a.Login lib db clock request token).result = AuthResult.EMAIL_NOT_VERIFIED ∨
        (a.Login lib db clock request token).result = AuthResult.TWO_FACTOR_REQUIRED ∨
        (a.Login lib db clock request token).result = AuthResult.INVALID_TWO_FACTOR) ∧
      ((a.Login lib db clock request token).db.GetUser user.id).failedLoginAttempts
        = user.failedLoginAttempts) := by
  obtain ⟨hpass, hfail⟩ := Login_right_password a lib db clock request token user hacc hlim
    hunlocked
  refine ⟨?_, ?_, ?_⟩
  · cases hc : passesLaterChecks a lib request user with
    | true => rw [(hpass hc).2]
    | false => rw [(hfail hc).2]
  · intro hc
    exact ⟨(hpass hc).1, by rw [(hpass hc).2]⟩
  · intro hc
    exact ⟨(hfail hc).1, by rw [(hfail hc).2]⟩

theorem C15_verified_password_resets_counter_witness :
    (dbAccounts.GetUser erinUser.id).failedLoginAttempts = 3 ∧
    ((AuthManager.empty.Login stubLib dbAccounts (clockAt 5000) erinRequest
        AuthToken.none).result = AuthResult.SUCCESS ∨
      (AuthManager.empty.Login stubLib dbAccounts (clockAt 5000) erinRequest
        AuthToken.none).result = AuthResult.DATABASE_ERROR) ∧
    ((AuthManager.empty.Login stubLib dbAccounts (clockAt 5000) erinRequest
        AuthToken.none).db.GetUser erinUser.id).failedLoginAttempts = 0 :=
  ⟨by decide,
   (C15_verified_password_resets_counter AuthManager.empty stubLib dbAccounts (clockAt 5000)
    erinRequest AuthToken.none erinUser
    ⟨by decide, by decide, by decide, rfl, by decide⟩
    (IsRateLimited_login_of_short _ _ _ (by decide)) (by decide)).2.1 (by decide)⟩

/-! ## The size of a grid -/

theorem flatten_length_of_rows (reels : List (List SlotSymbol)) (n : Nat)
    (h : ∀ reel ∈ reels, reel.length = n) : reels.flatten.length = reels.length * n := by
  induction reels with
  | nil => simp
  | cons reel rest ih =>
    rw [List.flatten_cons, List.length_append, List.length_cons,
      ih (fun r hr => h r (List.mem_cons_of_mem _ hr)), h reel (List.mem_cons_self _ _)]
    ring

/-! ## C21 -/

/-- The statistics block leaves the RTP alone while the total bet is not
positive. -/
theorem recordStats_rtp_of_nonpos (stats : GameStats) (betAmount : ℚ) (result : SpinResult)
    (h : stats.totalBet + betAmount ≤ 0) :
    (recordStats stats betAmount result).rtp = stats.rtp := by
  unfold recordStats
  dsimp only
  rw [if_neg (not_lt.mpr h)]

/-- C21 as stated fails. A freshly constructed engine, and any engine right
after `ResetStats`, has `stats.totalBet = 0` and reports `stats.rtp = 96.5`. -/
theorem C21_counterexample :
    GameEngine.fresh.stats.totalBet = 0 ∧ GameEngine.fresh.stats.rtp ≠ 0 ∧
    (ResetStats engineAfterOneSpin).stats.totalBet = 0 ∧
    (ResetStats engineAfterOneSpin).stats.rtp ≠ 0 := by
  norm_num [GameEngine.fresh, ResetStats]

/-- C21, amended. A freshly constructed engine and every engine right after
`ResetStats` have `stats.totalBet = 0` and report the RTP target
`stats.rtp = 96.5`; and every `Spin(bet)` call with
`stats.totalBet + bet <= 0` returns and leaves `stats.rtp` as it was: admitted,
it skips the update of the RTP, and rejected, it changes no statistic. -/
theorem C21_rtp_without_wager (e : GameEngine) (betAmount : ℚ) (rng : Nat → Nat)
    (tCheck tRecord : Nat) (h : e.stats.totalBet + betAmount ≤ 0) :
    GameEngine.fresh.stats.totalBet = 0 ∧ GameEngine.fresh.stats.rtp = 965 / 10 ∧
    (ResetStats e).stats.totalBet = 0 ∧ (ResetStats e).stats.rtp = 965 / 10 ∧
    ∃ e2 result, Spin e betAmount rng tCheck tRecord = some (e2, result) ∧
      e2.stats.rtp = e.stats.rtp := by
  refine ⟨rfl, rfl, rfl, rfl, ?_⟩
  obtain ⟨-, -, hstats, -⟩ := ValidateSpinTiming_frame e tCheck
  rcases Spin_cases e betAmount rng tCheck tRecord with ⟨-, hs⟩ | ⟨-, -, hs⟩ | ⟨-, -, -, -, hs⟩
  · exact ⟨_, _, hs, rfl⟩
  · exact ⟨_, _, hs, by rw [hstats]⟩
  · obtain ⟨e2, result, hadmit, -, -, -, hst, -⟩ :=
      Spin_admitted_spec (ValidateSpinTiming e tCheck).2 betAmount rng tRecord
    refine ⟨e2, result, hs.trans hadmit, ?_⟩
    rw [hst, hstats]
    exact recordStats_rtp_of_nonpos _ _ _ h

theorem C21_rtp_without_wager_witness :
    fundedEngine.stats.totalBet + 0 ≤ 0 ∧
    GameEngine.fresh.stats.totalBet = 0 ∧ GameEngine.fresh.stats.rtp = 965 / 10 ∧
    (ResetStats fundedEngine).stats.totalBet = 0 ∧ (ResetStats fundedEngine).stats.rtp = 965 / 10 ∧
    ∃ e2 result, Spin fundedEngine 0 rngCherries 1000 1001 = some (e2, result) ∧
      e2.stats.rtp = fundedEngine.stats.rtp :=
  ⟨by norm_num [fundedEngine, GameEngine.fresh],
   C21_rtp_without_wager fundedEngine 0 rngCherries 1000 1001
     (by norm_num [fundedEngine, GameEngine.fresh])⟩

/-! ## C22 -/

/-- C22. `Spin(-5)` on a funded engine with no history is admitted; with a
grid of cherries every line pays a tenth of the bet, so `stats.totalBet` goes
from 0 to -5 and `stats.totalWin` from 0 to -12.5. -/
theorem C22_negative_bet_lowers_totals :
    Spin fundedEngine (-5) rngCherries 1000 1001 =
      some ({ currentBalance := 5 / 2, currentBet := -5,
              stats := { totalBet := -5, totalWin := -25 / 2, totalSpins := 1, winningSpins := 1,
                         rtp := 965 / 10 },
              isSpinning := false, lastSpinTime := 1000, spinHistory := [1001], rngDraws := 15 },
            { reels := gridCherries, winAmount := -25 / 2, isWin := true,
              winLines := (List.range PAYLINES).map Int.ofNat,
              isBonusTriggered := none, isJackpot := some true }) ∧
    fundedEngine.stats.totalBet = 0 ∧ fundedEngine.stats.totalWin = 0 := by
  refine ⟨?_, rfl, rfl⟩
  norm_num [Spin, CanSpin, fundedEngine, GameEngine.fresh, ValidateSpinTiming, u64sub, U64,
    DetectPatternAbuse, Spin.admitted, generateReels_rngCherries, CalculateWin,
    CalculateWin.paylines, paylineLoop_true _ CheckWinLine_gridCherries,
    scatterCount_gridCherries, CalculateWin.start, Spin.settle, recordStats, UpdateSpinHistory,
    PAYLINES]

/-! ## C24 -/

theorem count_iff (p q : Nat → Prop) [DecidablePred p] [DecidablePred q] (h : ∀ n, p n ↔ q n)
    (N : Nat) : Nat.count p N = Nat.count q N := by
  induction N with
  | zero => simp
  | succ n ih =>
    rw [Nat.count_succ, Nat.count_succ, ih]
    by_cases hp : p n
    · rw [if_pos hp, if_pos ((h n).mp hp)]
    · rw [if_neg hp, if_neg (fun hq => hp ((h n).mpr hq))]

/-- The number of values below `N` whose residue modulo 1000 falls in
`[lo, hi)`. -/
theorem count_draw_interval (lo hi N : Nat) (hlo : lo ≤ hi) (hhi : hi ≤ 1000) :
    Nat.count (fun v => lo ≤ v % 1000 ∧ v % 1000 < hi) N
      = N / 1000 * (hi - lo) + (min (N % 1000) hi - min (N % 1000) lo) := by
  induction N with
  | zero => simp
  | succ n ih =>
    rw [Nat.count_succ, ih]
    have hq : ((n + 1) / 1000 = n / 1000 ∧ (n + 1) % 1000 = n % 1000 + 1) ∨
        ((n + 1) / 1000 = n / 1000 + 1 ∧ (n + 1) % 1000 = 0 ∧ n % 1000 = 999) := by omega
    rcases hq with ⟨h1, h2⟩ | ⟨h1, h2, h3⟩
    · rw [h1, h2]
      split_ifs <;> omega
    · rw [h1, h2, h3, Nat.add_mul, Nat.one_mul]
      split_ifs <;> omega

theorem U64_div_mod : U64 / 1000 = 18446744073709551 ∧ U64 % 1000 = 616 := by
  norm_num [U64]

theorem rawOutputsDrawing_eq (r : Nat) :
    rawOutputsDrawing r =
      if r < 616 then 18446744073709552 else if r < 1000 then 18446744073709551 else 0 := by
  unfold rawOutputsDrawing
  by_cases hr : r < 1000
  · rw [count_iff _ (fun v => r ≤ v % 1000 ∧ v % 1000 < r + 1) (fun n => by omega),
      count_draw_interval r (r + 1) U64 (by omega) (by omega), U64_div_mod.1, U64_div_mod.2]
    split_ifs <;> omega
  · rw [count_iff _ (fun v => 1000 ≤ v % 1000 ∧ v % 1000 < 1000) (fun n => by omega),
      count_draw_interval 1000 1000 U64 (by omega) (by omega)]
    split_ifs <;> omega

theorem rawOutputsChoosing_eq (s : SlotSymbol) :
    rawOutputsChoosing s = specWeight s * 18446744073709551 +
      (min 616 (cumulativeLower s + specWeight s) - min 616 (cumulativeLower s)) := by
  unfold rawOutputsChoosing
  rw [count_iff _
      (fun v => cumulativeLower s ≤ v % 1000 ∧ v % 1000 < cumulativeLower s + specWeight s)
      (fun n => symbolFor_eq_iff s (n % 1000) (Nat.mod_lt _ (by norm_num))),
    count_draw_interval _ _ U64 (by omega) (by cases s <;> decide), U64_div_mod.1, U64_div_mod.2]
  cases s <;> simp [specWeight, cumulativeLower]

/-- C24 as stated fails: the draw 0 has 18446744073709552 raw 64-bit values and
the draw 999 has 18446744073709551, and CHERRY, of weight 200, is not chosen by
exactly 200/1000 of the `2^64` raw values. -/
theorem C24_counterexample :
    rawOutputsDrawing 0 = 18446744073709552 ∧ rawOutputsDrawing 999 = 18446744073709551 ∧
    rawOutputsChoosing CHERRY * 1000 ≠ specWeight CHERRY * U64 := by
  refine ⟨?_, ?_, ?_⟩
  · rw [rawOutputsDrawing_eq]; rfl
  · rw [rawOutputsDrawing_eq]; rfl
  · rw [rawOutputsChoosing_eq]
    norm_num [specWeight, cumulativeLower, U64]

/-- C24, amended. Of the `2^64` raw generator outputs, every draw `r < 616` of
`rng() % 1000` has 18446744073709552 and every draw `616 <= r < 1000` has
18446744073709551, so the counts differ by at most one; a symbol is chosen by
weight times 18446744073709551 raw outputs plus one for each of its draws
below 616, and its probability differs from `weight/1000` by less than
`2^-57`. -/
theorem C24_draw_is_nearly_uniform (r : Nat) (s : SlotSymbol) (hr : r < 1000) :
    rawOutputsDrawing r = 18446744073709551 + (if r < 616 then 1 else 0) ∧
    rawOutputsChoosing s = specWeight s * 18446744073709551 +
      (min 616 (cumulativeLower s + specWeight s) - min 616 (cumulativeLower s)) ∧
    |(rawOutputsChoosing s : ℚ) / (U64 : ℚ) - (specWeight s : ℚ) / 1000| < 1 / 2 ^ 57 := by
  refine ⟨?_, rawOutputsChoosing_eq s, ?_⟩
  · rw [rawOutputsDrawing_eq]
    split_ifs <;> omega
  · rw [rawOutputsChoosing_eq]
    cases s <;> norm_num [specWeight, cumulativeLower, U64, abs_lt]

theorem C24_draw_is_nearly_uniform_witness :
    616 < 1000 ∧
    rawOutputsDrawing 616 = 18446744073709551 + (if 616 < 616 then 1 else 0) ∧
    rawOutputsChoosing BELL = specWeight BELL * 18446744073709551 +
      (min 616 (cumulativeLower BELL + specWeight BELL) - min 616 (cumulativeLower BELL)) ∧
    |(rawOutputsChoosing BELL : ℚ) / (U64 : ℚ) - (specWeight BELL : ℚ) / 1000| < 1 / 2 ^ 57 :=
  ⟨by decide, C24_draw_is_nearly_uniform 616 BELL (by decide)⟩

/-! ## C30 -/

theorem luhnLoop_shift (l : List Char) (alternate : Bool) (sum d : Int) :
    luhnLoop l alternate (sum + d) = luhnLoop l alternate sum + d := by
  induction l generalizing alternate sum with
  | nil => rfl
  | cons c rest ih =>
    simp only [luhnLoop]
    rw [show sum + d + luhnDigit alternate c = sum + luhnDigit alternate c + d by ring, ih]

/-- The sum of the loop over `a ++ c :: b` is a base that does not depend on
`c` plus the contribution of `c`, taken with a flag that does not depend on `c`
either. -/
theorem luhnLoop_replace (a b : List Char) (alternate : Bool) (sum : Int) :
    ∃ (alternate1 : Bool) (base : Int),
      ∀ c, luhnLoop (a ++ c :: b) alternate sum = base + luhnDigit alternate1 c := by
  induction a generalizing alternate sum with
  | nil =>
    refine ⟨alternate, luhnLoop b (!alternate) sum, fun c => ?_⟩
    simp only [List.nil_append, luhnLoop, luhnLoop_shift]
  | cons x rest ih =>
    obtain ⟨alternate1, base, h⟩ := ih (!alternate) (sum + luhnDigit alternate x)
    refine ⟨alternate1, base, fun c => ?_⟩
    rw [List.cons_append]
    simp only [luhnLoop]
    exact h c

theorem toNat_ne_of_ne {c d : Char} (h : c ≠ d) : c.toNat ≠ d.toNat := by
  intro heq
  apply h
  rw [← Char.ofNat_toNat c, ← Char.ofNat_toNat d, heq]

/-- Two different decimal digits contribute differently modulo 10, doubled or
not. -/
theorem luhnDigit_differs (alternate : Bool) (c d : Char) (hc : isDecimalDigit c = true)
    (hd : isDecimalDigit d = true) (hne : c ≠ d) :
    ¬ (10 : Int) ∣ (luhnDigit alternate c - luhnDigit alternate d) := by
  have hn := toNat_ne_of_ne hne
  simp only [isDecimalDigit, Bool.and_eq_true, decide_eq_true_eq] at hc hd
  cases alternate
  · simp only [luhnDigit, Bool.false_eq_true, if_false]
    omega
  · simp only [luhnDigit, if_true]
    split_ifs <;> omega

theorem not_isspace_of_digit (c : Char) (hc : isDecimalDigit c = true) : (!isspace c) = true := by
  simp only [isDecimalDigit, Bool.and_eq_true, decide_eq_true_eq] at hc
  simp only [isspace, Bool.not_eq_true', Bool.or_eq_false_iff, Bool.and_eq_false_imp,
    decide_eq_true_eq, decide_eq_false_iff_not]
  omega

/-- On a number of decimal digits only, `ValidatePaymentInfo` for a card is the
length test followed by the Luhn test. -/
theorem ValidatePaymentInfo_of_digits (info : PaymentInfo)
    (hmethod : info.method = PaymentMethod.CREDIT_CARD ∨ info.method = PaymentMethod.DEBIT_CARD)
    (hdigits : ∀ ch ∈ info.cardNumber.data, isDecimalDigit ch = true) :
    PaymentSystem.ValidatePaymentInfo info = true ↔
      info.holderName.length ≠ 0 ∧ 13 ≤ info.cardNumber.length ∧ info.cardNumber.length ≤ 19 ∧
      (10 : Int) ∣ luhnLoop info.cardNumber.data.reverse false 0 := by
  have hfilter : info.cardNumber.data.filter (fun c => !isspace c) = info.cardNumber.data :=
    List.filter_eq_self.mpr (fun ch hch => not_isspace_of_digit ch (hdigits ch hch))
  have hlen : info.cardNumber.length = info.cardNumber.data.length := rfl
  unfold PaymentSystem.ValidatePaymentInfo
  by_cases h1 : info.cardNumber.length = 0 ∨ info.holderName.length = 0
  · rw [if_pos h1]
    constructor
    · intro h
      exact absurd h (by decide)
    · rintro ⟨hname, h13, -, -⟩
      rcases h1 with h0 | h0
      · omega
      · exact absurd h0 hname
  · rw [if_neg h1, if_pos hmethod]
    dsimp only
    rw [hfilter, ← hlen]
    by_cases h2 : info.cardNumber.length < 13 ∨ info.cardNumber.length > 19
    · rw [if_pos h2]
      constructor
      · intro h
        exact absurd h (by decide)
      · rintro ⟨-, h13, h19, -⟩
        omega
    · rw [if_neg h2]
      by_cases h3 : Int.tmod (luhnLoop info.cardNumber.data.reverse false 0) 10 ≠ 0
      · rw [if_pos h3]
        constructor
        · intro h
          exact absurd h (by decide)
        · rintro ⟨-, -, -, hdvd⟩
          exact absurd (Int.tmod_eq_zero_of_dvd hdvd) h3
      · rw [if_neg h3]
        refine ⟨fun _ => ⟨fun h0 => h1 (Or.inr h0), by omega, by omega, ?_⟩, fun _ => rfl⟩
        exact Int.dvd_of_tmod_eq_zero (not_not.mp h3)

/-- C30. For a credit- or debit-card `PaymentInfo` whose card number consists
of decimal digits only, if `ValidatePaymentInfo` accepts it (so the holder name
is not empty and the number has 13 to 19 digits), then it rejects every number
obtained by replacing the digit at one position with a different decimal
digit. -/
theorem C30_luhn_detects_single_digit_errors (info : PaymentInfo) (k : Nat) (old new : Char)
    (hmethod : info.method = PaymentMethod.CREDIT_CARD ∨ info.method = PaymentMethod.DEBIT_CARD)
    (hdigits : ∀ ch ∈ info.cardNumber.data, isDecimalDigit ch = true)
    (hold : info.cardNumber.data[k]? = some old) (hnew : isDecimalDigit new = true)
    (hne : new ≠ old)
    (haccept : PaymentSystem.ValidatePaymentInfo info = true) :
    PaymentSystem.ValidatePaymentInfo
      { info with cardNumber := replaceDigit info.cardNumber k new } = false := by
  obtain ⟨hk, hget⟩ := List.getElem?_eq_some.mp hold
  have holdDigit : isDecimalDigit old = true := hdigits old (List.getElem?_mem hold)
  have hsplit : info.cardNumber.data
      = info.cardNumber.data.take k ++ old :: info.cardNumber.data.drop (k + 1) := by
    rw [← hget, ← List.drop_eq_getElem_cons hk, List.take_append_drop]
  have hreplaced : (replaceDigit info.cardNumber k new).data
      = info.cardNumber.data.take k ++ new :: info.cardNumber.data.drop (k + 1) := by
    have hset := @List.set_eq_take_append_cons_drop _ info.cardNumber.data k new
    rw [if_pos hk] at hset
    exact hset
  have hreverse : ∀ c : Char,
      (info.cardNumber.data.take k ++ c :: info.cardNumber.data.drop (k + 1)).reverse
        = (info.cardNumber.data.drop (k + 1)).reverse ++ c :: (info.cardNumber.data.take k).reverse := by
    intro c
    simp [List.reverse_append, List.reverse_cons, List.append_assoc]
  obtain ⟨alternate1, base, hsum⟩ := luhnLoop_replace
    (info.cardNumber.data.drop (k + 1)).reverse (info.cardNumber.data.take k).reverse false 0
  obtain ⟨-, -, -, hdvd⟩ := (ValidatePaymentInfo_of_digits info hmethod hdigits).mp haccept
  rw [hsplit, hreverse, hsum] at hdvd
  have hdigits2 : ∀ ch ∈ (replaceDigit info.cardNumber k new).data, isDecimalDigit ch = true := by
    intro ch hch
    rcases List.mem_or_eq_of_mem_set hch with hmem | heq
    · exact hdigits ch hmem
    · rw [heq]; exact hnew
  rw [Bool.eq_false_iff]
  intro haccept2
  obtain ⟨-, -, -, hdvd2⟩ :=
    (ValidatePaymentInfo_of_digits { info with cardNumber := replaceDigit info.cardNumber k new }
      hmethod hdigits2).mp haccept2
  dsimp only at hdvd2
  rw [hreplaced, hreverse, hsum] at hdvd2
  apply luhnDigit_differs alternate1 new old hnew holdDigit hne
  have hsub := Int.dvd_sub hdvd2 hdvd
  rw [show base + luhnDigit alternate1 new - (base + luhnDigit alternate1 old)
    = luhnDigit alternate1 new - luhnDigit alternate1 old by ring] at hsub
  exact hsub

theorem C30_luhn_detects_single_digit_errors_witness :
    (cardAlice.method = PaymentMethod.CREDIT_CARD ∨ cardAlice.method = PaymentMethod.DEBIT_CARD) ∧
    (∀ ch ∈ cardAlice.cardNumber.data, isDecimalDigit ch = true) ∧
    cardAlice.cardNumber.data[15]? = some '1' ∧ isDecimalDigit '7' = true ∧ '7' ≠ '1' ∧
    PaymentSystem.ValidatePaymentInfo cardAlice = true ∧
    PaymentSystem.ValidatePaymentInfo
      { cardAlice with cardNumber := replaceDigit cardAlice.cardNumber 15 '7' } = false :=
  ⟨Or.inl rfl, by decide, by decide, by decide, by decide, by decide,
   C30_luhn_detects_single_digit_errors cardAlice 15 '1' '7' (Or.inl rfl) (by decide) (by decide)
     (by decide) (by decide) (by decide)⟩

/-! ## C29 -/

theorem toNat_ofNat_upper (m : Nat) (h1 : 65 ≤ m) (h2 : m ≤ 90) : (Char.ofNat m).toNat = m := by
  interval_cases m <;> rfl

/-- No character that `toupper` returns is a lower-case letter. -/
theorem toupper_not_lower (c : Char) :
    ¬ (97 ≤ (toupper c).toNat ∧ (toupper c).toNat ≤ 122) := by
  unfold toupper Char.toUpper
  dsimp only
  by_cases h : c.toNat ≥ 97 ∧ c.toNat ≤ 122
  · rw [if_pos h, toNat_ofNat_upper _ (by omega) (by omega)]
    omega
  · rw [if_neg h]
    exact h

/-- A pattern that holds a lower-case letter is found in no upper-cased
input. -/
theorem lowercase_pattern_absent (pattern : List Char)
    (h : ∃ c ∈ pattern, 97 ≤ c.toNat ∧ c.toNat ≤ 122) (input : List Char) :
    ¬ pattern <:+: input.map toupper := by
  intro hfound
  obtain ⟨c, hc, hlower⟩ := h
  obtain ⟨d, -, hd⟩ := List.mem_map.mp (hfound.subset hc)
  rw [← hd] at hlower
  exact toupper_not_lower d hlower

/-- `ValidateUserInput` returns false exactly when the upper-cased input holds
one of the listed patterns as it is written in the list. -/
theorem ValidateUserInput_false_iff (s : SecurityManager) (input : String) (t : Nat) :
    (s.ValidateUserInput input t).1 = false ↔
      ∃ pattern ∈ dangerousPatterns, pattern.data <:+: input.data.map toupper := by
  unfold SecurityManager.ValidateUserInput
  dsimp only
  cases hfind : dangerousPatterns.find?
      (fun pattern => decide (pattern.data <:+: input.data.map toupper)) with
  | none =>
    rw [List.find?_eq_none] at hfind
    constructor
    · intro h
      exact absurd h (by simp)
    · rintro ⟨pattern, hmem, hfound⟩
      exact absurd (decide_eq_true hfound) (hfind pattern hmem)
  | some pattern =>
    refine ⟨fun _ => ⟨pattern, List.mem_of_find?_eq_some hfind, ?_⟩, fun _ => rfl⟩
    have hp := List.find?_some hfind
    exact of_decide_eq_true hp

/-- C29. The input `<script>alert(1)</script>` holds the listed pattern
`<script`, and `ValidateUserInput` returns true for it without logging. For
every input, `ValidateUserInput` returns false exactly when the input holds,
ignoring ASCII letter case, one of the seven patterns written without a
lower-case letter (SELECT, INSERT, UPDATE, DELETE, DROP, `../`, `..\`): the six
patterns written in lower case are compared with the upper-cased input and
never match. -/
theorem C29_lower_case_patterns_never_match (s : SecurityManager) (input : String) (t : Nat) :
    "<script>alert(1)</script>".data.map toupper = "<SCRIPT>ALERT(1)</SCRIPT>".data ∧
    "<script".data.map toupper <:+: "<script>alert(1)</script>".data.map toupper ∧
    "<script" ∈ dangerousPatterns ∧
    s.ValidateUserInput "<script>alert(1)</script>" t = (true, s) ∧
    ((s.ValidateUserInput input t).1 = false ↔
      ∃ pattern ∈ upperCasePatterns,
        pattern.data.map toupper <:+: input.data.map toupper) := by
  refine ⟨by decide, by decide, by decide, ?_, ?_⟩
  · have h : dangerousPatterns.find? (fun pattern =>
        decide (pattern.data <:+: "<script>alert(1)</script>".data.map toupper)) = none := by
      decide
    simp only [SecurityManager.ValidateUserInput, h]
  · rw [ValidateUserInput_false_iff]
    have hupper : ∀ pattern ∈ upperCasePatterns, pattern.data.map toupper = pattern.data := by
      decide
    have hsub : ∀ pattern ∈ upperCasePatterns, pattern ∈ dangerousPatterns := by decide
    have hlower : ∀ pattern ∈ dangerousPatterns, pattern ∉ upperCasePatterns →
        ∃ c ∈ pattern.data, 97 ≤ c.toNat ∧ c.toNat ≤ 122 := by decide
    constructor
    · rintro ⟨pattern, hmem, hfound⟩
      by_cases hup : pattern ∈ upperCasePatterns
      · exact ⟨pattern, hup, by rw [hupper pattern hup]; exact hfound⟩
      · exact absurd hfound (lowercase_pattern_absent _ (hlower pattern hmem hup) _)
    · rintro ⟨pattern, hup, hfound⟩
      rw [hupper pattern hup] at hfound
      exact ⟨pattern, hsub pattern hup, hfound⟩

/-! ## C25 -/

/-- A call of `ValidateGameAction` is admitted iff the purged log of the action
is below the limit, and it appends its time to that log exactly when it is
admitted. -/
theorem ValidateGameAction_log (s : SecurityManager) (action : String) (tCheck tRecord : Nat) :
    ((s.ValidateGameAction action tCheck tRecord).1 = true ↔
      ((s.actionHistory action).filter
        (fun timestamp => !decide (u64sub tCheck timestamp > 60000))).length
          < specActionLimit action) ∧
    (s.ValidateGameAction action tCheck tRecord).2.actionHistory action =
      (s.actionHistory action).filter (fun timestamp => !decide (u64sub tCheck timestamp > 60000))
        ++ (if (s.ValidateGameAction action tCheck tRecord).1 = true then [tRecord % U64] else []) := by
  have hfst := securityIsRateLimited_fst s action tCheck
  have hlog := securityIsRateLimited_log s action tCheck
  unfold SecurityManager.ValidateGameAction
  dsimp only
  by_cases hlim : (s.IsRateLimited action tCheck).1 = true
  · rw [if_pos hlim]
    rw [hfst, decide_eq_true_eq] at hlim
    refine ⟨⟨fun h => absurd h (by simp), fun h => absurd h (by omega)⟩, ?_⟩
    simp [SecurityManager.LogSecurityEvent, hlog]
  · rw [if_neg hlim]
    rw [hfst, decide_eq_true_eq] at hlim
    refine ⟨⟨fun _ => by omega, fun _ => rfl⟩, ?_⟩
    simp [SecurityManager.UpdateActionHistory, hlog]

theorem validateRun_snoc (action : String) (s : SecurityManager) (calls : List (Nat × Nat))
    (call : Nat × Nat) :
    validateRun action s (calls ++ [call]) =
      (((validateRun action s calls).1.ValidateGameAction action call.1 call.2).2,
        (validateRun action s calls).2 ++
          [((validateRun action s calls).1.ValidateGameAction action call.1 call.2).1]) := by
  simp only [validateRun, List.foldl_append, List.foldl_cons, List.foldl_nil]

theorem validateRun_length (action : String) (s : SecurityManager) (calls : List (Nat × Nat)) :
    (validateRun action s calls).2.length = calls.length := by
  induction calls using List.reverseRecOn with
  | nil => rfl
  | append_singleton rest call ih =>
    rw [validateRun_snoc, List.length_append, ih, List.length_append]
    rfl

theorem admittedTimes_snoc (calls : List (Nat × Nat)) (results : List Bool) (call : Nat × Nat)
    (b : Bool) (h : results.length = calls.length) :
    admittedTimes (calls ++ [call]) (results ++ [b])
      = admittedTimes calls results ++ (if b = true then [call.2] else []) := by
  unfold admittedTimes
  rw [List.zip_append h.symm, List.filter_append, List.map_append]
  cases b <;> simp

theorem clockReadings_snoc (calls : List (Nat × Nat)) (call : Nat × Nat) :
    clockReadings (calls ++ [call]) = clockReadings calls ++ [call.1, call.2] := by
  induction calls with
  | nil => rfl
  | cons c rest ih =>
    show c.1 :: c.2 :: clockReadings (rest ++ [call])
      = c.1 :: c.2 :: clockReadings rest ++ [call.1, call.2]
    rw [ih]
    rfl

theorem mem_clockReadings (calls : List (Nat × Nat)) (call : Nat × Nat) (h : call ∈ calls) :
    call.1 ∈ clockReadings calls ∧ call.2 ∈ clockReadings calls := by
  induction calls with
  | nil => simp at h
  | cons c rest ih =>
    rcases List.mem_cons.mp h with heq | hmem
    · subst heq
      simp [clockReadings]
    · have := ih hmem
      simp [clockReadings, this.1, this.2]

theorem admittedTimes_mem (calls : List (Nat × Nat)) (results : List Bool) (t : Nat)
    (h : t ∈ admittedTimes calls results) : t ∈ clockReadings calls := by
  unfold admittedTimes at h
  obtain ⟨p, hp, rfl⟩ := List.mem_map.mp h
  have hz := (List.mem_filter.mp hp).1
  have hmem : p.1 ∈ calls := (List.of_mem_zip hz).1
  exact (mem_clockReadings calls p.1 hmem).2

theorem lastCheck_snoc (calls : List (Nat × Nat)) (call : Nat × Nat) :
    lastCheck (calls ++ [call]) = call.1 := by
  simp [lastCheck]

theorem lastCheck_mem (calls : List (Nat × Nat)) (h : calls ≠ []) :
    lastCheck calls ∈ clockReadings calls := by
  induction calls using List.reverseRecOn with
  | nil => exact absurd rfl h
  | append_singleton rest call _ =>
    rw [lastCheck_snoc, clockReadings_snoc]
    simp

/-- The invariant of a run at non-decreasing times from an empty log: the log
holds the admitted attempts that were at most 60000 ms old at the last check,
no window of 60000 ms holds more admitted attempts than the limit, and the log
is never longer than the limit. -/
theorem validateRun_invariant (s : SecurityManager) (action : String) (calls : List (Nat × Nat))
    (hempty : s.actionHistory action = [])
    (hsorted : List.Sorted (· ≤ ·) (clockReadings calls))
    (hu64 : ∀ t ∈ clockReadings calls, t < U64) :
    (validateRun action s calls).1.actionHistory action
      = (admittedTimes calls (validateRun action s calls).2).filter
          (fun t => decide (lastCheck calls ≤ t + 60000)) ∧
    (∀ w, ((admittedTimes calls (validateRun action s calls).2).filter
        (fun t => decide (w ≤ t ∧ t ≤ w + 60000))).length ≤ specActionLimit action) ∧
    ((validateRun action s calls).1.actionHistory action).length ≤ specActionLimit action := by
  induction calls using List.reverseRecOn with
  | nil =>
    refine ⟨?_, fun w => ?_, ?_⟩
    · simp [validateRun, admittedTimes, hempty]
    · simp [validateRun, admittedTimes]
    · simp [validateRun, hempty]
  | append_singleton rest call ih =>
    rw [clockReadings_snoc] at hsorted hu64
    obtain ⟨hsorted0, hlast, hcross⟩ := List.pairwise_append.mp hsorted
    have hu64rest : ∀ t ∈ clockReadings rest, t < U64 :=
      fun t ht => hu64 t (List.mem_append_left _ ht)
    obtain ⟨hlog0, hwin0, hlen0⟩ := ih hsorted0 hu64rest
    have hcheck : call.1 < U64 := hu64 call.1 (by simp)
    have hrecord : call.2 < U64 := hu64 call.2 (by simp)
    have hle : call.1 ≤ call.2 := by
      have := List.pairwise_cons.mp hlast
      exact this.1 call.2 (by simp)
    have hpast : ∀ t ∈ clockReadings rest, t ≤ call.1 := fun t ht => hcross t ht call.1 (by simp)
    have hadmPast : ∀ t ∈ admittedTimes rest (validateRun action s rest).2, t ≤ call.1 :=
      fun t ht => hpast t (admittedTimes_mem _ _ t ht)
    -- the purged log is the list of admitted attempts that are recent at this check
    have hpurged : ((validateRun action s rest).1.actionHistory action).filter
          (fun timestamp => !decide (u64sub call.1 timestamp > 60000))
        = (admittedTimes rest (validateRun action s rest).2).filter
            (fun t => decide (call.1 ≤ t + 60000)) := by
      rw [hlog0, List.filter_filter]
      apply List.filter_congr
      intro t ht
      have htle := hadmPast t ht
      rw [u64sub_of_le htle hcheck]
      by_cases hrest : rest = []
      · subst hrest
        simp [admittedTimes] at ht
      · have hL : lastCheck rest ≤ call.1 := hpast _ (lastCheck_mem rest hrest)
        by_cases hrecent : call.1 ≤ t + 60000
        · simp [hrecent]
          omega
        · simp [hrecent]
          omega
    obtain ⟨hroomIff, hlog⟩ :=
      ValidateGameAction_log (validateRun action s rest).1 action call.1 call.2
    rw [hpurged] at hroomIff hlog
    rw [validateRun_snoc]
    dsimp only
    rw [admittedTimes_snoc _ _ _ _ (validateRun_length action s rest), lastCheck_snoc, hlog,
      Nat.mod_eq_of_lt hrecord]
    by_cases hres : ((validateRun action s rest).1.ValidateGameAction action call.1 call.2).1 = true
    · have hroom := hroomIff.mp hres
      rw [if_pos hres]
      refine ⟨?_, fun w => ?_, ?_⟩
      · have hsing : [call.2].filter (fun t => decide (call.1 ≤ t + 60000)) = [call.2] :=
          by
          have hrecent : call.1 ≤ call.2 + 60000 := by omega
          simp only [List.filter, decide_eq_true hrecent]
        rw [List.filter_append, hsing]
      · rw [List.filter_append, List.length_append]
        by_cases hin : w ≤ call.2 ∧ call.2 ≤ w + 60000
        · have hsub : ((admittedTimes rest (validateRun action s rest).2).filter
              (fun t => decide (w ≤ t ∧ t ≤ w + 60000))).length
              ≤ ((admittedTimes rest (validateRun action s rest).2).filter
                  (fun t => decide (call.1 ≤ t + 60000))).length := by
            rw [← List.countP_eq_length_filter, ← List.countP_eq_length_filter]
            apply List.countP_mono_left
            intro t ht
            simp only [decide_eq_true_eq]
            intro hw
            omega
          have hsing : ([call.2].filter (fun t => decide (w ≤ t ∧ t ≤ w + 60000))).length = 1 := by
            simp only [List.filter, decide_eq_true hin, List.length_singleton]
          rw [hsing]
          omega
        · have hsing : ([call.2].filter (fun t => decide (w ≤ t ∧ t ≤ w + 60000))).length = 0 := by
            simp only [List.filter, decide_eq_false hin, List.length_nil]
          rw [hsing]
          exact hwin0 w
      · rw [List.length_append]
        simp
        omega
    · rw [if_neg hres]
      refine ⟨?_, fun w => ?_, ?_⟩
      · rw [List.append_nil, List.append_nil]
      · rw [List.append_nil]
        exact hwin0 w
      · rw [List.append_nil, ← hpurged]
        exact le_trans (List.length_filter_le _ _) hlen0

/-- C25. For every action and every sequence of `ValidateGameAction(action)`
calls whose clock readings are non-decreasing and below `2^64`, started on a
manager whose log for the action is empty: each call appends its time to the
purged log exactly when it returns true; after the sequence the log holds
exactly the admitted attempts that were at most 60000 ms old at the last check;
the admitted attempts inside any time span of 60000 ms never number more than
the threshold of the action (100 for "spin", 10 for "payment", 50 otherwise);
and the log of the action never holds more than threshold-many entries. -/
theorem C25_admissions_within_window (s : SecurityManager) (action : String)
    (calls : List (Nat × Nat)) (hempty : s.actionHistory action = [])
    (hsorted : List.Sorted (· ≤ ·) (clockReadings calls))
    (hu64 : ∀ t ∈ clockReadings calls, t < U64) :
    (∀ (s0 : SecurityManager) (tCheck tRecord : Nat),
      (s0.ValidateGameAction action tCheck tRecord).2.actionHistory action =
        (s0.actionHistory action).filter
            (fun timestamp => !decide (u64sub tCheck timestamp > 60000))
          ++ (if (s0.ValidateGameAction action tCheck tRecord).1 = true
              then [tRecord % U64] else [])) ∧
    (validateRun action s calls).2.length = calls.length ∧
    (validateRun action s calls).1.actionHistory action
      = (admittedTimes calls (validateRun action s calls).2).filter
          (fun t => decide (lastCheck calls ≤ t + 60000)) ∧
    (∀ w, ((admittedTimes calls (validateRun action s calls).2).filter
        (fun t => decide (w ≤ t ∧ t ≤ w + 60000))).length ≤ specActionLimit action) ∧
    ((validateRun action s calls).1.actionHistory action).length ≤ specActionLimit action ∧
    specActionLimit "spin" = 100 ∧ specActionLimit "payment" = 10 ∧
    (action ≠ "spin" → action ≠ "payment" → specActionLimit action = 50) := by
  obtain ⟨hlog, hwin, hlen⟩ := validateRun_invariant s action calls hempty hsorted hu64
  refine ⟨fun s0 tCheck tRecord => (ValidateGameAction_log s0 action tCheck tRecord).2,
    validateRun_length action s calls, hlog, hwin, hlen, by decide, by decide, ?_⟩
  intro h1 h2
  simp [specActionLimit, h1, h2]

/-- Of eleven payment validations within eleven milliseconds the first ten are
admitted and the eleventh is refused. -/
theorem validateRun_elevenCalls :
    (validateRun "payment" SecurityManager.empty elevenCalls).2
      = [true, true, true, true, true, true, true, true, true, true, false] := by
  decide

theorem C25_admissions_within_window_witness :
    SecurityManager.empty.actionHistory "payment" = [] ∧
    List.Sorted (· ≤ ·) (clockReadings elevenCalls) ∧
    (∀ t ∈ clockReadings elevenCalls, t < U64) ∧
    (validateRun "payment" SecurityManager.empty elevenCalls).2.length = elevenCalls.length ∧
    (∀ w, ((admittedTimes elevenCalls
        (validateRun "payment" SecurityManager.empty elevenCalls).2).filter
        (fun t => decide (w ≤ t ∧ t ≤ w + 60000))).length ≤ specActionLimit "payment") ∧
    ((validateRun "payment" SecurityManager.empty elevenCalls).1.actionHistory "payment").length
      ≤ specActionLimit "payment" :=
  ⟨rfl, by decide, by decide,
   (C25_admissions_within_window SecurityManager.empty "payment" elevenCalls rfl (by decide)
      (by decide)).2.1,
   (C25_admissions_within_window SecurityManager.empty "payment" elevenCalls rfl (by decide)
      (by decide)).2.2.2.1,
   (C25_admissions_within_window SecurityManager.empty "payment" elevenCalls rfl (by decide)
      (by decide)).2.2.2.2.1⟩

/-! ## Wrapped `int` arithmetic -/

theorem wrapInt32_of_range (x : Int) (hlo : -2 ^ 31 ≤ x) (hhi : x < 2 ^ 31) : wrapInt32 x = x := by
  unfold wrapInt32
  norm_num at hlo hhi ⊢
  omega

/-- The unsigned difference is the difference of the integers modulo `2^64`. -/
theorem u64sub_eq_emod (now t : Nat) :
    ((u64sub now t : Nat) : Int) = ((now : Int) - (t : Int)) % (2 ^ 64 : Int) := by
  unfold u64sub
  have hU : U64 = 18446744073709551616 := by norm_num [U64]
  rw [hU]
  norm_num
  omega

/-- Each purge keeps exactly the timestamps of `windowed`. -/
theorem filter_window_eq_windowed (w now : Nat) (l : List Nat) :
    l.filter (fun timestamp => !decide (u64sub now timestamp > w)) = windowed w now l := by
  unfold windowed
  apply List.filter_congr
  intro t ht
  have h := u64sub_eq_emod now t
  by_cases hle : u64sub now t ≤ w
  · have h1 : ¬ (u64sub now t > w) := by omega
    have h2 : ((now : Int) - (t : Int)) % (2 ^ 64 : Int) ≤ (w : Int) := by
      rw [← h]; exact_mod_cast hle
    rw [decide_eq_false h1, decide_eq_true h2]; rfl
  · have h1 : u64sub now t > w := by omega
    have h2 : ¬ ((now : Int) - (t : Int)) % (2 ^ 64 : Int) ≤ (w : Int) := by
      rw [← h]; intro hc; exact hle (by exact_mod_cast hc)
    rw [decide_eq_true h1, decide_eq_false h2]; rfl

/-- For a log of past timestamps the purge keeps those with `now - t <= w`. -/
theorem filter_window_of_past (w now : Nat) (l : List Nat) (hnow : now < U64)
    (hpast : ∀ t ∈ l, t ≤ now) :
    l.filter (fun timestamp => !decide (u64sub now timestamp > w))
      = l.filter (fun t => decide (now - t ≤ w)) := by
  apply List.filter_congr
  intro t ht
  rw [u64sub_of_le (hpast t ht) hnow]
  by_cases h : now - t ≤ w
  · have h2 : ¬ (now - t > w) := by omega
    rw [decide_eq_true h, decide_eq_false h2]; rfl
  · have h2 : now - t > w := by omega
    rw [decide_eq_false h, decide_eq_true h2]; rfl

/-- A timestamp after `now`, by less than `2^64 - w`, is purged. -/
theorem filter_window_future (w now t : Nat) (l : List Nat) (hw : w < U64) (ht : t < U64)
    (hlate : now < t) (hgap : t - now < U64 - w) :
    t ∉ l.filter (fun timestamp => !decide (u64sub now timestamp > w)) := by
  intro hmem
  have hkeep := (List.mem_filter.mp hmem).2
  have hgt : u64sub now t > w := by
    unfold u64sub
    have hU : U64 = 18446744073709551616 := by norm_num [U64]
    rw [hU] at ht hgap hw ⊢
    omega
  rw [decide_eq_true hgt] at hkeep
  exact absurd hkeep (by decide)

/-! ## C8 -/

/-- C8, counterexample. Ten "payment" attempts are recorded at the clock
readings 1000 to 1009 and the limit is checked at the reading 500: every
recorded attempt has `now - t <= 60000`, so the claim's count is 10 and reaches
the threshold, and `IsRateLimited` returns false and empties the log, because
the unsigned difference `500 - t` wraps to more than 60000. -/
theorem C8_counterexample :
    specActionLimit "payment" ≤ (recentActions tenPayments "payment" 500).length ∧
    (tenPayments.IsRateLimited "payment" 500).1 = false ∧
    (tenPayments.IsRateLimited "payment" 500).2.actionHistory "payment" = [] := by
  decide

/-- C8, amended. `SecurityManager::IsRateLimited(action)` evaluated at `now`
returns true iff the recorded attempts whose age `now - t`, taken modulo `2^64`,
is at most 60000 number at least the limit of the action (100 for "spin", 10
for "payment", 50 otherwise). When no attempt was recorded after `now` that is
the count of the attempts with `now - t <= 60000`; an attempt recorded after
`now` is erased by the check. After limit-many attempts recorded inside the
window the check returns true, and when every recorded attempt is more than 60
seconds old it returns false and leaves the log of the action empty. -/
theorem C8_security_rate_limit (s : SecurityManager) (action : String) (now : Nat)
    (hnow : now < U64) :
    ((s.IsRateLimited action now).1 = true ↔
      specActionLimit action ≤ (windowed 60000 now (s.actionHistory action)).length) ∧
    ((∀ t ∈ s.actionHistory action, t ≤ now) →
      ((s.IsRateLimited action now).1 = true ↔
        specActionLimit action ≤ (recentActions s action now).length)) ∧
    (∀ t, now < t → t < U64 → t - now < U64 - 60000 →
      t ∉ (s.IsRateLimited action now).2.actionHistory action) ∧
    (∀ ts : List Nat, (∀ t ∈ ts, t ≤ now ∧ now - t ≤ 60000) →
      specActionLimit action ≤ ts.length →
      ((ts.foldl (fun st t => st.UpdateActionHistory action t) s).IsRateLimited action now).1
        = true) ∧
    ((∀ t ∈ s.actionHistory action, 60000 < now - t) →
      (s.IsRateLimited action now).1 = false ∧
      (s.IsRateLimited action now).2.actionHistory action = []) ∧
    specActionLimit "spin" = 100 ∧ specActionLimit "payment" = 10 ∧
    (action ≠ "spin" → action ≠ "payment" → specActionLimit action = 50) := by
  refine ⟨?_, ?_, ?_, ?_, ?_, by decide, by decide, ?_⟩
  · rw [securityIsRateLimited_fst, filter_window_eq_windowed]
    simp
  · intro hpast
    rw [securityIsRateLimited_fst, filter_window_of_past 60000 now _ hnow hpast, recentActions]
    simp
  · intro t hlate ht hgap
    rw [securityIsRateLimited_log]
    exact filter_window_future 60000 now t _ (by norm_num [U64]) ht hlate hgap
  · intro ts hts hlen
    rw [securityIsRateLimited_fst, securityFoldl_update_log]
    have hmap : ts.map (fun t => t % U64) = ts := by
      rw [List.map_congr_left (g := id), List.map_id]
      intro t ht
      exact Nat.mod_eq_of_lt (lt_of_le_of_lt (hts t ht).1 hnow)
    have hall : ts.filter (fun timestamp => !decide (u64sub now timestamp > 60000)) = ts := by
      rw [List.filter_eq_self]
      intro t ht
      rw [u64sub_of_le (hts t ht).1 hnow]
      have := (hts t ht).2
      simp
      omega
    rw [hmap, List.filter_append, hall, List.length_append]
    simp
    omega
  · intro hold
    have hpast : ∀ t ∈ s.actionHistory action, t ≤ now := by
      intro t ht
      have := hold t ht
      omega
    have hnone : (s.actionHistory action).filter (fun t => decide (now - t ≤ 60000)) = [] := by
      rw [List.filter_eq_nil_iff]
      intro t ht
      have := hold t ht
      simp
      omega
    refine ⟨?_, ?_⟩
    · rw [securityIsRateLimited_fst, filter_window_of_past 60000 now _ hnow hpast, hnone]
      unfold specActionLimit
      split_ifs <;> simp
    · rw [securityIsRateLimited_log, filter_window_of_past 60000 now _ hnow hpast, hnone]
  · intro h1 h2
    simp [specActionLimit, h1, h2]

theorem C8_security_rate_limit_witness :
    (tenPayments.IsRateLimited "payment" 2000).1 = true ∧
    ((tenPayments.IsRateLimited "payment" 70000).1 = false ∧
      (tenPayments.IsRateLimited "payment" 70000).2.actionHistory "payment" = []) ∧
    (1005 : Nat) ∉ (tenPayments.IsRateLimited "payment" 500).2.actionHistory "payment" :=
  ⟨(C8_security_rate_limit tenPayments "payment" 2000 (by decide)).1.mpr (by decide),
   (C8_security_rate_limit tenPayments "payment" 70000 (by decide)).2.2.2.2.1 (by decide),
   (C8_security_rate_limit tenPayments "payment" 500 (by decide)).2.2.1 1005 (by decide)
     (by decide) (by decide)⟩

/-! ## C9 -/

/-- C9, counterexample. Ten "login" attempts from 10.0.0.1 are recorded at the
clock readings 1000 to 1009 and the limit is checked at the reading 500: all
ten have `now - t <= 3600000`, so the claim's count reaches 10, and
`IsRateLimited` returns false, because the unsigned difference `500 - t` wraps
to more than 3600000 and the purge removes all ten. -/
theorem C9_counterexample :
    10 ≤ (tenLogins.recentAttempts "10.0.0.1" "login" 500).length ∧
    (tenLogins.IsRateLimited "10.0.0.1" "login" 500).1 = false ∧
    (tenLogins.IsRateLimited "10.0.0.1" "login" 500).2.recorded "10.0.0.1" "login" = [] := by
  decide

/-- C9, amended. `AuthManager::IsRateLimited(identifier, action)` evaluated at
`now` returns true iff the attempts recorded for `(identifier, action)` whose
age `now - t`, taken modulo `2^64`, is at most 3600000 number at least 10 when
the action is "login" and at least 3 when it is "register". When no attempt of
the key was recorded after `now` that is the count of the attempts with
`now - t <= 3600000`; an attempt recorded after `now` is erased by the check.
The recorded attempts are those `UpdateRateLimit` appended. -/
theorem C9_auth_rate_limit (a : AuthManager) (identifier action : String) (now : Nat)
    (hnow : now < U64) :
    (action = "login" →
      ((a.IsRateLimited identifier action now).1 = true ↔
        10 ≤ (windowed 3600000 now (a.recorded identifier action)).length)) ∧
    (action = "register" →
      ((a.IsRateLimited identifier action now).1 = true ↔
        3 ≤ (windowed 3600000 now (a.recorded identifier action)).length)) ∧
    ((∀ t ∈ a.recorded identifier action, t ≤ now) →
      (action = "login" →
        ((a.IsRateLimited identifier action now).1 = true ↔
          10 ≤ (a.recentAttempts identifier action now).length)) ∧
      (action = "register" →
        ((a.IsRateLimited identifier action now).1 = true ↔
          3 ≤ (a.recentAttempts identifier action now).length))) ∧
    (∀ t, now < t → t < U64 → t - now < U64 - 3600000 →
      t ∉ (a.IsRateLimited identifier action now).2.recorded identifier action) ∧
    (action = "login" ∨ action = "register" →
      ∀ t, (a.UpdateRateLimit identifier action t).recorded identifier action
        = a.recorded identifier action ++ [t % U64]) := by
  have hwin := filter_window_eq_windowed 3600000 now (a.recorded identifier action)
  refine ⟨?_, ?_, ?_, ?_, ?_⟩
  · intro hl
    rw [authIsRateLimited_fst, if_pos hl, ← hwin]
    simp [AuthManager.recorded, hl]
  · intro hr
    have hnl : action ≠ "login" := by rw [hr]; decide
    rw [authIsRateLimited_fst, if_neg hnl, if_pos hr, ← hwin]
    simp [AuthManager.recorded, hnl]
  · intro hpast
    have hfilter := filter_window_of_past 3600000 now (a.recorded identifier action) hnow hpast
    refine ⟨?_, ?_⟩
    · intro hl
      rw [authIsRateLimited_fst, if_pos hl, AuthManager.recentAttempts, ← hfilter]
      simp [AuthManager.recorded, hl]
    · intro hr
      have hnl : action ≠ "login" := by rw [hr]; decide
      rw [authIsRateLimited_fst, if_neg hnl, if_pos hr, AuthManager.recentAttempts,
        ← hfilter]
      simp [AuthManager.recorded, hnl]
  · intro t hlate ht hgap
    have hfut := filter_window_future 3600000 now t (a.recorded identifier action)
      (by norm_num [U64]) ht hlate hgap
    rw [authIsRateLimited_snd]
    by_cases hl : action = "login"
    · rw [if_pos hl]
      unfold AuthManager.recorded at hfut ⊢
      rw [if_pos hl] at hfut ⊢
      dsimp only
      rw [Function.update_same]
      exact hfut
    · rw [if_neg hl]
      unfold AuthManager.recorded at hfut ⊢
      rw [if_neg hl] at hfut ⊢
      dsimp only
      rw [Function.update_same]
      exact hfut
  · intro hact t
    rcases hact with hl | hr
    · simp [AuthManager.UpdateRateLimit, AuthManager.recorded, hl]
    · have hnl : action ≠ "login" := by rw [hr]; decide
      simp [AuthManager.UpdateRateLimit, AuthManager.recorded, hnl, hr]

theorem C9_auth_rate_limit_witness :
    (tenLogins.IsRateLimited "10.0.0.1" "login" 2000).1 = true ∧
    (threeRegistrations.IsRateLimited "a:b" "register" 2000).1 = true ∧
    (1005 : Nat) ∉ (tenLogins.IsRateLimited "10.0.0.1" "login" 500).2.recorded "10.0.0.1" "login" :=
  ⟨((C9_auth_rate_limit tenLogins "10.0.0.1" "login" 2000 (by decide)).1 rfl).mpr (by decide),
   ((C9_auth_rate_limit threeRegistrations "a:b" "register" 2000 (by decide)).2.1 rfl).mpr
     (by decide),
   (C9_auth_rate_limit tenLogins "10.0.0.1" "login" 500 (by decide)).2.2.2.1 1005 (by decide)
     (by decide) (by decide)⟩

/-! ## Lockout steps -/

/-- The fifth failed attempt on the account "frank", at second 5000: the lock
is written, until "T6800", and reported. -/
theorem Login_frank_locks :
    wrapInt32 (frankUser.failedLoginAttempts + 1) ≥ 5 ∧
    ((AuthManager.empty.Login stampLib dbThreshold (clockAt 5000) (wrongRequest "frank")
        AuthToken.none).db.GetUser 4).lockedUntil = "T6800" ∧
    (AuthManager.empty.Login stampLib dbThreshold (clockAt 5000) (wrongRequest "frank")
        AuthToken.none).auth.IsUserLocked
      (AuthManager.empty.Login stampLib dbThreshold (clockAt 5000) (wrongRequest "frank")
        AuthToken.none).db 4 9999 = true := by
  decide

/-! ## The bit length -/

/-- One step of `bitsAux` that drops `k` digits keeps the specification. -/
theorem bits_chunk (n k b : Nat) (hk : 2 ^ k ≤ n) (hlo : 2 ^ (b - 1) ≤ n / 2 ^ k)
    (hhi : n / 2 ^ k < 2 ^ b) : 2 ^ (b + k - 1) ≤ n ∧ n < 2 ^ (b + k) := by
  have hpos : 0 < b := by
    by_contra h0
    have hb : b = 0 := by omega
    rw [hb] at hhi
    have h1 : 1 ≤ n / 2 ^ k :=
      (Nat.le_div_iff_mul_le (by positivity : 0 < 2 ^ k)).mpr (by omega)
    simp at hhi
    omega
  constructor
  · have he : b + k - 1 = (b - 1) + k := by omega
    rw [he, pow_add]
    calc 2 ^ (b - 1) * 2 ^ k ≤ n / 2 ^ k * 2 ^ k := Nat.mul_le_mul_right _ hlo
      _ ≤ n := Nat.div_mul_le_self n (2 ^ k)
  · rw [pow_add]
    exact (Nat.div_lt_iff_lt_mul (by positivity)).mp hhi

theorem div_pow_facts (n k fuel : Nat) (hk : 2 ^ k ≤ n) (hk1 : 1 ≤ k) (h : n ≤ fuel + 1) :
    n / 2 ^ k ≠ 0 ∧ n / 2 ^ k ≤ fuel := by
  have h1 : 1 ≤ n / 2 ^ k :=
    (Nat.le_div_iff_mul_le (by positivity : 0 < 2 ^ k)).mpr (by omega)
  have h2 : (2 : Nat) ≤ 2 ^ k := by
    calc (2 : Nat) = 2 ^ 1 := (pow_one 2).symm
      _ ≤ 2 ^ k := Nat.pow_le_pow_right (by norm_num) hk1
  have hlt : n / 2 ^ k < n := Nat.div_lt_self (by omega) (by omega)
  exact ⟨by omega, by omega⟩

theorem bitsAux_spec (fuel n : Nat) (h : n ≤ fuel) (hn : n ≠ 0) :
    2 ^ (bitsAux fuel n - 1) ≤ n ∧ n < 2 ^ bitsAux fuel n := by
  induction fuel generalizing n with
  | zero => omega
  | succ fuel ih =>
    rw [bitsAux, if_neg hn]
    by_cases h1024 : 2 ^ 1024 ≤ n
    · rw [if_pos h1024]
      obtain ⟨h0, hle⟩ := div_pow_facts n 1024 fuel h1024 (by norm_num) h
      obtain ⟨hlo, hhi⟩ := ih _ hle h0
      exact bits_chunk n 1024 _ h1024 hlo hhi
    · rw [if_neg h1024]
      by_cases h128 : 2 ^ 128 ≤ n
      · rw [if_pos h128]
        obtain ⟨h0, hle⟩ := div_pow_facts n 128 fuel h128 (by norm_num) h
        obtain ⟨hlo, hhi⟩ := ih _ hle h0
        exact bits_chunk n 128 _ h128 hlo hhi
      · rw [if_neg h128]
        by_cases h16 : 2 ^ 16 ≤ n
        · rw [if_pos h16]
          obtain ⟨h0, hle⟩ := div_pow_facts n 16 fuel h16 (by norm_num) h
          obtain ⟨hlo, hhi⟩ := ih _ hle h0
          exact bits_chunk n 16 _ h16 hlo hhi
        · rw [if_neg h16]
          by_cases h2 : 2 ^ 2 ≤ n
          · rw [if_pos h2]
            obtain ⟨h0, hle⟩ := div_pow_facts n 2 fuel h2 (by norm_num) h
            obtain ⟨hlo, hhi⟩ := ih _ hle h0
            exact bits_chunk n 2 _ h2 hlo hhi
          · rw [if_neg h2]
            by_cases hhalf : n / 2 = 0
            · have h1 : n = 1 := by omega
              subst h1
              cases fuel <;> simp [bitsAux]
            · have hk : 2 ^ 1 ≤ n := by omega
              obtain ⟨hlo, hhi⟩ := ih (n / 2) (by omega) hhalf
              have := bits_chunk n 1 _ hk (by simpa using hlo) (by simpa using hhi)
              exact this

theorem bitLength_zero : bitLength 0 = 0 := rfl

theorem bitLength_spec (n : Nat) (hn : n ≠ 0) :
    2 ^ (bitLength n - 1) ≤ n ∧ n < 2 ^ bitLength n :=
  bitsAux_spec n n (le_refl n) hn

theorem bitLength_lt (n : Nat) : n < 2 ^ bitLength n := by
  by_cases hn : n = 0
  · subst hn; simp [bitLength_zero]
  · exact (bitLength_spec n hn).2

theorem roundHalfEven_cases (a d : Nat) :
    roundHalfEven a d = a / d ∨ roundHalfEven a d = a / d + 1 := by
  unfold roundHalfEven
  split_ifs <;> simp

theorem roundHalfEven_ge (a d k : Nat) (h : k * d ≤ a) (hd : 0 < d) : k ≤ roundHalfEven a d := by
  have hk : k ≤ a / d := (Nat.le_div_iff_mul_le hd).mpr h
  rcases roundHalfEven_cases a d with h1 | h1 <;> omega

theorem roundHalfEven_le (a d k : Nat) (h : a ≤ k * d) (hd : 0 < d) : roundHalfEven a d ≤ k := by
  by_cases heq : a = k * d
  · subst heq
    unfold roundHalfEven
    rw [Nat.mul_mod_left, Nat.mul_div_cancel _ hd]
    simp [hd]
  · have hlt : a < k * d := lt_of_le_of_ne h heq
    have hk : a / d < k := (Nat.div_lt_iff_lt_mul hd).mpr hlt
    rcases roundHalfEven_cases a d with h1 | h1 <;> omega
theorem isRounded_zero : IsRounded 0 := ⟨0, 0, by simp, by norm_num⟩

theorem isRounded_mul_pow (m e : Nat) (hm : m < 2 ^ 53) : IsRounded (m * 2 ^ e) := ⟨m, e, rfl, hm⟩

theorem isRounded_pow (e : Nat) : IsRounded (2 ^ e) := ⟨1, e, by simp, by norm_num⟩

theorem isRounded_of_lt (n : Nat) (h : n < 2 ^ 53) : IsRounded n := ⟨n, 0, by simp, h⟩

/-- The shift of `roundMagnitude` leaves a quotient below `2^53`. -/
theorem div_shift_lt (a d : Nat) (hd : 0 < d) :
    a / (d * 2 ^ (bitLength (a / d) - 53)) < 2 ^ 53 := by
  have hlt := bitLength_lt (a / d)
  rw [← Nat.div_div_eq_div_mul]
  apply (Nat.div_lt_iff_lt_mul (by positivity)).mpr
  by_cases h53 : 53 ≤ bitLength (a / d)
  · calc a / d < 2 ^ bitLength (a / d) := hlt
      _ = 2 ^ 53 * 2 ^ (bitLength (a / d) - 53) := by
        rw [← pow_add]; congr 1; omega
  · have h0 : bitLength (a / d) - 53 = 0 := by omega
    rw [h0, pow_zero, Nat.mul_one]
    calc a / d < 2 ^ bitLength (a / d) := hlt
      _ ≤ 2 ^ 53 := Nat.pow_le_pow_right (by norm_num) (by omega)

theorem roundMagnitude_isRounded (a d : Nat) (hd : 0 < d) : IsRounded (roundMagnitude a d) := by
  unfold roundMagnitude
  have hq := div_shift_lt a d hd
  rcases roundHalfEven_cases a (d * 2 ^ (bitLength (a / d) - 53)) with h1 | h1
  · rw [h1]
    exact isRounded_mul_pow _ _ hq
  · rw [h1]
    by_cases hlt : a / (d * 2 ^ (bitLength (a / d) - 53)) + 1 < 2 ^ 53
    · exact isRounded_mul_pow _ _ hlt
    · have heq : a / (d * 2 ^ (bitLength (a / d) - 53)) + 1 = 2 ^ 53 := by omega
      rw [heq]
      refine ⟨2 ^ 52, bitLength (a / d) - 53 + 1, ?_, by norm_num⟩
      rw [pow_succ]
      ring

/-- Rounding never passes below a rounded number that is below the quotient. -/
theorem roundMagnitude_ge (a d g : Nat) (hd : 0 < d) (hg : IsRounded g) (h : g * d ≤ a) :
    g ≤ roundMagnitude a d := by
  unfold roundMagnitude
  obtain ⟨m, e, rfl, hm⟩ := hg
  have hgf : m * 2 ^ e ≤ a / d := (Nat.le_div_iff_mul_le hd).mpr h
  by_cases hes : bitLength (a / d) - 53 ≤ e
  · -- the bound is a multiple of the quantum
    obtain ⟨c, hc⟩ : ∃ c, e = (bitLength (a / d) - 53) + c := ⟨e - (bitLength (a / d) - 53), by omega⟩
    have hk : m * 2 ^ c ≤ roundHalfEven a (d * 2 ^ (bitLength (a / d) - 53)) := by
      apply roundHalfEven_ge _ _ _ _ (by positivity)
      calc m * 2 ^ c * (d * 2 ^ (bitLength (a / d) - 53))
          = m * 2 ^ e * d := by rw [hc, pow_add]; ring
        _ ≤ a := h
    calc m * 2 ^ e = m * 2 ^ c * 2 ^ (bitLength (a / d) - 53) := by rw [hc, pow_add]; ring
      _ ≤ _ := Nat.mul_le_mul_right _ hk
  · -- the bound lies below the binade of the quotient
    have hes2 : e < bitLength (a / d) - 53 := by omega
    have hne : a / d ≠ 0 := by
      intro h0
      rw [h0, bitLength_zero] at hes2
      omega
    obtain ⟨hlo, -⟩ := bitLength_spec (a / d) hne
    have h52 : 2 ^ 52 ≤ roundHalfEven a (d * 2 ^ (bitLength (a / d) - 53)) := by
      apply roundHalfEven_ge _ _ _ _ (by positivity)
      have hpow : 2 ^ 52 * 2 ^ (bitLength (a / d) - 53) = 2 ^ (bitLength (a / d) - 1) := by
        rw [← pow_add]; congr 1; omega
      calc 2 ^ 52 * (d * 2 ^ (bitLength (a / d) - 53))
          = 2 ^ 52 * 2 ^ (bitLength (a / d) - 53) * d := by ring
        _ = 2 ^ (bitLength (a / d) - 1) * d := by rw [hpow]
        _ ≤ a / d * d := Nat.mul_le_mul_right _ hlo
        _ ≤ a := Nat.div_mul_le_self a d
    have hglt : m * 2 ^ e < 2 ^ 52 * 2 ^ (bitLength (a / d) - 53) := by
      have h1 : m * 2 ^ e < 2 ^ 53 * 2 ^ e := Nat.mul_lt_mul_of_pos_right hm (by positivity)
      have h2 : 2 ^ 53 * 2 ^ e ≤ 2 ^ 52 * 2 ^ (bitLength (a / d) - 53) := by
        rw [← pow_add, ← pow_add]
        exact Nat.pow_le_pow_right (by norm_num) (by omega)
      omega
    calc m * 2 ^ e ≤ 2 ^ 52 * 2 ^ (bitLength (a / d) - 53) := le_of_lt hglt
      _ ≤ _ := Nat.mul_le_mul_right _ h52

/-- Rounding never passes above a rounded number that is above the quotient. -/
theorem roundMagnitude_le (a d g : Nat) (hd : 0 < d) (hg : IsRounded g) (h : a ≤ g * d) :
    roundMagnitude a d ≤ g := by
  unfold roundMagnitude
  obtain ⟨m, e, rfl, hm⟩ := hg
  have hfg : a / d ≤ m * 2 ^ e := by
    calc a / d ≤ m * 2 ^ e * d / d := Nat.div_le_div_right h
      _ = m * 2 ^ e := Nat.mul_div_cancel _ hd
  by_cases hes : bitLength (a / d) - 53 ≤ e
  · obtain ⟨c, hc⟩ : ∃ c, e = (bitLength (a / d) - 53) + c := ⟨e - (bitLength (a / d) - 53), by omega⟩
    have hk : roundHalfEven a (d * 2 ^ (bitLength (a / d) - 53)) ≤ m * 2 ^ c := by
      apply roundHalfEven_le _ _ _ _ (by positivity)
      calc a ≤ m * 2 ^ e * d := h
        _ = m * 2 ^ c * (d * 2 ^ (bitLength (a / d) - 53)) := by rw [hc, pow_add]; ring
    calc _ ≤ m * 2 ^ c * 2 ^ (bitLength (a / d) - 53) := Nat.mul_le_mul_right _ hk
      _ = m * 2 ^ e := by rw [hc, pow_add]; ring
  · exfalso
    have hes2 : e < bitLength (a / d) - 53 := by omega
    have hne : a / d ≠ 0 := by
      intro h0
      rw [h0, bitLength_zero] at hes2
      omega
    obtain ⟨hlo, -⟩ := bitLength_spec (a / d) hne
    have h1 : m * 2 ^ e < 2 ^ 53 * 2 ^ e := Nat.mul_lt_mul_of_pos_right hm (by positivity)
    have h2 : 2 ^ 53 * 2 ^ e ≤ 2 ^ (bitLength (a / d) - 1) := by
      rw [← pow_add]
      exact Nat.pow_le_pow_right (by norm_num) (by omega)
    omega

/-- A rounded number is rounded to itself. -/
theorem roundMagnitude_exact (g d : Nat) (hd : 0 < d) (hg : IsRounded g) :
    roundMagnitude (g * d) d = g :=
  le_antisymm (roundMagnitude_le _ _ _ hd hg (le_refl _)) (roundMagnitude_ge _ _ _ hd hg (le_refl _))

/-- A quotient of at most one half is rounded to zero. -/
theorem roundMagnitude_eq_zero (a d : Nat) (h : 2 * a ≤ d) : roundMagnitude a d = 0 := by
  by_cases ha : a = 0
  · subst ha
    simp [roundMagnitude, roundHalfEven]
  · have hlt : a < d := by omega
    have hdiv : a / d = 0 := Nat.div_eq_of_lt hlt
    unfold roundMagnitude
    rw [hdiv, bitLength_zero]
    simp only [Nat.zero_sub, pow_zero, Nat.mul_one]
    unfold roundHalfEven
    rw [hdiv, Nat.mod_eq_of_lt hlt]
    split_ifs <;> omega

/-- A quotient above one half is not rounded to zero. -/
theorem roundMagnitude_pos (a d : Nat) (hd : 0 < d) (h : d < 2 * a) : 0 < roundMagnitude a d := by
  by_cases hlt : a < d
  · have hdiv : a / d = 0 := Nat.div_eq_of_lt hlt
    unfold roundMagnitude
    rw [hdiv, bitLength_zero]
    simp only [Nat.zero_sub, pow_zero, Nat.mul_one]
    unfold roundHalfEven
    rw [hdiv, Nat.mod_eq_of_lt hlt]
    split_ifs <;> omega
  · have := roundMagnitude_ge a d 1 hd (isRounded_of_lt 1 (by norm_num)) (by omega)
    omega
/-- The finite magnitudes are the numbers below `2^1024` (in units) with at
most 53 significant bits. -/
theorem isBinary64_iff (n : Nat) : IsBinary64 n ↔ IsRounded n ∧ n < 2 ^ 2098 := by
  unfold IsBinary64
  constructor
  · rintro ⟨hlt, hmod⟩
    refine ⟨⟨n / 2 ^ (bitLength n - 53), bitLength n - 53, ?_, ?_⟩, hlt⟩
    · exact (Nat.div_mul_cancel (Nat.dvd_of_mod_eq_zero hmod)).symm
    · apply (Nat.div_lt_iff_lt_mul (by positivity)).mpr
      have h := bitLength_lt n
      by_cases h53 : 53 ≤ bitLength n
      · calc n < 2 ^ bitLength n := h
          _ = 2 ^ 53 * 2 ^ (bitLength n - 53) := by rw [← pow_add]; congr 1; omega
      · have h0 : bitLength n - 53 = 0 := by omega
        rw [h0, pow_zero, Nat.mul_one]
        calc n < 2 ^ bitLength n := h
          _ ≤ 2 ^ 53 := Nat.pow_le_pow_right (by norm_num) (by omega)
  · rintro ⟨⟨m, e, rfl, hm⟩, hlt⟩
    refine ⟨hlt, ?_⟩
    by_cases hes : bitLength (m * 2 ^ e) - 53 ≤ e
    · apply Nat.mod_eq_zero_of_dvd
      exact Dvd.dvd.mul_left (Nat.pow_dvd_pow 2 hes) m
    · exfalso
      have hne : m * 2 ^ e ≠ 0 := by
        intro h0
        rw [h0, bitLength_zero] at hes
        omega
      obtain ⟨hlo, -⟩ := bitLength_spec _ hne
      have h1 : m * 2 ^ e < 2 ^ 53 * 2 ^ e := Nat.mul_lt_mul_of_pos_right hm (by positivity)
      have h2 : 2 ^ 53 * 2 ^ e ≤ 2 ^ (bitLength (m * 2 ^ e) - 1) := by
        rw [← pow_add]
        exact Nat.pow_le_pow_right (by norm_num) (by omega)
      omega

theorem round_of_nonneg (num : Int) (den : Nat) (hden : den ≠ 0) (hnum : 0 ≤ num)
    (h : IsBinary64 (roundMagnitude num.natAbs den)) :
    Double.round num den = Double.finite (roundMagnitude num.natAbs den : Int)
      (by rw [Int.natAbs_ofNat]; exact h) := by
  unfold Double.round
  rw [if_neg hden, dif_pos h, if_neg (not_lt.mpr hnum)]

theorem round_of_neg (num : Int) (den : Nat) (hden : den ≠ 0) (hnum : num < 0)
    (h : IsBinary64 (roundMagnitude num.natAbs den)) :
    Double.round num den = Double.finite (-(roundMagnitude num.natAbs den : Int))
      (by rw [Int.natAbs_neg, Int.natAbs_ofNat]; exact h) := by
  unfold Double.round
  rw [if_neg hden, dif_pos h, if_pos hnum]

theorem round_of_overflow (num : Int) (den : Nat) (hden : den ≠ 0)
    (h : 2 ^ 2098 ≤ roundMagnitude num.natAbs den) :
    Double.round num den = if num < 0 then Double.negInf else Double.posInf := by
  have hnot : ¬ IsBinary64 (roundMagnitude num.natAbs den) := by
    intro hb
    have := hb.1
    omega
  unfold Double.round
  rw [if_neg hden, dif_neg hnot]

/-- Rounding a non-negative quotient that a finite magnitude bounds from above
gives a finite value at most that magnitude. -/
theorem round_nonneg_le (num : Int) (den g : Nat) (hnum : 0 ≤ num) (hden : den ≠ 0)
    (hg : IsRounded g) (hfin : g < 2 ^ 2098) (h : num ≤ g * den) :
    ∃ (r : Nat) (h2 : IsBinary64 (r : Int).natAbs),
      Double.round num den = Double.finite (r : Int) h2 ∧ r ≤ g := by
  have hle : roundMagnitude num.natAbs den ≤ g := by
    apply roundMagnitude_le _ _ _ (Nat.pos_of_ne_zero hden) hg
    have : (num.natAbs : Int) = num := Int.natAbs_of_nonneg hnum
    have h3 : (num.natAbs : Int) ≤ ((g * den : Nat) : Int) := by rw [this]; exact_mod_cast h
    exact_mod_cast h3
  have hb : IsBinary64 (roundMagnitude num.natAbs den) :=
    (isBinary64_iff _).mpr ⟨roundMagnitude_isRounded _ _ (Nat.pos_of_ne_zero hden), by omega⟩
  exact ⟨roundMagnitude num.natAbs den, _, round_of_nonneg num den hden hnum hb, hle⟩

/-- Rounding a non-negative quotient that a rounded magnitude bounds from below
gives `+inf` or a finite value at least that magnitude. -/
theorem round_nonneg_ge (num : Int) (den g : Nat) (hnum : 0 ≤ num) (hden : den ≠ 0)
    (hg : IsRounded g) (h : (g * den : Nat) ≤ num) :
    Double.round num den = Double.posInf ∨
    ∃ (r : Nat) (h2 : IsBinary64 (r : Int).natAbs),
      Double.round num den = Double.finite (r : Int) h2 ∧ g ≤ r := by
  have hge : g ≤ roundMagnitude num.natAbs den := by
    apply roundMagnitude_ge _ _ _ (Nat.pos_of_ne_zero hden) hg
    have : (num.natAbs : Int) = num := Int.natAbs_of_nonneg hnum
    have h3 : ((g * den : Nat) : Int) ≤ (num.natAbs : Int) := by rw [this]; exact h
    exact_mod_cast h3
  by_cases hlt : roundMagnitude num.natAbs den < 2 ^ 2098
  · right
    have hb : IsBinary64 (roundMagnitude num.natAbs den) :=
      (isBinary64_iff _).mpr ⟨roundMagnitude_isRounded _ _ (Nat.pos_of_ne_zero hden), hlt⟩
    exact ⟨roundMagnitude num.natAbs den, _, round_of_nonneg num den hden hnum hb, hge⟩
  · left
    rw [round_of_overflow num den hden (by omega), if_neg (by omega)]

/-- Rounding a quotient that lies between two finite values gives a finite
value between them. -/
theorem round_between (num : Int) (den : Nat) (lo hi : Int) (hden : den ≠ 0)
    (hlo : IsBinary64 lo.natAbs) (hhi : IsBinary64 hi.natAbs)
    (h1 : lo * den ≤ num) (h2 : num ≤ hi * den) :
    ∃ (r : Int) (h3 : IsBinary64 r.natAbs),
      Double.round num den = Double.finite r h3 ∧ lo ≤ r ∧ r ≤ hi := by
  have hdpos : (0 : Int) < den := by exact_mod_cast Nat.pos_of_ne_zero hden
  have hloR := (isBinary64_iff _).mp hlo
  have hhiR := (isBinary64_iff _).mp hhi
  by_cases hneg : num < 0
  · -- a negative quotient: the magnitude is bounded by that of `lo`
    have hlo0 : lo < 0 := by
      by_contra hc
      have : 0 ≤ lo * den := mul_nonneg (by omega) (le_of_lt hdpos)
      omega
    have hmag : roundMagnitude num.natAbs den ≤ lo.natAbs := by
      apply roundMagnitude_le _ _ _ (Nat.pos_of_ne_zero hden) hloR.1
      have e1 : (num.natAbs : Int) = -num := by omega
      have e2 : (lo.natAbs : Int) = -lo := by omega
      have h3 : (num.natAbs : Int) ≤ ((lo.natAbs * den : Nat) : Int) := by
        rw [Nat.cast_mul, e1, e2]
        linarith
      exact_mod_cast h3
    have hb : IsBinary64 (roundMagnitude num.natAbs den) :=
      (isBinary64_iff _).mpr ⟨roundMagnitude_isRounded _ _ (Nat.pos_of_ne_zero hden),
        lt_of_le_of_lt hmag hloR.2⟩
    refine ⟨_, _, round_of_neg num den hden hneg hb, by omega, ?_⟩
    by_cases hhi0 : 0 ≤ hi
    · omega
    · have hge : hi.natAbs ≤ roundMagnitude num.natAbs den := by
        apply roundMagnitude_ge _ _ _ (Nat.pos_of_ne_zero hden) hhiR.1
        have e1 : (num.natAbs : Int) = -num := by omega
        have e2 : (hi.natAbs : Int) = -hi := by omega
        have h4 : ((hi.natAbs * den : Nat) : Int) ≤ (num.natAbs : Int) := by
          rw [Nat.cast_mul, e1, e2]
          linarith
        exact_mod_cast h4
      omega
  · have hnum : 0 ≤ num := by omega
    have hhi0 : 0 ≤ hi := by
      by_contra hc
      have : hi * den < 0 := mul_neg_of_neg_of_pos (by omega) hdpos
      omega
    have hmag : roundMagnitude num.natAbs den ≤ hi.natAbs := by
      apply roundMagnitude_le _ _ _ (Nat.pos_of_ne_zero hden) hhiR.1
      have e1 : (num.natAbs : Int) = num := by omega
      have e2 : (hi.natAbs : Int) = hi := by omega
      have h3 : (num.natAbs : Int) ≤ ((hi.natAbs * den : Nat) : Int) := by
        rw [Nat.cast_mul, e1, e2]
        linarith
      exact_mod_cast h3
    have hb : IsBinary64 (roundMagnitude num.natAbs den) :=
      (isBinary64_iff _).mpr ⟨roundMagnitude_isRounded _ _ (Nat.pos_of_ne_zero hden),
        lt_of_le_of_lt hmag hhiR.2⟩
    refine ⟨_, _, round_of_nonneg num den hden hnum hb, ?_, by omega⟩
    by_cases hlo0 : lo ≤ 0
    · omega
    · have hge : lo.natAbs ≤ roundMagnitude num.natAbs den := by
        apply roundMagnitude_ge _ _ _ (Nat.pos_of_ne_zero hden) hloR.1
        have e1 : (num.natAbs : Int) = num := by omega
        have e2 : (lo.natAbs : Int) = lo := by omega
        have h4 : ((lo.natAbs * den : Nat) : Int) ≤ (num.natAbs : Int) := by
          rw [Nat.cast_mul, e1, e2]
          exact h1
        exact_mod_cast h4
      omega

/-- A finite value is rounded to itself. -/
theorem round_exact (n : Int) (den : Nat) (hden : den ≠ 0) (h : IsBinary64 n.natAbs) :
    Double.round (n * den) den = Double.finite n h := by
  obtain ⟨r, h3, hr, h1, h2⟩ := round_between (n * den) den n n hden h h (le_refl _) (le_refl _)
  have : r = n := le_antisymm h2 h1
  subst this
  exact hr

/-! ## Bounds on rounded results -/

theorem isBinary64_isRounded {n : Nat} (h : IsBinary64 n) : IsRounded n :=
  ((isBinary64_iff n).mp h).1

theorem round_atMost (num : Int) (den g : Nat) (hnum : 0 ≤ num) (hden : den ≠ 0)
    (hg : IsRounded g) (hfin : g < 2 ^ 2098) (h : num ≤ g * den) :
    (Double.round num den).AtMost g := by
  obtain ⟨r, h2, hr, hle⟩ := round_nonneg_le num den g hnum hden hg hfin h
  exact ⟨r, by simpa using h2, hr, hle⟩

theorem round_atLeast (num : Int) (den g : Nat) (hnum : 0 ≤ num) (hden : den ≠ 0)
    (hg : IsRounded g) (h : (g * den : Nat) ≤ num) :
    (Double.round num den).AtLeast g := by
  rcases round_nonneg_ge num den g hnum hden hg h with hinf | ⟨r, h2, hr, hle⟩
  · exact Or.inl hinf
  · exact Or.inr ⟨r, by simpa using h2, hr, hle⟩

theorem atLeast_mono {x : Double} {a b : Nat} (h : x.AtLeast a) (hab : b ≤ a) :
    x.AtLeast b := by
  rcases h with h | ⟨r, hr, hx, hle⟩
  · exact Or.inl h
  · exact Or.inr ⟨r, hr, hx, le_trans hab hle⟩

theorem zero_atLeast : Double.zero.AtLeast 0 := Or.inr ⟨0, by decide, rfl, le_refl 0⟩

theorem atMost_atLeast_zero {x : Double} {a : Nat} (h : x.AtMost a) : x.AtLeast 0 := by
  obtain ⟨r, hr, hx, -⟩ := h
  exact Or.inr ⟨r, hr, hx, Nat.zero_le r⟩

theorem add_atLeast {x y : Double} {a b : Nat} (g : Nat) (hx : x.AtLeast a) (hy : y.AtLeast b)
    (hg : IsRounded g) (h : g ≤ a + b) : (Double.add x y).AtLeast g := by
  rcases hx with rfl | ⟨r1, h1, rfl, hle1⟩
  · rcases hy with rfl | ⟨r2, h2, rfl, hle2⟩
    · exact Or.inl rfl
    · exact Or.inl rfl
  · rcases hy with rfl | ⟨r2, h2, rfl, hle2⟩
    · exact Or.inl rfl
    · show (Double.round ((r1 : Int) + (r2 : Int)) 1).AtLeast g
      apply round_atLeast _ _ _ (by positivity) (by norm_num) hg
      have : g ≤ r1 + r2 := by omega
      have h3 : ((g : Nat) : Int) ≤ ((r1 + r2 : Nat) : Int) := by exact_mod_cast this
      push_cast at h3 ⊢
      linarith

theorem mul_atMost {x y : Double} {a b : Nat} (g : Nat) (hx : x.AtMost a) (hy : y.AtMost b)
    (hg : IsRounded g) (hfin : g < 2 ^ 2098) (h : a * b ≤ g * 2 ^ 1074) :
    (Double.mul x y).AtMost g := by
  obtain ⟨r1, h1, rfl, hle1⟩ := hx
  obtain ⟨r2, h2, rfl, hle2⟩ := hy
  show (Double.round ((r1 : Int) * (r2 : Int)) (2 ^ 1074)).AtMost g
  apply round_atMost _ _ _ (by positivity) (by positivity) hg hfin
  have h3 : r1 * r2 ≤ g * 2 ^ 1074 := le_trans (Nat.mul_le_mul hle1 hle2) h
  exact_mod_cast h3

theorem mul_atLeast {x y : Double} {a b : Nat} (g : Nat) (hx : x.AtLeast a) (hy : y.AtLeast b)
    (ha : 0 < a) (hb : 0 < b) (hg : IsRounded g) (h : g * 2 ^ 1074 ≤ a * b) :
    (Double.mul x y).AtLeast g := by
  rcases hx with rfl | ⟨r1, h1, rfl, hle1⟩
  · rcases hy with rfl | ⟨r2, h2, rfl, hle2⟩
    · exact Or.inl rfl
    · left
      show infTimes false (r2 : Int) = Double.posInf
      unfold infTimes
      have hne : (r2 : Int) ≠ 0 := by omega
      have hnn : ¬ ((r2 : Int) < 0) := by omega
      simp [hne, hnn]
  · rcases hy with rfl | ⟨r2, h2, rfl, hle2⟩
    · left
      show infTimes false (r1 : Int) = Double.posInf
      unfold infTimes
      have hne : (r1 : Int) ≠ 0 := by omega
      have hnn : ¬ ((r1 : Int) < 0) := by omega
      simp [hne, hnn]
    · show (Double.round ((r1 : Int) * (r2 : Int)) (2 ^ 1074)).AtLeast g
      apply round_atLeast _ _ _ (by positivity) (by positivity) hg
      have h3 : g * 2 ^ 1074 ≤ r1 * r2 := le_trans h (Nat.mul_le_mul hle1 hle2)
      exact_mod_cast h3

theorem lt_of_atMost_atLeast {x y : Double} {a b : Nat} (hx : x.AtMost a) (hy : y.AtLeast b)
    (h : a < b) : Double.lt x y = true := by
  obtain ⟨r1, h1, rfl, hle1⟩ := hx
  rcases hy with rfl | ⟨r2, h2, rfl, hle2⟩
  · rfl
  · show decide ((r1 : Int) < (r2 : Int)) = true
    rw [decide_eq_true_iff]
    omega

theorem not_lt_of_atLeast_atMost {x y : Double} {a b : Nat} (hx : x.AtLeast a) (hy : y.AtMost b)
    (h : b ≤ a) : Double.lt x y = false := by
  obtain ⟨r2, h2, rfl, hle2⟩ := hy
  rcases hx with rfl | ⟨r1, h1, rfl, hle1⟩
  · rfl
  · show decide ((r1 : Int) < (r2 : Int)) = false
    rw [decide_eq_false_iff_not]
    omega

/-- The conversion of an integer below `2^53` is exact. -/
theorem ofInt_exact (k : Nat) (hk : k < 2 ^ 53) :
    ∃ h, Double.ofInt (k : Int) = Double.ofUnits (k * 2 ^ 1074) h := by
  have hb : IsBinary64 (k * 2 ^ 1074) := by
    rw [isBinary64_iff]
    refine ⟨isRounded_mul_pow k 1074 hk, ?_⟩
    calc k * 2 ^ 1074 < 2 ^ 53 * 2 ^ 1074 := Nat.mul_lt_mul_of_pos_right hk (by positivity)
      _ ≤ 2 ^ 2098 := by rw [← pow_add]; exact Nat.pow_le_pow_right (by norm_num) (by norm_num)
  refine ⟨hb, ?_⟩
  have hbi : IsBinary64 (((k * 2 ^ 1074 : Nat) : Int)).natAbs := by
    rw [Int.natAbs_ofNat]; exact hb
  have h := round_exact ((k * 2 ^ 1074 : Nat) : Int) 1 (by norm_num) hbi
  unfold Double.ofInt
  have he : ((k : Int) * ((2 ^ 1074 : Nat) : Int))
      = ((k * 2 ^ 1074 : Nat) : Int) * ((1 : Nat) : Int) := by
    rw [Nat.cast_mul k (2 ^ 1074), Nat.cast_one, mul_one]
  rw [he, h]
  rfl

theorem ofInt_atMost (k : Nat) (hk : k < 2 ^ 53) : (Double.ofInt (k : Int)).AtMost (k * 2 ^ 1074) := by
  obtain ⟨h, he⟩ := ofInt_exact k hk
  exact ⟨_, h, he, le_refl _⟩

theorem ofInt_atLeast (k : Nat) (hk : k < 2 ^ 53) :
    (Double.ofInt (k : Int)).AtLeast (k * 2 ^ 1074) := by
  obtain ⟨h, he⟩ := ofInt_exact k hk
  exact Or.inr ⟨_, h, he, le_refl _⟩

/-- A double that compares above zero is `+inf` or a positive finite value. -/
theorem atLeast_one_of_pos {x : Double} (h : Double.lt Double.zero x = true) : x.AtLeast 1 := by
  cases x with
  | finite n hn =>
    have hpos : (0 : Int) < n := by
      have : decide ((0 : Int) < n) = true := h
      exact of_decide_eq_true this
    refine Or.inr ⟨n.natAbs, hn, ?_, by omega⟩
    unfold Double.ofUnits
    congr 1
    omega
  | posInf => exact Or.inl rfl
  | negInf => exact absurd h (by decide)
  | nan => exact absurd h (by decide)

theorem pos_of_atLeast_one {x : Double} (h : x.AtLeast 1) : Double.lt Double.zero x = true := by
  rcases h with rfl | ⟨r, hr, rfl, hle⟩
  · rfl
  · show decide ((0 : Int) < (r : Int)) = true
    rw [decide_eq_true_iff]
    omega

theorem round_nonpos (num : Int) (den : Nat) (hnum : num ≤ 0) :
    Double.lt Double.zero (Double.round num den) = false := by
  unfold Double.round
  by_cases hden : den = 0
  · rw [if_pos hden]; rfl
  · rw [if_neg hden]
    by_cases hb : IsBinary64 (roundMagnitude num.natAbs den)
    · rw [dif_pos hb]
      by_cases hneg : num < 0
      · rw [if_pos hneg]
        show decide ((0 : Int) < -(roundMagnitude num.natAbs den : Int)) = false
        rw [decide_eq_false_iff_not]
        omega
      · rw [if_neg hneg]
        have h0 : num = 0 := by omega
        subst h0
        have hz : roundMagnitude (0 : Int).natAbs den = 0 :=
          roundMagnitude_eq_zero 0 den (by simp)
        show decide ((0 : Int) < (roundMagnitude (0 : Int).natAbs den : Int)) = false
        rw [hz]
        rfl
    · rw [dif_neg hb]
      by_cases hneg : num < 0
      · rw [if_pos hneg]; rfl
      · exfalso
        have h0 : num = 0 := by omega
        subst h0
        apply hb
        have hz : roundMagnitude (0 : Int).natAbs den = 0 :=
          roundMagnitude_eq_zero 0 den (by simp)
        rw [hz]
        decide

/-- A product with a non-negative finite factor compares above zero only when
the other factor does. -/
theorem pos_of_mul_pos {x y : Double} {b : Nat} (hy : y.AtMost b)
    (h : Double.lt Double.zero (Double.mul x y) = true) : x.AtLeast 1 := by
  obtain ⟨r2, h2, rfl, -⟩ := hy
  cases x with
  | finite n hn =>
    by_cases hpos : 0 < n
    · refine Or.inr ⟨n.natAbs, hn, ?_, by omega⟩
      unfold Double.ofUnits
      congr 1
      omega
    · exfalso
      have hle : n * (r2 : Int) ≤ 0 := by
        have hn0 : n ≤ 0 := by omega
        have hr0 : (0 : Int) ≤ (r2 : Int) := by positivity
        nlinarith
      have hf := round_nonpos (n * (r2 : Int)) (2 ^ 1074) hle
      have hm : Double.mul (Double.finite n hn) (Double.ofUnits r2 h2)
          = Double.round (n * (r2 : Int)) (2 ^ 1074) := rfl
      rw [hm, hf] at h
      exact absurd h (by decide)
  | posInf => exact Or.inl rfl
  | negInf =>
    exfalso
    have hm : Double.mul Double.negInf (Double.ofUnits r2 h2) = infTimes true (r2 : Int) := rfl
    rw [hm] at h
    unfold infTimes at h
    by_cases h0 : (r2 : Int) = 0
    · rw [if_pos h0] at h
      exact absurd h (by decide)
    · rw [if_neg h0] at h
      have hnn : ¬ ((r2 : Int) < 0) := by omega
      simp [hnn] at h
      exact absurd h (by decide)
  | nan =>
    have hm : Double.mul Double.nan (Double.ofUnits r2 h2) = Double.nan := rfl
    rw [hm] at h
    exact absurd h (by decide)

/-- The literal `0.1` lies between 1/16 and 1/8. -/
theorem tenth_bounds :
    (Double.ofRatio 1 10).AtMost (2 ^ 1071) ∧ (Double.ofRatio 1 10).AtLeast (2 ^ 1070) := by
  constructor
  · apply round_atMost _ _ _ (by positivity) (by norm_num) (isRounded_pow 1071)
      (Nat.pow_lt_pow_right (by norm_num) (by norm_num))
    norm_num
  · apply round_atLeast _ _ _ (by positivity) (by norm_num) (isRounded_pow 1070)
    norm_num

/-! ## Exact results -/

theorem round_exact_nat (num : Int) (n den : Nat) (hden : den ≠ 0) (h : IsBinary64 n)
    (hnum : num = (n : Int) * (den : Int)) : Double.round num den = Double.ofUnits n h := by
  have hbi : IsBinary64 ((n : Int)).natAbs := by rw [Int.natAbs_ofNat]; exact h
  rw [hnum, round_exact (n : Int) den hden hbi]
  rfl

theorem isBinary64_mul_pow (k : Nat) (hk : k < 2 ^ 53) : IsBinary64 (k * 2 ^ 1074) := by
  rw [isBinary64_iff]
  refine ⟨isRounded_mul_pow k 1074 hk, ?_⟩
  calc k * 2 ^ 1074 < 2 ^ 53 * 2 ^ 1074 := Nat.mul_lt_mul_of_pos_right hk (by positivity)
    _ ≤ 2 ^ 2098 := by rw [← pow_add]; exact Nat.pow_le_pow_right (by norm_num) (by norm_num)

theorem ofInt_eq (k : Nat) (hk : k < 2 ^ 53) :
    Double.ofInt (k : Int) = Double.ofUnits (k * 2 ^ 1074) (isBinary64_mul_pow k hk) := by
  obtain ⟨h, he⟩ := ofInt_exact k hk
  exact he

/-- The scatter payout is the exact product `bet * s * 2` when that product is
a binary64 value. -/
theorem scatterPayout_exact (B s : Nat) (hB : IsBinary64 B) (hs : s < 2 ^ 53)
    (h2 : IsBinary64 (2 * (B * s))) :
    Double.mul (Double.mul (Double.ofUnits B hB) (Double.ofInt (s : Int))) (Double.ofInt 2)
      = Double.ofUnits (2 * (B * s)) h2 := by
  have h1 : IsBinary64 (B * s) := by
    rw [isBinary64_iff] at h2 ⊢
    obtain ⟨⟨m, e, hme, hm⟩, hlt⟩ := h2
    refine ⟨?_, by omega⟩
    cases e with
    | zero =>
      apply isRounded_of_lt
      simp at hme
      have : (2 : Nat) ^ 53 = 2 * 2 ^ 52 := by norm_num
      omega
    | succ e =>
      refine ⟨m, e, ?_, hm⟩
      have hp : m * 2 ^ (e + 1) = 2 * (m * 2 ^ e) := by rw [pow_succ]; ring
      omega
  have hfirst : Double.mul (Double.ofUnits B hB) (Double.ofInt (s : Int))
      = Double.ofUnits (B * s) h1 := by
    rw [ofInt_eq s hs]
    show Double.round ((B : Int) * ((s * 2 ^ 1074 : Nat) : Int)) (2 ^ 1074) = _
    exact round_exact_nat _ (B * s) (2 ^ 1074) (by positivity) h1 (by push_cast; ring)
  have htwo : Double.ofInt 2 = Double.ofUnits (2 * 2 ^ 1074) (isBinary64_mul_pow 2 (by norm_num)) :=
    ofInt_eq 2 (by norm_num)
  rw [hfirst, htwo]
  show Double.round (((B * s : Nat) : Int) * ((2 * 2 ^ 1074 : Nat) : Int)) (2 ^ 1074) = _
  exact round_exact_nat _ (2 * (B * s)) (2 ^ 1074) (by positivity) h2 (by push_cast; ring)

/-! ## Binary64 engine: grids and definedness -/

theorem generateSymbols64_length (rng : Nat → Nat) (n : Nat) (e : GameEngine64) :
    (generateSymbols64 rng n e).1.length = n := by
  induction n generalizing e with
  | zero => rfl
  | succ n ih => simp [generateSymbols64, ih]

theorem generateSymbols64_state (rng : Nat → Nat) (n : Nat) (e : GameEngine64) :
    (generateSymbols64 rng n e).2 = { e with rngDraws := e.rngDraws + n } := by
  induction n generalizing e with
  | zero => rfl
  | succ n ih => simp [generateSymbols64, ih]; omega

theorem generateReels64_length (rng : Nat → Nat) (n : Nat) (e : GameEngine64) :
    (generateReels64 rng n e).1.length = n := by
  induction n generalizing e with
  | zero => rfl
  | succ n ih => simp [generateReels64, ih]

theorem generateReels64_rows (rng : Nat → Nat) (n : Nat) (e : GameEngine64) :
    ∀ reel ∈ (generateReels64 rng n e).1, reel.length = SYMBOL_COUNT := by
  induction n generalizing e with
  | zero => intro reel h; simp [generateReels64] at h
  | succ n ih =>
    intro reel h
    simp only [generateReels64, List.mem_cons] at h
    rcases h with h | h
    · rw [h]; exact generateSymbols64_length rng SYMBOL_COUNT e
    · exact ih _ reel h

theorem generateReels64_state (rng : Nat → Nat) (n : Nat) (e : GameEngine64) :
    (generateReels64 rng n e).2 = { e with rngDraws := e.rngDraws + SYMBOL_COUNT * n } := by
  induction n generalizing e with
  | zero => rfl
  | succ n ih =>
    simp only [generateReels64, GenerateReel64, ih, generateSymbols64_state]
    simp only [GameEngine64.mk.injEq, true_and]
    ring

theorem generateReels64_isGrid (rng : Nat → Nat) (e : GameEngine64) :
    IsGrid (generateReels64 rng REEL_COUNT e).1 :=
  ⟨generateReels64_length rng REEL_COUNT e, generateReels64_rows rng REEL_COUNT e⟩

/-- The payline loop when every line does not match. -/
theorem paylineLoop64_false (e : GameEngine64) {reels : List (List SlotSymbol)}
    (h : CheckWinLine reels 0 = some false) (lines : List Int) (result : SpinResult64) :
    paylineLoop64 e reels lines result = some result := by
  induction lines generalizing result with
  | nil => rfl
  | cons line rest ih =>
    have hl : CheckWinLine reels line = some false := (CheckWinLine_line reels line 0).trans h
    simp [paylineLoop64, paylineStep64, hl, ih]

theorem addTimes_shift (w step : Double) (n : Nat) :
    addTimes (Double.add w step) step n = Double.add (addTimes w step n) step := by
  induction n with
  | zero => rfl
  | succ n ih => simp only [addTimes, ih]

/-- The payline loop when every line matches: each line is appended and its
win, the rounded product of the current bet and 0.1, is added with one more
rounding. -/
theorem paylineLoop64_true (e : GameEngine64) {reels : List (List SlotSymbol)}
    (h : CheckWinLine reels 0 = some true) (lines : List Int) (result : SpinResult64) :
    paylineLoop64 e reels lines result =
      some { result with
        winLines := result.winLines ++ lines
        winAmount :=
          addTimes result.winAmount (Double.mul e.currentBet (Double.ofRatio 1 10)) lines.length
        isWin := if lines = [] then result.isWin else true } := by
  induction lines generalizing result with
  | nil => simp [paylineLoop64, addTimes]
  | cons line rest ih =>
    have hl : CheckWinLine reels line = some true := (CheckWinLine_line reels line 0).trans h
    simp only [paylineLoop64, paylineStep64, hl, ih]
    simp only [List.append_assoc, List.singleton_append, List.length_cons, reduceCtorEq,
      if_false, Option.some.injEq, SpinResult64.mk.injEq, true_and, and_true]
    constructor
    · rw [addTimes_shift]; rfl
    · split <;> rfl

/-- The payline loop either matches no line and pays nothing, or matches all
`PAYLINES` lines and adds the rounded tenth of the current bet 25 times. It
leaves the two flags unwritten. -/
theorem CalculateWin64_paylines_cases (e : GameEngine64) {reels : List (List SlotSymbol)}
    (h : RowsOk reels) :
    ∃ lines, CalculateWin64.paylines e reels = some lines ∧
      lines.isBonusTriggered = none ∧ lines.isJackpot = none ∧
      ((CheckWinLine reels 0 = some false ∧ lines.isWin = false ∧
          lines.winAmount = Double.zero ∧ lines.winLines = []) ∨
       (CheckWinLine reels 0 = some true ∧ lines.isWin = true ∧
         lines.winAmount
           = addTimes Double.zero (Double.mul e.currentBet (Double.ofRatio 1 10)) 25 ∧
         lines.winLines = (List.range PAYLINES).map Int.ofNat)) := by
  obtain ⟨b, hb⟩ := CheckWinLine_defined h 0
  cases b with
  | false =>
    exact ⟨_, paylineLoop64_false e hb _ _, rfl, rfl, Or.inl ⟨hb, rfl, rfl, rfl⟩⟩
  | true =>
    refine ⟨_, paylineLoop64_true e hb _ _, rfl, rfl, Or.inr ⟨hb, ?_, ?_, ?_⟩⟩
    · simp [PAYLINES]
    · simp [CalculateWin64.start, PAYLINES]
    · simp [CalculateWin64.start]

/-- What `CalculateWin` makes of the result of the payline loop. -/
theorem CalculateWin64_of_paylines (e : GameEngine64) (reels : List (List SlotSymbol))
    (lines : SpinResult64) (h : CalculateWin64.paylines e reels = some lines) :
    ∃ result, CalculateWin64 e reels = some result ∧
      result.reels = lines.reels ∧
      result.winLines = lines.winLines ∧
      result.isWin = (lines.isWin || decide (3 ≤ scatterCount64 reels)) ∧
      result.isBonusTriggered
        = (if 3 ≤ scatterCount64 reels then some true else lines.isBonusTriggered) ∧
      result.winAmount
        = (if 3 ≤ scatterCount64 reels then
             Double.add lines.winAmount (scatterPayout64 e.currentBet (scatterCount64 reels))
           else lines.winAmount) ∧
      result.isJackpot
        = (if Double.lt (Double.mul e.currentBet (Double.ofInt 100)) result.winAmount = true then
             some true
           else lines.isJackpot) := by
  simp only [CalculateWin64, h]
  refine ⟨_, rfl, ?_⟩
  by_cases hs : 3 ≤ scatterCount64 reels
  · simp only [hs, if_true, decide_True, Bool.or_true]
    split <;> simp [*]
  · simp only [hs, if_false, decide_False, Bool.or_false]
    split <;> simp [*]

theorem CalculateWin64_defined (e : GameEngine64) {reels : List (List SlotSymbol)}
    (h : RowsOk reels) : ∃ r, CalculateWin64 e reels = some r := by
  obtain ⟨lines, hl, -⟩ := CalculateWin64_paylines_cases e h
  obtain ⟨r, hr, -⟩ := CalculateWin64_of_paylines e reels lines hl
  exact ⟨r, hr⟩

/-! ## Binary64 engine: the scatter count -/

theorem scatter64_inner_foldl (reel : List SlotSymbol) (n : Nat)
    (h : n + reel.count SCATTER < 2 ^ 31) :
    reel.foldl (fun m symbol => if symbol = SCATTER then wrapInt32 (m + 1) else m) (n : Int)
      = ((n + reel.count SCATTER : Nat) : Int) := by
  induction reel generalizing n with
  | nil => simp
  | cons s rest ih =>
    rw [List.foldl_cons]
    by_cases hs : s = SCATTER
    · subst hs
      rw [List.count_cons_self] at h ⊢
      rw [if_pos rfl, wrapInt32_of_range _ (by omega) (by omega)]
      have hstep := ih (n + 1) (by omega)
      rw [show ((n : Int) + 1) = ((n + 1 : Nat) : Int) by push_cast; rfl, hstep]
      congr 1
      omega
    · have hne : (s == SCATTER) = false := by simpa using hs
      rw [List.count_cons, hne] at h ⊢
      rw [if_neg hs]
      simpa using ih n (by simpa using h)

theorem scatter64_outer_foldl (reels : List (List SlotSymbol)) (n : Nat)
    (h : n + reels.flatten.count SCATTER < 2 ^ 31) :
    reels.foldl
        (fun n reel =>
          reel.foldl (fun m symbol => if symbol = SCATTER then wrapInt32 (m + 1) else m) n)
        (n : Int)
      = ((n + reels.flatten.count SCATTER : Nat) : Int) := by
  induction reels generalizing n with
  | nil => simp
  | cons reel rest ih =>
    rw [List.flatten_cons, List.count_append] at h
    rw [List.foldl_cons, scatter64_inner_foldl reel n (by omega),
      ih (n + reel.count SCATTER) (by omega), List.flatten_cons, List.count_append]
    congr 1
    omega

/-- The scatter loops count the SCATTER symbols anywhere in the grid, as long
as the `int` counter does not overflow. -/
theorem scatterCount64_eq_count (reels : List (List SlotSymbol))
    (h : reels.flatten.count SCATTER < 2 ^ 31) :
    scatterCount64 reels = (reels.flatten.count SCATTER : Nat) := by
  have h0 := scatter64_outer_foldl reels 0 (by simpa using h)
  simpa [scatterCount64] using h0

theorem wrapInt32_range (x : Int) : -2 ^ 31 ≤ wrapInt32 x ∧ wrapInt32 x < 2 ^ 31 := by
  unfold wrapInt32
  have h1 := Int.emod_nonneg (x + 2 ^ 31) (by norm_num : (2 : Int) ^ 32 ≠ 0)
  have h2 := Int.emod_lt_of_pos (x + 2 ^ 31) (by norm_num : (0 : Int) < 2 ^ 32)
  norm_num at h1 h2 ⊢
  omega

theorem scatter64_inner_range (reel : List SlotSymbol) (n : Int)
    (h : -2 ^ 31 ≤ n ∧ n < 2 ^ 31) :
    -2 ^ 31 ≤ reel.foldl (fun m symbol => if symbol = SCATTER then wrapInt32 (m + 1) else m) n ∧
    reel.foldl (fun m symbol => if symbol = SCATTER then wrapInt32 (m + 1) else m) n < 2 ^ 31 := by
  induction reel generalizing n with
  | nil => exact h
  | cons s rest ih =>
    rw [List.foldl_cons]
    by_cases hs : s = SCATTER
    · rw [if_pos hs]
      exact ih _ (wrapInt32_range _)
    · rw [if_neg hs]
      exact ih _ h

/-- The scatter count is a value of the type `int`. -/
theorem scatterCount64_range (reels : List (List SlotSymbol)) :
    -2 ^ 31 ≤ scatterCount64 reels ∧ scatterCount64 reels < 2 ^ 31 := by
  unfold scatterCount64
  have hgen : ∀ (l : List (List SlotSymbol)) (n : Int), (-2 ^ 31 ≤ n ∧ n < 2 ^ 31) →
      -2 ^ 31 ≤ l.foldl
        (fun n reel =>
          reel.foldl (fun m symbol => if symbol = SCATTER then wrapInt32 (m + 1) else m) n) n ∧
      l.foldl
        (fun n reel =>
          reel.foldl (fun m symbol => if symbol = SCATTER then wrapInt32 (m + 1) else m) n) n
        < 2 ^ 31 := by
    intro l
    induction l with
    | nil => intro n hn; exact hn
    | cons reel rest ih =>
      intro n hn
      rw [List.foldl_cons]
      exact ih _ (scatter64_inner_range reel n hn)
  exact hgen reels 0 (by norm_num)

/-! ## Binary64 engine: the outcomes of `Spin` -/

theorem ValidateSpinTiming64_frame (e : GameEngine64) (currentTime : Nat) :
    (ValidateSpinTiming64 e currentTime).2.currentBalance = e.currentBalance ∧
    (ValidateSpinTiming64 e currentTime).2.currentBet = e.currentBet ∧
    (ValidateSpinTiming64 e currentTime).2.stats = e.stats ∧
    (ValidateSpinTiming64 e currentTime).2.isSpinning = e.isSpinning ∧
    (ValidateSpinTiming64 e currentTime).2.spinHistory = e.spinHistory ∧
    (ValidateSpinTiming64 e currentTime).2.rngDraws = e.rngDraws := by
  unfold ValidateSpinTiming64
  split <;> simp

theorem recordStats64_fields (stats : GameStats64) (betAmount : Double) (result : SpinResult64) :
    (recordStats64 stats betAmount result).totalBet = Double.add stats.totalBet betAmount ∧
    (recordStats64 stats betAmount result).totalWin
      = Double.add stats.totalWin result.winAmount ∧
    (recordStats64 stats betAmount result).totalSpins = wrapInt32 (stats.totalSpins + 1) ∧
    (recordStats64 stats betAmount result).winningSpins
      = (if result.isWin = true then wrapInt32 (stats.winningSpins + 1)
         else stats.winningSpins) := by
  unfold recordStats64
  dsimp only
  split <;> exact ⟨rfl, rfl, rfl, rfl⟩

/-- An admitted spin always completes, and this is the state it leaves. -/
theorem Spin64_admitted_spec (e : GameEngine64) (betAmount : Double) (rng : Nat → Nat)
    (tRecord : Nat) :
    ∃ e2 result, Spin64.admitted e betAmount rng tRecord = some (e2, result) ∧
      CalculateWin64
        (generateReels64 rng REEL_COUNT
          { e with currentBalance := Double.sub e.currentBalance betAmount,
                   currentBet := betAmount }).2
        (generateReels64 rng REEL_COUNT
          { e with currentBalance := Double.sub e.currentBalance betAmount,
                   currentBet := betAmount }).1
        = some result ∧
      e2.currentBalance
        = Double.add (Double.sub e.currentBalance betAmount) result.winAmount ∧
      e2.currentBet = betAmount ∧
      e2.stats = recordStats64 e.stats betAmount result ∧
      e2.isSpinning = e.isSpinning ∧
      e2.lastSpinTime = e.lastSpinTime ∧
      e2.spinHistory = (UpdateSpinHistory64 e tRecord).spinHistory ∧
      e2.rngDraws = e.rngDraws + SYMBOL_COUNT * REEL_COUNT := by
  obtain ⟨result, hres⟩ := CalculateWin64_defined
    (generateReels64 rng REEL_COUNT
      { e with currentBalance := Double.sub e.currentBalance betAmount,
               currentBet := betAmount }).2
    (generateReels64_isGrid rng
      { e with currentBalance := Double.sub e.currentBalance betAmount,
               currentBet := betAmount }).rowsOk
  refine ⟨Spin64.settle (generateReels64 rng REEL_COUNT
      { e with currentBalance := Double.sub e.currentBalance betAmount,
               currentBet := betAmount }).2
      betAmount result tRecord, result, ?_, hres, ?_⟩
  · simp only [Spin64.admitted, hres]
  · simp [Spin64.settle, generateReels64_state, UpdateSpinHistory64]

/-- The three ways a call of `Spin` can go: rejected before the timing check,
rejected after it, or admitted. -/
theorem Spin64_cases (e : GameEngine64) (betAmount : Double) (rng : Nat → Nat)
    (tCheck tRecord : Nat) :
    (CanSpin64 e = false ∧ Spin64 e betAmount rng tCheck tRecord = some (e, emptyResult64)) ∨
    (CanSpin64 e = true ∧
      ((ValidateSpinTiming64 e tCheck).1 = false ∨
        DetectPatternAbuse64 (ValidateSpinTiming64 e tCheck).2 = true ∨
        Double.lt (ValidateSpinTiming64 e tCheck).2.currentBalance betAmount = true) ∧
      Spin64 e betAmount rng tCheck tRecord
        = some ((ValidateSpinTiming64 e tCheck).2, emptyResult64)) ∨
    (CanSpin64 e = true ∧ (ValidateSpinTiming64 e tCheck).1 = true ∧
      DetectPatternAbuse64 (ValidateSpinTiming64 e tCheck).2 = false ∧
      Double.lt (ValidateSpinTiming64 e tCheck).2.currentBalance betAmount = false ∧
      Spin64 e betAmount rng tCheck tRecord =
        Spin64.admitted (ValidateSpinTiming64 e tCheck).2 betAmount rng tRecord) := by
  unfold Spin64
  by_cases h1 : CanSpin64 e = false
  · left; simp [h1]
  · right
    have h1t : CanSpin64 e = true := by simpa using h1
    by_cases h2 : (ValidateSpinTiming64 e tCheck).1 = false
    · left; simp [h1t, h2]
    · have h2t : (ValidateSpinTiming64 e tCheck).1 = true := by simpa using h2
      by_cases h3 : DetectPatternAbuse64 (ValidateSpinTiming64 e tCheck).2 = true
      · left; simp [h1t, h2t, h3]
      · have h3f : DetectPatternAbuse64 (ValidateSpinTiming64 e tCheck).2 = false := by
          simpa using h3
        by_cases h4 : Double.lt (ValidateSpinTiming64 e tCheck).2.currentBalance betAmount = true
        · left; simp [h1t, h2t, h3f, h4]
        · have h4f : Double.lt (ValidateSpinTiming64 e tCheck).2.currentBalance betAmount
              = false := by simpa using h4
          right; simp [h1t, h2t, h3f, h4f]

/-- An admitted call of `Spin` is the admitted branch. -/
theorem Spin64_of_admitted (e : GameEngine64) (betAmount : Double) (rng : Nat → Nat)
    (tCheck tRecord : Nat) (hadm : SpinAdmitted64 e betAmount tCheck) :
    Spin64 e betAmount rng tCheck tRecord =
      Spin64.admitted (ValidateSpinTiming64 e tCheck).2 betAmount rng tRecord := by
  obtain ⟨hcan, htime, habuse, hbalance⟩ := hadm
  obtain ⟨hbal, -⟩ := ValidateSpinTiming64_frame e tCheck
  rcases Spin64_cases e betAmount rng tCheck tRecord with
    ⟨hc, -⟩ | ⟨-, hrej, -⟩ | ⟨-, -, -, -, hs⟩
  · rw [hcan] at hc; exact absurd hc (by decide)
  · rcases hrej with h1 | h2 | h3
    · rw [htime] at h1; exact absurd h1 (by decide)
    · rw [habuse] at h2; exact absurd h2 (by decide)
    · rw [hbal, hbalance] at h3; exact absurd h3 (by decide)
  · exact hs

/-! ## Binary64 engine: the sign of a win -/

/-- Repeated additions of a non-negative step to a non-negative amount give
`+inf` or a non-negative finite amount, at least the first sum once a step has
been added. -/
theorem addTimes_atLeast {w step : Double} {a b : Nat} (hw : w.AtLeast a) (hs : step.AtLeast b)
    (ha : IsRounded a) (hb : IsRounded b) (n : Nat) :
    (addTimes w step n).AtLeast a ∧ (0 < n → (addTimes w step n).AtLeast b) := by
  induction n with
  | zero => exact ⟨hw, fun h => absurd h (by decide)⟩
  | succ n ih =>
    constructor
    · exact add_atLeast a ih.1 hs ha (by omega)
    · intro _
      exact add_atLeast b ih.1 hs hb (by omega)

theorem count_scatter_le_of_isGrid {reels : List (List SlotSymbol)} (h : IsGrid reels) :
    reels.flatten.count SCATTER ≤ 15 := by
  have hlen : reels.flatten.length = 15 := by
    rw [flatten_length_of_rows reels SYMBOL_COUNT h.2, h.1]
    rfl
  have hle := List.count_le_length SCATTER reels.flatten
  omega

theorem scatterCount64_le_of_isGrid {reels : List (List SlotSymbol)} (h : IsGrid reels) :
    ∃ s : Nat, scatterCount64 reels = (s : Int) ∧ s ≤ 15 := by
  have hle := count_scatter_le_of_isGrid h
  exact ⟨_, scatterCount64_eq_count reels (by omega), hle⟩

/-- The scatter payout of a positive bet for 1 to 15 scatters is `+inf` or at
least the bet. -/
theorem scatterPayout64_atLeast {bet : Double} {r : Nat} (hbet : bet.AtLeast r) (hr : IsRounded r)
    (hpos : 0 < r) (s : Nat) (hs1 : 1 ≤ s) (hs : s ≤ 15) :
    (scatterPayout64 bet (s : Int)).AtLeast r := by
  unfold scatterPayout64
  have hmul : ∀ k : Nat, 0 < k → r * 2 ^ 1074 ≤ r * (k * 2 ^ 1074) := fun k hk =>
    Nat.mul_le_mul_left r (Nat.le_mul_of_pos_left _ hk)
  have h1 : (Double.mul bet (Double.ofInt (s : Int))).AtLeast r :=
    mul_atLeast r hbet (ofInt_atLeast s (by omega)) hpos (by positivity) hr (hmul s (by omega))
  exact mul_atLeast r h1 (ofInt_atLeast 2 (by norm_num)) hpos (by positivity) hr
    (hmul 2 (by norm_num))

/-- When the rounded tenth of the current bet is above zero, the win flag of
`CalculateWin` on a 5x3 grid says exactly that the win amount is above zero. -/
theorem CalculateWin64_isWin_iff_pos (e : GameEngine64) {reels : List (List SlotSymbol)}
    (h : IsGrid reels)
    (hbet : Double.lt Double.zero (Double.mul e.currentBet (Double.ofRatio 1 10)) = true)
    (result : SpinResult64) (hres : CalculateWin64 e reels = some result) :
    result.isWin = true ↔ Double.lt Double.zero result.winAmount = true := by
  obtain ⟨lines, hl, -, -, hcases⟩ := CalculateWin64_paylines_cases e h.rowsOk
  obtain ⟨r, hr, -, -, hwin, -, hamt, -⟩ := CalculateWin64_of_paylines e reels lines hl
  rw [hres, Option.some.injEq] at hr
  subst hr
  obtain ⟨s, hs, hs15⟩ := scatterCount64_le_of_isGrid h
  have hstep := atLeast_one_of_pos hbet
  have hbetpos : e.currentBet.AtLeast 1 := pos_of_mul_pos tenth_bounds.1 hbet
  have hone : IsRounded 1 := isRounded_of_lt 1 (by norm_num)
  have hlines : lines.winAmount.AtLeast 0 ∧ (lines.isWin = true → lines.winAmount.AtLeast 1) := by
    rcases hcases with ⟨-, hf, h0, -⟩ | ⟨-, ht, h25, -⟩
    · rw [h0, hf]
      exact ⟨zero_atLeast, fun hc => absurd hc (by decide)⟩
    · rw [h25]
      have hboth := addTimes_atLeast zero_atLeast hstep isRounded_zero hone 25
      exact ⟨hboth.1, fun _ => hboth.2 (by norm_num)⟩
  rw [hwin, hamt, hs]
  by_cases h3 : (3 : Int) ≤ (s : Int)
  · have hs3 : 3 ≤ s := by omega
    simp only [h3, if_true, decide_True, Bool.or_true, true_iff]
    have hpay := scatterPayout64_atLeast hbetpos hone (by norm_num) s (by omega) hs15
    exact pos_of_atLeast_one (add_atLeast 1 hlines.1 hpay hone (by omega))
  · simp only [h3, if_false, decide_False, Bool.or_false]
    constructor
    · intro hw
      exact pos_of_atLeast_one (hlines.2 hw)
    · intro hpos
      rcases hcases with ⟨-, hf, h0, -⟩ | ⟨-, ht, -, -⟩
      · rw [h0] at hpos
        exact absurd hpos (by decide)
      · exact ht

/-! ## C27 -/

/-- C27, counterexample. At the default bet 1.0 on the grid of cherries every
line matches, and the payline part of the win is not 2.5 times the bet: the
code adds the rounded product `1.0 * 0.1` 25 times, each sum rounded, and gets
2.5000000000000009, whose exact value exceeds five halves of the bet. -/
theorem C27_counterexample :
    ∃ lines, CalculateWin64.paylines (engineWithBet (Double.ofInt 1)) gridCherries = some lines ∧
      lines.winLines = (List.range 25).map Int.ofNat ∧
      lines.winAmount = Double.ofRatio 25000000000000009 10000000000000000 ∧
      lines.winAmount ≠ Double.ofRatio 5 2 ∧
      2 * lines.winAmount.units ≠ 5 * (engineWithBet (Double.ofInt 1)).currentBet.units := by
  refine ⟨_, paylineLoop64_true _ CheckWinLine_gridCherries _ _, ?_⟩
  decide!

/-- C27, amended. For every grid and all line indices `i` and `j`,
`CheckWinLine` gives the same answer for line `i` and line `j`; hence, for every
grid whose middle row can be read, `CalculateWin` returns a result whose
`winLines` is either empty or exactly the 25 indices `0..24`, and the payline
part of its win is either 0 or what 25 rounded additions of the rounded product
`bet * 0.1` give, starting from 0; at the bet 10 that is exactly 25. -/
theorem C27_line_index_is_ignored (e : GameEngine64) (reels : List (List SlotSymbol))
    (h : RowsOk reels) :
    (∀ (grid : List (List SlotSymbol)) (i j : Int), CheckWinLine grid i = CheckWinLine grid j) ∧
    ∃ lines result, CalculateWin64.paylines e reels = some lines ∧
      CalculateWin64 e reels = some result ∧
      result.winAmount
        = (if 3 ≤ scatterCount64 reels then
             Double.add lines.winAmount (scatterPayout64 e.currentBet (scatterCount64 reels))
           else lines.winAmount) ∧
      ((result.winLines = [] ∧ lines.winAmount = Double.zero) ∨
       (result.winLines = (List.range 25).map Int.ofNat ∧
         lines.winAmount
           = addTimes Double.zero (Double.mul e.currentBet (Double.ofRatio 1 10)) 25 ∧
         (e.currentBet = Double.ofInt 10 → lines.winAmount = Double.ofInt 25))) := by
  refine ⟨fun grid i j => CheckWinLine_line grid i j, ?_⟩
  obtain ⟨lines, hl, -, -, hcases⟩ := CalculateWin64_paylines_cases e h
  obtain ⟨result, hres, -, hwl, -, -, hamt, -⟩ := CalculateWin64_of_paylines e reels lines hl
  refine ⟨lines, result, hl, hres, hamt, ?_⟩
  rcases hcases with ⟨-, -, h0, hnil⟩ | ⟨-, -, h25, hall⟩
  · left; exact ⟨hwl.trans hnil, h0⟩
  · right
    refine ⟨hwl.trans hall, h25, ?_⟩
    intro hbet
    rw [h25, hbet]
    decide!

theorem C27_line_index_is_ignored_witness :
    RowsOk gridCherries ∧
    (∀ (grid : List (List SlotSymbol)) (i j : Int), CheckWinLine grid i = CheckWinLine grid j) ∧
    ∃ lines result,
      CalculateWin64.paylines (engineWithBet (Double.ofInt 10)) gridCherries = some lines ∧
      CalculateWin64 (engineWithBet (Double.ofInt 10)) gridCherries = some result ∧
      result.winAmount
        = (if 3 ≤ scatterCount64 gridCherries then
             Double.add lines.winAmount
               (scatterPayout64 (engineWithBet (Double.ofInt 10)).currentBet
                 (scatterCount64 gridCherries))
           else lines.winAmount) ∧
      ((result.winLines = [] ∧ lines.winAmount = Double.zero) ∨
       (result.winLines = (List.range 25).map Int.ofNat ∧
         lines.winAmount
           = addTimes Double.zero
               (Double.mul (engineWithBet (Double.ofInt 10)).currentBet (Double.ofRatio 1 10)) 25 ∧
         ((engineWithBet (Double.ofInt 10)).currentBet = Double.ofInt 10 →
           lines.winAmount = Double.ofInt 25))) :=
  ⟨by unfold RowsOk; decide,
   C27_line_index_is_ignored (engineWithBet (Double.ofInt 10)) gridCherries
     (by unfold RowsOk; decide)⟩

/-! ## C7 -/

/-- C7, counterexample. At the bet 0.1 on a grid with three scatters and no
matching line, the payline wins are 0 and `CalculateWin` returns the win
0.6000000000000001: the two products of `bet * 3 * 2` are rounded, and the
result is not six times the stored bet. -/
theorem C7_counterexample :
    ∃ lines result,
      CalculateWin64.paylines (engineWithBet (Double.ofRatio 1 10)) gridThreeScatters
        = some lines ∧
      CalculateWin64 (engineWithBet (Double.ofRatio 1 10)) gridThreeScatters = some result ∧
      gridThreeScatters.flatten.count SCATTER = 3 ∧
      lines.winAmount = Double.zero ∧
      result.winAmount = Double.ofRatio 6000000000000001 10000000000000000 ∧
      result.winAmount.units
        ≠ lines.winAmount.units + (engineWithBet (Double.ofRatio 1 10)).currentBet.units * 3 * 2 := by
  have hc : CheckWinLine gridThreeScatters 0 = some false := by decide
  have hres : CalculateWin64 (engineWithBet (Double.ofRatio 1 10)) gridThreeScatters =
      some { reels := gridThreeScatters,
             winAmount := Double.ofRatio 6000000000000001 10000000000000000, isWin := true,
             winLines := [], isBonusTriggered := some true, isJackpot := none } := by
    decide!
  exact ⟨_, _, paylineLoop64_false _ hc _ _, hres, by decide, rfl, by decide!, by decide!⟩

/-- C7, amended. For every grid whose reels have a middle row and every current
bet, with `s` the `int` count of the SCATTER symbols anywhere in the grid (the
number of them, below `2^31`), `CalculateWin` returns; it sets
`isBonusTriggered` (to true) iff `s >= 3`, and leaves the flag unwritten
otherwise; when `s >= 3` the win amount is the rounded sum of the payline win
and the scatter payout, which is `bet * s`, rounded, times 2, rounded, and
otherwise it is the payline win; whenever the product `bet * s * 2` is itself
a binary64 value the payout is exactly that product, and with bet 10 and
`s = 4` the payout added is exactly 80. -/
theorem C7_scatter_bonus (e : GameEngine64) (reels : List (List SlotSymbol)) (h : RowsOk reels) :
    ∃ lines result, CalculateWin64.paylines e reels = some lines ∧
      CalculateWin64 e reels = some result ∧
      (reels.flatten.count SCATTER < 2 ^ 31 →
        scatterCount64 reels = (reels.flatten.count SCATTER : Nat)) ∧
      (result.isBonusTriggered = some true ↔ 3 ≤ scatterCount64 reels) ∧
      (¬ 3 ≤ scatterCount64 reels → result.isBonusTriggered = none) ∧
      result.winAmount
        = (if 3 ≤ scatterCount64 reels then
             Double.add lines.winAmount
               (Double.mul (Double.mul e.currentBet (Double.ofInt (scatterCount64 reels)))
                 (Double.ofInt 2))
           else lines.winAmount) ∧
      (∀ (B s : Nat) (hB : IsBinary64 B) (h2 : IsBinary64 (2 * (B * s))),
        e.currentBet = Double.ofUnits B hB → scatterCount64 reels = (s : Int) → 3 ≤ s →
        result.winAmount = Double.add lines.winAmount (Double.ofUnits (2 * (B * s)) h2)) ∧
      (e.currentBet = Double.ofInt 10 → scatterCount64 reels = 4 →
        result.winAmount = Double.add lines.winAmount (Double.ofInt 80)) := by
  obtain ⟨lines, hl, hbonus, -, -⟩ := CalculateWin64_paylines_cases e h
  obtain ⟨result, hr, -, -, -, hb, hw, -⟩ := CalculateWin64_of_paylines e reels lines hl
  refine ⟨lines, result, hl, hr, scatterCount64_eq_count reels, ?_, ?_, hw, ?_, ?_⟩
  · rw [hb, hbonus]
    by_cases hs : 3 ≤ scatterCount64 reels
    · simp [hs]
    · simp [hs]
  · intro hs
    rw [hb, if_neg hs, hbonus]
  · intro B s hB h2 hbet hs h3
    have hlt : s < 2 ^ 53 := by
      have hr := (scatterCount64_range reels).2
      rw [hs] at hr
      have : (s : Int) < 2 ^ 53 := lt_of_lt_of_le hr (by norm_num)
      exact_mod_cast this
    rw [hw, hs, hbet, if_pos (by exact_mod_cast h3), scatterPayout64,
      scatterPayout_exact B s hB hlt h2]
  · intro hbet hs
    have h80 : Double.mul (Double.mul (Double.ofInt 10) (Double.ofInt 4)) (Double.ofInt 2)
        = Double.ofInt 80 := by decide!
    rw [hw, hs, hbet, if_pos (by decide), scatterPayout64, h80]

theorem C7_scatter_bonus_witness :
    RowsOk gridFourScatters ∧
    ∃ lines result,
      CalculateWin64.paylines (engineWithBet (Double.ofInt 10)) gridFourScatters = some lines ∧
      CalculateWin64 (engineWithBet (Double.ofInt 10)) gridFourScatters = some result ∧
      (gridFourScatters.flatten.count SCATTER < 2 ^ 31 →
        scatterCount64 gridFourScatters = (gridFourScatters.flatten.count SCATTER : Nat)) ∧
      (result.isBonusTriggered = some true ↔ 3 ≤ scatterCount64 gridFourScatters) ∧
      (¬ 3 ≤ scatterCount64 gridFourScatters → result.isBonusTriggered = none) ∧
      result.winAmount
        = (if 3 ≤ scatterCount64 gridFourScatters then
             Double.add lines.winAmount
               (Double.mul
                 (Double.mul (engineWithBet (Double.ofInt 10)).currentBet
                   (Double.ofInt (scatterCount64 gridFourScatters)))
                 (Double.ofInt 2))
           else lines.winAmount) ∧
      (∀ (B s : Nat) (hB : IsBinary64 B) (h2 : IsBinary64 (2 * (B * s))),
        (engineWithBet (Double.ofInt 10)).currentBet = Double.ofUnits B hB →
        scatterCount64 gridFourScatters = (s : Int) → 3 ≤ s →
        result.winAmount = Double.add lines.winAmount (Double.ofUnits (2 * (B * s)) h2)) ∧
      ((engineWithBet (Double.ofInt 10)).currentBet = Double.ofInt 10 →
        scatterCount64 gridFourScatters = 4 →
        result.winAmount = Double.add lines.winAmount (Double.ofInt 80)) :=
  ⟨by unfold RowsOk; decide,
   C7_scatter_bonus (engineWithBet (Double.ofInt 10)) gridFourScatters
     (by unfold RowsOk; decide)⟩

/-- Bet 10 and four scatters, no matching line: `CalculateWin` returns the win
80 and the bonus flag. -/
theorem CalculateWin64_gridFourScatters :
    CalculateWin64 (engineWithBet (Double.ofInt 10)) gridFourScatters =
      some { reels := gridFourScatters, winAmount := Double.ofInt 80, isWin := true,
             winLines := [], isBonusTriggered := some true, isJackpot := none } := by
  have hc : CheckWinLine gridFourScatters 0 = some false := by decide
  simp only [CalculateWin64, CalculateWin64.paylines, paylineLoop64_false _ hc]
  decide!

/-! ## C19 -/

theorem generateReels64_rngCherries (e : GameEngine64) :
    generateReels64 rngCherries REEL_COUNT e
      = (gridCherries, { e with rngDraws := e.rngDraws + 15 }) := by
  simp [generateReels64, GenerateReel64, generateSymbols64, REEL_COUNT, SYMBOL_COUNT, rngCherries,
    symbolFor, gridCherries]

/-- C19, counterexample. `Spin(0)` on a funded engine is admitted; with a grid
of cherries every line matches, the win amount is 0, and `winningSpins` still
goes from 0 to 1. -/
theorem C19_counterexample :
    SpinAdmitted64 fundedEngine64 Double.zero 1000 ∧
    Spin64 fundedEngine64 Double.zero rngCherries 1000 1001 =
      some ({ currentBalance := Double.ofInt 10, currentBet := Double.zero,
              stats := { totalBet := Double.zero, totalWin := Double.zero, totalSpins := 1,
                         winningSpins := 1, rtp := Double.ofRatio 965 10 },
              isSpinning := false, lastSpinTime := 1000, spinHistory := [1001], rngDraws := 15 },
            { reels := gridCherries, winAmount := Double.zero, isWin := true,
              winLines := (List.range PAYLINES).map Int.ofNat,
              isBonusTriggered := none, isJackpot := none }) ∧
    fundedEngine64.stats.winningSpins = 0 := by
  have hadm : SpinAdmitted64 fundedEngine64 Double.zero 1000 := by
    unfold SpinAdmitted64
    decide!
  refine ⟨hadm, ?_, rfl⟩
  rw [Spin64_of_admitted _ _ _ _ _ hadm]
  simp only [Spin64.admitted, generateReels64_rngCherries]
  decide!

/-- C19, amended. Every admitted `Spin(bet)` returns, and with `w` the win
amount of its result it updates the statistics by `totalBet += bet` and
`totalWin += w`, each a rounded binary64 addition, by `totalSpins += 1` in an
`int` (exactly one more unless the counter holds `INT_MAX`, where it wraps),
and by `winningSpins += 1` when the result is flagged as a win and `+= 0`
otherwise; whenever the rounded product `bet * 0.1` is above zero the result is
flagged as a win exactly when `w > 0`. -/
theorem C19_admitted_spin_statistics (e : GameEngine64) (betAmount : Double) (rng : Nat → Nat)
    (tCheck tRecord : Nat) (hadm : SpinAdmitted64 e betAmount tCheck) :
    ∃ e2 result, Spin64 e betAmount rng tCheck tRecord = some (e2, result) ∧
      e2.stats.totalBet = Double.add e.stats.totalBet betAmount ∧
      e2.stats.totalWin = Double.add e.stats.totalWin result.winAmount ∧
      e2.stats.totalSpins = wrapInt32 (e.stats.totalSpins + 1) ∧
      (-2 ^ 31 ≤ e.stats.totalSpins → e.stats.totalSpins < 2 ^ 31 - 1 →
        e2.stats.totalSpins = e.stats.totalSpins + 1) ∧
      e2.stats.winningSpins
        = (if result.isWin = true then wrapInt32 (e.stats.winningSpins + 1)
           else e.stats.winningSpins) ∧
      (-2 ^ 31 ≤ e.stats.winningSpins → e.stats.winningSpins < 2 ^ 31 - 1 →
        e2.stats.winningSpins
          = e.stats.winningSpins + (if result.isWin = true then 1 else 0)) ∧
      (Double.lt Double.zero (Double.mul betAmount (Double.ofRatio 1 10)) = true →
        (result.isWin = true ↔ Double.lt Double.zero result.winAmount = true)) := by
  obtain ⟨-, -, hstats, -⟩ := ValidateSpinTiming64_frame e tCheck
  have hs := Spin64_of_admitted e betAmount rng tCheck tRecord hadm
  obtain ⟨e2, result, hadmit, hcalc, -, -, hst, -⟩ :=
    Spin64_admitted_spec (ValidateSpinTiming64 e tCheck).2 betAmount rng tRecord
  obtain ⟨hf1, hf2, hf3, hf4⟩ :=
    recordStats64_fields (ValidateSpinTiming64 e tCheck).2.stats betAmount result
  rw [hstats] at hf1 hf2 hf3 hf4
  rw [hstats] at hst
  refine ⟨e2, result, hs.trans hadmit, ?_, ?_, ?_, ?_, ?_, ?_, ?_⟩
  · rw [hst, ← hstats]; rw [hstats]; exact hf1
  · rw [hst]; exact hf2
  · rw [hst]; exact hf3
  · intro hlo hhi
    rw [hst, hf3, wrapInt32_of_range _ (by omega) (by omega)]
  · rw [hst]; exact hf4
  · intro hlo hhi
    rw [hst, hf4]
    split
    · rw [wrapInt32_of_range _ (by omega) (by omega)]
    · omega
  · intro hpos
    refine CalculateWin64_isWin_iff_pos _ (generateReels64_isGrid rng _) ?_ result hcalc
    rw [generateReels64_state]
    exact hpos

theorem C19_admitted_spin_statistics_witness :
    ∃ e2 result, Spin64 fundedEngine64 (Double.ofInt 1) rngCherries 1000 1001
        = some (e2, result) ∧
      e2.stats.totalBet = Double.add fundedEngine64.stats.totalBet (Double.ofInt 1) ∧
      e2.stats.totalWin = Double.add fundedEngine64.stats.totalWin result.winAmount ∧
      e2.stats.totalSpins = wrapInt32 (fundedEngine64.stats.totalSpins + 1) ∧
      (-2 ^ 31 ≤ fundedEngine64.stats.totalSpins → fundedEngine64.stats.totalSpins < 2 ^ 31 - 1 →
        e2.stats.totalSpins = fundedEngine64.stats.totalSpins + 1) ∧
      e2.stats.winningSpins
        = (if result.isWin = true then wrapInt32 (fundedEngine64.stats.winningSpins + 1)
           else fundedEngine64.stats.winningSpins) ∧
      (-2 ^ 31 ≤ fundedEngine64.stats.winningSpins →
        fundedEngine64.stats.winningSpins < 2 ^ 31 - 1 →
        e2.stats.winningSpins
          = fundedEngine64.stats.winningSpins + (if result.isWin = true then 1 else 0)) ∧
      (Double.lt Double.zero (Double.mul (Double.ofInt 1) (Double.ofRatio 1 10)) = true →
        (result.isWin = true ↔ Double.lt Double.zero result.winAmount = true)) :=
  C19_admitted_spin_statistics fundedEngine64 (Double.ofInt 1) rngCherries 1000 1001
    (by unfold SpinAdmitted64; decide!)

/-! ## C28 -/

/-- `DetectPatternAbuse` reads the spin history only. -/
theorem DetectPatternAbuse64_congr (e1 e2 : GameEngine64) (h : e1.spinHistory = e2.spinHistory) :
    DetectPatternAbuse64 e1 = DetectPatternAbuse64 e2 := by
  unfold DetectPatternAbuse64
  rw [h]

/-- A `Spin` on a flagged engine is rejected and changes at most the time of
the last spin. -/
theorem Spin64_of_flagged (e : GameEngine64) (betAmount : Double) (rng : Nat → Nat)
    (tCheck tRecord : Nat) (hflag : DetectPatternAbuse64 e = true) :
    ∃ e2, Spin64 e betAmount rng tCheck tRecord = some (e2, emptyResult64) ∧
      e2.spinHistory = e.spinHistory ∧ e2.currentBalance = e.currentBalance ∧
      e2.currentBet = e.currentBet ∧ e2.stats = e.stats ∧ e2.rngDraws = e.rngDraws := by
  obtain ⟨hbal, hbet, hstats, -, hhist, hdraws⟩ := ValidateSpinTiming64_frame e tCheck
  rcases Spin64_cases e betAmount rng tCheck tRecord with
    ⟨-, hs⟩ | ⟨-, -, hs⟩ | ⟨-, -, hno, -, -⟩
  · exact ⟨e, hs, rfl, rfl, rfl, rfl, rfl⟩
  · exact ⟨_, hs, hhist, hbal, hbet, hstats, hdraws⟩
  · rw [DetectPatternAbuse64_congr _ e hhist, hflag] at hno
    exact absurd hno (by decide)

/-- No public call other than `Shutdown` changes the history of a flagged
engine. -/
theorem engineRun64_of_flagged (rng : Nat → Nat) (calls : List EngineCall64) (e : GameEngine64)
    (hflag : DetectPatternAbuse64 e = true) :
    ∃ e1, engineRun64 rng e calls = some e1 ∧ e1.spinHistory = e.spinHistory := by
  induction calls generalizing e with
  | nil => exact ⟨e, rfl, rfl⟩
  | cons call rest ih =>
    have hstep : ∃ e1, applyCall64 rng e call = some e1 ∧ e1.spinHistory = e.spinHistory := by
      cases call with
      | callSpin betAmount tCheck tRecord =>
        obtain ⟨e2, hs, hh, -⟩ := Spin64_of_flagged e betAmount rng tCheck tRecord hflag
        exact ⟨e2, by simp [applyCall64, hs], hh⟩
      | callSetBalance balance => exact ⟨_, rfl, rfl⟩
      | callSetBet bet => exact ⟨_, rfl, rfl⟩
      | callResetStats => exact ⟨_, rfl, rfl⟩
      | callInitialize => exact ⟨_, rfl, rfl⟩
      | callUpdate => exact ⟨_, rfl, rfl⟩
      | callReportSuspiciousActivity => exact ⟨_, rfl, rfl⟩
    obtain ⟨e1, h1, hh1⟩ := hstep
    have hflag1 : DetectPatternAbuse64 e1 = true := by
      rw [DetectPatternAbuse64_congr e1 e hh1]; exact hflag
    obtain ⟨e2, h2, hh2⟩ := ih e1 hflag1
    refine ⟨e2, ?_, hh2.trans hh1⟩
    simp only [engineRun64, h1]
    exact h2

/-- C28, counterexample. The engine `flaggedEngine64` is funded and flagged,
and a `Spin(1)` at the time 20000 is rejected. After the public call
`Shutdown()`, which clears the history, the same `Spin(1)` is admitted: it
returns a generated grid, counts a spin and records its time. -/
theorem C28_counterexample :
    DetectPatternAbuse64 flaggedEngine64 = true ∧
    (Spin64 flaggedEngine64 (Double.ofInt 1) rngCherries 20000 20001).map
        (fun p => (p.2.reels, p.1.spinHistory.length, p.1.stats.totalSpins))
      = some ([], 20, 0) ∧
    DetectPatternAbuse64 (Shutdown64 flaggedEngine64) = false ∧
    (Spin64 (Shutdown64 flaggedEngine64) (Double.ofInt 1) rngCherries 20000 20001).map
        (fun p => (p.2.reels, p.1.spinHistory, p.1.stats.totalSpins))
      = some (gridCherries, [20001], 1) := by
  decide!

/-- C28, amended. Once `DetectPatternAbuse` returns true for the engine's spin
history, the engine stays flagged through every sequence of public calls that
holds no `Shutdown` (calls of `Spin`, `SetBalance`, `SetBet`, `ResetStats`,
`Initialize`, `Update` and `ReportSuspiciousActivity`, in any order), and every
later `Spin` call, with any bet at any time, returns the empty result and leaves
the spin history, balance, current bet and statistics unchanged. -/
theorem C28_flagged_engine_stays_flagged (rng : Nat → Nat) (e : GameEngine64)
    (calls : List EngineCall64) (betAmount : Double) (tCheck tRecord : Nat)
    (hflag : DetectPatternAbuse64 e = true) :
    ∃ e1, engineRun64 rng e calls = some e1 ∧ e1.spinHistory = e.spinHistory ∧
      DetectPatternAbuse64 e1 = true ∧
      ∃ e2, Spin64 e1 betAmount rng tCheck tRecord = some (e2, emptyResult64) ∧
        e2.spinHistory = e1.spinHistory ∧ e2.currentBalance = e1.currentBalance ∧
        e2.currentBet = e1.currentBet ∧ e2.stats = e1.stats ∧
        DetectPatternAbuse64 e2 = true := by
  obtain ⟨e1, hrun, hh1⟩ := engineRun64_of_flagged rng calls e hflag
  have hflag1 : DetectPatternAbuse64 e1 = true := by
    rw [DetectPatternAbuse64_congr e1 e hh1]; exact hflag
  obtain ⟨e2, hs, hh2, hb, hbet, hst, -⟩ :=
    Spin64_of_flagged e1 betAmount rng tCheck tRecord hflag1
  refine ⟨e1, hrun, hh1, hflag1, e2, hs, hh2, hb, hbet, hst, ?_⟩
  rw [DetectPatternAbuse64_congr e2 e1 hh2]; exact hflag1

theorem flaggedEngine64_flagged : DetectPatternAbuse64 flaggedEngine64 = true := by decide!

theorem C28_flagged_engine_stays_flagged_witness :
    (CanSpin64 flaggedEngine64 = true ∧ (ValidateSpinTiming64 flaggedEngine64 20000).1 = true ∧
      Double.lt flaggedEngine64.currentBalance (Double.ofInt 1) = false) ∧
    ∃ e1,
      engineRun64 rngCherries flaggedEngine64
          [EngineCall64.callSpin (Double.ofInt 1) 20000 20001,
            EngineCall64.callSetBalance (Double.ofInt 50), EngineCall64.callResetStats]
        = some e1 ∧
      e1.spinHistory = flaggedEngine64.spinHistory ∧
      DetectPatternAbuse64 e1 = true ∧
      ∃ e2, Spin64 e1 (Double.ofInt 1) rngCherries 30000 30001 = some (e2, emptyResult64) ∧
        e2.spinHistory = e1.spinHistory ∧ e2.currentBalance = e1.currentBalance ∧
        e2.currentBet = e1.currentBet ∧ e2.stats = e1.stats ∧
        DetectPatternAbuse64 e2 = true :=
  ⟨by decide!,
   C28_flagged_engine_stays_flagged rngCherries flaggedEngine64
     [EngineCall64.callSpin (Double.ofInt 1) 20000 20001,
       EngineCall64.callSetBalance (Double.ofInt 50), EngineCall64.callResetStats]
     (Double.ofInt 1) 30000 30001 flaggedEngine64_flagged⟩

/-! ## Binary64 engine: exact sums and quotients -/

/-- The sum loop over equal intervals is exact while the sum stays below
`2^53`. -/
theorem sumIntervals64_replicate (m d : Nat) (h : m * d < 2 ^ 53) :
    sumIntervals64 (List.replicate m d)
      = Double.ofUnits (m * d * 2 ^ 1074) (isBinary64_mul_pow (m * d) h) := by
  unfold sumIntervals64
  induction m with
  | zero =>
    simp only [List.replicate_zero, List.foldl_nil]
    unfold Double.zero Double.ofUnits
    congr 1
    simp
  | succ m ih =>
    have hm : m * d < 2 ^ 53 := by
      have : m * d ≤ (m + 1) * d := Nat.mul_le_mul_right d (Nat.le_succ m)
      omega
    have hd : d < 2 ^ 53 := by
      have : d ≤ (m + 1) * d := Nat.le_mul_of_pos_left d (Nat.succ_pos m)
      omega
    rw [List.replicate_succ', List.foldl_append, ih hm]
    simp only [List.foldl_cons, List.foldl_nil]
    rw [ofInt_eq d hd]
    show Double.round (((m * d * 2 ^ 1074 : Nat) : Int) + ((d * 2 ^ 1074 : Nat) : Int)) 1 = _
    apply round_exact_nat _ _ 1 (by norm_num)
    push_cast
    ring

/-- The mean of equal intervals is the interval. -/
theorem mean_replicate (m d : Nat) (hm : 0 < m) (h : m * d < 2 ^ 53) (h53 : m < 2 ^ 53)
    (hd : d < 2 ^ 53) :
    Double.div (sumIntervals64 (List.replicate m d)) (Double.ofInt (m : Int))
      = Double.ofUnits (d * 2 ^ 1074) (isBinary64_mul_pow d hd) := by
  rw [sumIntervals64_replicate m d h, ofInt_eq m h53]
  have hb : ((m * 2 ^ 1074 : Nat) : Int) ≠ 0 := by positivity
  have hbn : ¬ ((m * 2 ^ 1074 : Nat) : Int) < 0 := by
    have : (0 : Int) ≤ ((m * 2 ^ 1074 : Nat) : Int) := by positivity
    omega
  show (if ((m * 2 ^ 1074 : Nat) : Int) = 0 then _ else
    Double.round (if ((m * 2 ^ 1074 : Nat) : Int) < 0 then _ else _) _) = _
  rw [if_neg hb, if_neg hbn, Int.natAbs_ofNat]
  apply round_exact_nat _ _ _ (by positivity)
  push_cast
  ring

/-- An interval equal to the mean is regular. -/
theorem isRegular64_self (d : Nat) (hd : d < 2 ^ 53) :
    isRegular64 (Double.ofUnits (d * 2 ^ 1074) (isBinary64_mul_pow d hd)) d = true := by
  unfold isRegular64
  rw [ofInt_eq d hd]
  have hsub : Double.sub (Double.ofUnits (d * 2 ^ 1074) (isBinary64_mul_pow d hd))
      (Double.ofUnits (d * 2 ^ 1074) (isBinary64_mul_pow d hd)) = Double.zero := by
    show Double.round (((d * 2 ^ 1074 : Nat) : Int) + -((d * 2 ^ 1074 : Nat) : Int)) 1 = _
    rw [add_neg_cancel]
    decide
  rw [hsub]
  decide!

/-- The counting loop counts every interval when all are regular and there are
fewer than `2^31`. -/
theorem regularCount64_all (avgInterval : Double) (intervals : List Nat)
    (hall : ∀ x ∈ intervals, isRegular64 avgInterval x = true)
    (hlen : intervals.length < 2 ^ 31) :
    regularCount64 avgInterval intervals = (intervals.length : Int) := by
  unfold regularCount64
  have hgen : ∀ (l : List Nat) (n : Nat), (∀ x ∈ l, isRegular64 avgInterval x = true) →
      n + l.length < 2 ^ 31 →
      l.foldl
        (fun regularCount interval =>
          if isRegular64 avgInterval interval = true then wrapInt32 (regularCount + 1)
          else regularCount) (n : Int) = ((n + l.length : Nat) : Int) := by
    intro l
    induction l with
    | nil => intro n _ _; simp
    | cons x rest ih =>
      intro n hx hn
      rw [List.length_cons] at hn
      rw [List.foldl_cons, if_pos (hx x (List.mem_cons_self _ _)),
        wrapInt32_of_range _ (by omega) (by omega)]
      have hstep := ih (n + 1) (fun y hy => hx y (List.mem_cons_of_mem _ hy)) (by omega)
      rw [show ((n : Int) + 1) = ((n + 1 : Nat) : Int) by push_cast; rfl, hstep,
        List.length_cons]
      congr 1
      omega
  have h0 := hgen intervals 0 hall (by omega)
  simpa using h0

/-- The literal `0.8` is at most 13/16. -/
theorem eightTenths_atMost : (Double.ofRatio 8 10).AtMost (13 * 2 ^ 1070) := by
  apply round_atMost _ _ _ (by positivity) (by norm_num) (isRounded_mul_pow 13 1070 (by norm_num))
  · norm_num
  · norm_num

/-- With 6 to `2^31` intervals, a count equal to their number exceeds the
rounded product of the number and 0.8. -/
theorem full_count_exceeds (m : Nat) (h6 : 6 ≤ m) (hm : m < 2 ^ 31) :
    Double.lt (Double.mul (Double.ofInt (m : Int)) (Double.ofRatio 8 10)) (Double.ofInt (m : Int))
      = true := by
  have hm53 : m < 2 ^ 53 := lt_trans hm (by norm_num)
  have hprod : (Double.mul (Double.ofInt (m : Int)) (Double.ofRatio 8 10)).AtMost
      ((m - 1) * 2 ^ 1074) := by
    apply mul_atMost _ (ofInt_atMost m hm53) eightTenths_atMost
      (isRounded_mul_pow (m - 1) 1074 (by omega))
    · calc (m - 1) * 2 ^ 1074 < 2 ^ 53 * 2 ^ 1074 :=
            Nat.mul_lt_mul_of_pos_right (by omega) (by positivity)
        _ ≤ 2 ^ 2098 := by
          rw [← pow_add]; exact Nat.pow_le_pow_right (by norm_num) (by norm_num)
    · have h1 : (2 : Nat) ^ 1074 = 16 * 2 ^ 1070 := by
        rw [show (1074 : Nat) = 1070 + 4 by rfl, pow_add]; ring
      obtain ⟨k, rfl⟩ : ∃ k, m = k + 6 := ⟨m - 6, by omega⟩
      rw [h1]
      have hP : 0 < 2 ^ 1070 := by positivity
      generalize (2 : Nat) ^ 1070 = P at hP
      have e1 : (k + 6) * (16 * P) * (13 * P) = (208 * k + 1248) * (P * P) := by ring
      have e2 : (k + 6 - 1) * (16 * P) * (16 * P) = (256 * k + 1280) * (P * P) := by
        rw [show k + 6 - 1 = k + 5 by omega]; ring
      rw [e1, e2]
      exact Nat.mul_le_mul_right _ (by omega)
  exact lt_of_atMost_atLeast hprod (ofInt_atLeast m hm53)
    (Nat.mul_lt_mul_of_pos_right (by omega) (by positivity))

/-- Equal intervals whose sum stays below `2^53` are too regular. -/
theorem tooRegular64_replicate (m d : Nat) (h6 : 6 ≤ m) (hm : m < 2 ^ 31)
    (h : m * d < 2 ^ 53) : tooRegular64 (List.replicate m d) = true := by
  have hm53 : m < 2 ^ 53 := lt_trans hm (by norm_num)
  have hd : d < 2 ^ 53 := by
    have : d ≤ m * d := Nat.le_mul_of_pos_left d (by omega)
    omega
  unfold tooRegular64
  simp only [List.length_replicate]
  rw [mean_replicate m d (by omega) h hm53 hd,
    regularCount64_all _ _ (fun x hx => by
      rw [List.eq_of_mem_replicate hx]; exact isRegular64_self d hd)
      (by rw [List.length_replicate]; exact hm),
    List.length_replicate]
  exact full_count_exceeds m h6 hm

/-! ## C17 -/

/-- C17, counterexample. A history of 10 timestamps spaced exactly
878849095618334326 ms apart, all below `2^64`, makes `DetectPatternAbuse`
return false: the spacing is not a binary64 value, the rounded mean of the nine
rounded sums is 128 away from the rounded spacing, and no interval is counted
as regular. -/
theorem C17_counterexample :
    (∀ t ∈ evenHistory 0 878849095618334326 10, t < U64) ∧
    intervalsOf (evenHistory 0 878849095618334326 10) = List.replicate 9 878849095618334326 ∧
    DetectPatternAbuse64
      { GameEngine64.fresh with spinHistory := evenHistory 0 878849095618334326 10 } = false := by
  decide!

/-- C17, amended. For every `n` with `10 <= n <= 100`, every start time and
every spacing `d` with `(n - 1) * d < 2^53` ms, a history of `n` timestamps
spaced exactly `d` ms apart makes `DetectPatternAbuse` return true. -/
theorem C17_even_spacing_flagged (e : GameEngine64) (n start d : Nat) (h10 : 10 ≤ n)
    (h100 : n ≤ 100) (hd : (n - 1) * d < 2 ^ 53) (hh : e.spinHistory = evenHistory start d n) :
    DetectPatternAbuse64 e = true := by
  obtain ⟨m, rfl⟩ : ∃ m, n = m + 1 := ⟨n - 1, by omega⟩
  rw [Nat.add_sub_cancel] at hd
  have hlen : e.spinHistory.length = m + 1 := by simp [hh, evenHistory]
  have hdlt : d < U64 := by
    have : d ≤ m * d := Nat.le_mul_of_pos_left d (by omega)
    have hU : U64 = 18446744073709551616 := by norm_num [U64]
    omega
  unfold DetectPatternAbuse64
  rw [if_neg (by omega), hh, intervalsOf_evenHistory, Nat.mod_eq_of_lt hdlt,
    List.length_replicate, if_pos (by omega)]
  exact tooRegular64_replicate m d (by omega) (by omega) hd

theorem C17_even_spacing_flagged_witness : DetectPatternAbuse64 flaggedEngine64 = true :=
  C17_even_spacing_flagged flaggedEngine64 20 1000 500 (by decide) (by decide) (by decide) rfl

/-! ## Binary64 engine: the mean and the regularity test -/

theorem ofUnits_injective {a b : Nat} {ha : IsBinary64 a} {hb : IsBinary64 b}
    (h : Double.ofUnits a ha = Double.ofUnits b hb) : a = b := by
  unfold Double.ofUnits at h
  injection h with h1
  exact_mod_cast h1

/-- A quotient between two rounded magnitudes rounds to a finite value between
them. -/
theorem round_sandwich (num : Int) (den lo hi : Nat) (hnum : 0 ≤ num) (hden : den ≠ 0)
    (hlo : IsRounded lo) (hhi : IsRounded hi) (hfin : hi < 2 ^ 2098)
    (h1 : ((lo * den : Nat) : Int) ≤ num) (h2 : num ≤ (hi : Int) * (den : Int)) :
    ∃ (r : Nat) (hr : IsBinary64 r), Double.round num den = Double.ofUnits r hr ∧
      lo ≤ r ∧ r ≤ hi := by
  obtain ⟨r, hr, he, hle⟩ := round_atMost num den hi hnum hden hhi hfin h2
  rcases round_atLeast num den lo hnum hden hlo h1 with hinf | ⟨r2, hr2, he2, hge⟩
  · rw [he] at hinf
    exact absurd hinf (by unfold Double.ofUnits; exact Double.noConfusion)
  · rw [he] at he2
    have := ofUnits_injective he2
    subst this
    exact ⟨r, hr, he, hge, hle⟩

/-- The absolute value of a rounded quotient is the rounded absolute value. -/
theorem abs_round (num : Int) (den : Nat) (hden : den ≠ 0) :
    Double.abs (Double.round num den) = Double.round (num.natAbs : Int) den := by
  have hnn : ¬ ((num.natAbs : Int) < 0) := by omega
  unfold Double.round
  simp only [if_neg hden, Int.natAbs_ofNat, if_neg hnn]
  by_cases hb : IsBinary64 (roundMagnitude num.natAbs den)
  · simp only [dif_pos hb]
    by_cases hneg : num < 0
    · simp only [if_pos hneg]
      unfold Double.abs
      simp only [Int.natAbs_neg, Int.natAbs_ofNat]
    · simp only [if_neg hneg]
      unfold Double.abs
      simp only [Int.natAbs_ofNat]
  · simp only [dif_neg hb]
    by_cases hneg : num < 0
    · simp only [if_pos hneg]; rfl
    · simp only [if_neg hneg]; rfl

/-- The arithmetic behind the regularity test, in units `H = 2^-9`: a mean
known within `4 H` puts the difference on the same side of 10 as the exact
one. -/
theorem regular_arith (x m S r : Nat) (H : Int) (hH : 0 < H) (hm : 0 < m) (hm2 : m ≤ 100)
    (h1 : (r : Int) * m - S * (512 * H) ≤ m * (4 * H))
    (h2 : (S : Int) * (512 * H) - r * m ≤ m * (4 * H))
    (hexact : ∀ q : Nat, S = q * m → (r : Int) = q * (512 * H)) :
    (|(x : Int) * m - S| < 10 * m → |(x : Int) * (512 * H) - r| ≤ 5119 * H) ∧
    (¬ |(x : Int) * m - S| < 10 * m → 5120 * H ≤ |(x : Int) * (512 * H) - r|) := by
  have hmI : (0 : Int) < (m : Int) := by exact_mod_cast hm
  have hm2I : (m : Int) ≤ 100 := by exact_mod_cast hm2
  have hHm : 0 < H * (m : Int) := mul_pos hH hmI
  have hym : ((x : Int) * (512 * H) - r) * m
      = 512 * H * ((x : Int) * m - S) + ((S : Int) * (512 * H) - r * m) := by ring
  constructor
  · intro hD
    obtain ⟨hD1, hD2⟩ := abs_lt.mp hD
    have hDa : 512 * H * ((x : Int) * m - S) ≤ 512 * H * (10 * m - 1) :=
      mul_le_mul_of_nonneg_left (by omega) (by positivity)
    have hDb : 512 * H * (-(10 * (m : Int) - 1)) ≤ 512 * H * ((x : Int) * m - S) :=
      mul_le_mul_of_nonneg_left (by omega) (by positivity)
    have hHm2 : H * (m : Int) ≤ H * 100 := mul_le_mul_of_nonneg_left hm2I (le_of_lt hH)
    rw [abs_le]
    constructor
    · have key : -(5119 * H) * m ≤ ((x : Int) * (512 * H) - r) * m := by
        rw [hym]; nlinarith
      exact le_of_mul_le_mul_right key hmI
    · have key : ((x : Int) * (512 * H) - r) * m ≤ (5119 * H) * m := by
        rw [hym]; nlinarith
      exact le_of_mul_le_mul_right key hmI
  · intro hD
    have hD' : 10 * (m : Int) ≤ |(x : Int) * m - S| := not_lt.mp hD
    rcases le_abs'.mp hD' with hneg | hpos
    · -- the interval is at least 10 below the mean
      by_cases heq : (x : Int) * m - S = -(10 * m)
      · have hS : S = (x + 10) * m := by
          have : (S : Int) = ((x + 10) * m : Nat) := by push_cast; linarith
          exact_mod_cast this
        have hr := hexact (x + 10) hS
        rw [hr]
        push_cast
        have : (x : Int) * (512 * H) - ((x : Int) + 10) * (512 * H) = -(5120 * H) := by ring
        rw [this, abs_neg, abs_of_pos (by positivity)]
      · have hlt : (x : Int) * m - S ≤ -(10 * m) - 1 := by omega
        have hDa : 512 * H * ((x : Int) * m - S) ≤ 512 * H * (-(10 * m) - 1) :=
          mul_le_mul_of_nonneg_left hlt (by positivity)
        have hHm2 : H * (m : Int) ≤ H * 100 := mul_le_mul_of_nonneg_left hm2I (le_of_lt hH)
        have key : ((x : Int) * (512 * H) - r) * m ≤ (-(5120 * H)) * m := by
          rw [hym]; nlinarith
        have hy := le_of_mul_le_mul_right key hmI
        rw [le_abs']
        left
        exact hy
    · by_cases heq : (x : Int) * m - S = 10 * m
      · have hx10 : 10 ≤ x := by
          by_contra hc
          have hx9 : (x : Int) ≤ 9 := by omega
          have hS0 : (0 : Int) ≤ (S : Int) := by positivity
          nlinarith
        have hS : S = (x - 10) * m := by
          have : (S : Int) = ((x - 10) * m : Nat) := by
            rw [Nat.cast_mul, Nat.cast_sub hx10]; push_cast; linarith
          exact_mod_cast this
        have hr := hexact (x - 10) hS
        rw [hr, Nat.cast_sub hx10]
        push_cast
        have : (x : Int) * (512 * H) - ((x : Int) - 10) * (512 * H) = 5120 * H := by ring
        rw [this, abs_of_pos (by positivity)]
      · have hgt : 10 * (m : Int) + 1 ≤ (x : Int) * m - S := by omega
        have hDa : 512 * H * (10 * (m : Int) + 1) ≤ 512 * H * ((x : Int) * m - S) :=
          mul_le_mul_of_nonneg_left hgt (by positivity)
        have hHm2 : H * (m : Int) ≤ H * 100 := mul_le_mul_of_nonneg_left hm2I (le_of_lt hH)
        have key : (5120 * H) * m ≤ ((x : Int) * (512 * H) - r) * m := by
          rw [hym]; nlinarith
        have hy := le_of_mul_le_mul_right key hmI
        rw [le_abs']
        right
        exact hy

theorem pow_1074_eq (H : Nat) (hH : H = 2 ^ 1065) : (2 : Nat) ^ 1074 = 512 * H := by
  rw [hH, show (1074 : Nat) = 1065 + 9 by rfl, pow_add]; ring

/-- The mean the code computes from an exact sum `S < 2^46` and a count `m`: a
finite value within `2^-7` of `S / m`, and exactly `S / m` when that is an
integer. The bounds are stated in units `H = 2^-9`. -/
theorem mean_bounds (S m H : Nat) (hH : H = 2 ^ 1065) (hS : S < 2 ^ 46) (hm : 0 < m)
    (hm53 : m < 2 ^ 53) :
    ∃ (r : Nat) (hr : IsBinary64 r),
      Double.div
          (Double.ofUnits (S * 2 ^ 1074) (isBinary64_mul_pow S (lt_trans hS (by norm_num))))
          (Double.ofInt (m : Int))
        = Double.ofUnits r hr ∧
      (r : Int) * m - S * (512 * H) ≤ m * (4 * H) ∧
      (S : Int) * (512 * H) - r * m ≤ m * (4 * H) ∧
      ∀ q : Nat, S = q * m → (r : Int) = q * (512 * H) := by
  have hP := pow_1074_eq H hH
  have hG : (2 : Nat) ^ 1067 = 4 * H := by
    rw [hH, show (1067 : Nat) = 1065 + 2 by rfl, pow_add]; ring
  have hS' : S < 70368744177664 := by norm_num at hS; exact hS
  have hk53 : S * 128 / m + 1 < 2 ^ 53 := by
    have h1 : S * 128 / m ≤ S * 128 := Nat.div_le_self _ _
    norm_num
    omega
  have hkm : S * 128 / m * m ≤ S * 128 := Nat.div_mul_le_self _ _
  have hkm2 : S * 128 < (S * 128 / m + 1) * m := by
    have h := Nat.lt_mul_div_succ (S * 128) hm
    have hc := Nat.mul_comm m (S * 128 / m + 1)
    omega
  have hdiv : Double.div
      (Double.ofUnits (S * 2 ^ 1074) (isBinary64_mul_pow S (lt_trans hS (by norm_num))))
      (Double.ofInt (m : Int))
      = Double.round (((S * 2 ^ 1074 : Nat) : Int) * ((2 ^ 1074 : Nat) : Int)) (m * 2 ^ 1074) := by
    rw [ofInt_eq m hm53]
    have hb : ((m * 2 ^ 1074 : Nat) : Int) ≠ 0 := by
      have : 0 < m * 2 ^ 1074 := Nat.mul_pos hm (by positivity)
      omega
    have hbn : ¬ ((m * 2 ^ 1074 : Nat) : Int) < 0 := by omega
    show (if ((m * 2 ^ 1074 : Nat) : Int) = 0 then _ else
      Double.round (if ((m * 2 ^ 1074 : Nat) : Int) < 0 then _ else _) _) = _
    rw [if_neg hb, if_neg hbn, Int.natAbs_ofNat]
  rw [hdiv]
  have hnum : (((S * 2 ^ 1074 : Nat) : Int) * ((2 ^ 1074 : Nat) : Int))
      = ((S * 2 ^ 1074 * 2 ^ 1074 : Nat) : Int) := by
    rw [Nat.cast_mul (S * 2 ^ 1074) (2 ^ 1074)]
  have hden : m * 2 ^ 1074 ≠ 0 := Nat.mul_ne_zero (by omega) (by positivity)
  have hlo_nat : S * 128 / m * 2 ^ 1067 * (m * 2 ^ 1074) ≤ S * 2 ^ 1074 * 2 ^ 1074 := by
    rw [hP, hG]
    calc S * 128 / m * (4 * H) * (m * (512 * H))
        = (S * 128 / m * m) * (2048 * H * H) := by ring
      _ ≤ (S * 128) * (2048 * H * H) := Nat.mul_le_mul_right _ hkm
      _ = S * (512 * H) * (512 * H) := by ring
  have hhi_nat : S * 2 ^ 1074 * 2 ^ 1074 ≤ (S * 128 / m + 1) * 2 ^ 1067 * (m * 2 ^ 1074) := by
    rw [hP, hG]
    calc S * (512 * H) * (512 * H) = (S * 128) * (2048 * H * H) := by ring
      _ ≤ ((S * 128 / m + 1) * m) * (2048 * H * H) := Nat.mul_le_mul_right _ (le_of_lt hkm2)
      _ = (S * 128 / m + 1) * (4 * H) * (m * (512 * H)) := by ring
  have hfin : (S * 128 / m + 1) * 2 ^ 1067 < 2 ^ 2098 := by
    calc (S * 128 / m + 1) * 2 ^ 1067 < 2 ^ 53 * 2 ^ 1067 :=
          Nat.mul_lt_mul_of_pos_right hk53 (by positivity)
      _ ≤ 2 ^ 2098 := by
        rw [← pow_add]; exact Nat.pow_le_pow_right (by norm_num) (by norm_num)
  obtain ⟨r, hr, he, hlo, hhi⟩ := round_sandwich
    (((S * 2 ^ 1074 : Nat) : Int) * ((2 ^ 1074 : Nat) : Int)) (m * 2 ^ 1074)
    (S * 128 / m * 2 ^ 1067) ((S * 128 / m + 1) * 2 ^ 1067)
    (by rw [hnum]; exact Int.natCast_nonneg _) hden
    (isRounded_mul_pow _ 1067 (by omega)) (isRounded_mul_pow _ 1067 hk53) hfin
    (by rw [hnum]; exact Int.ofNat_le.mpr hlo_nat)
    (by
      rw [hnum, ← Nat.cast_mul]
      exact Int.ofNat_le.mpr hhi_nat)
  rw [hG] at hlo hhi
  refine ⟨r, hr, he, ?_, ?_, ?_⟩
  · have h1 : r * m ≤ (S * 128 / m + 1) * (4 * H) * m := Nat.mul_le_mul_right m hhi
    have h2 : (S * 128 / m + 1) * (4 * H) * m ≤ (S * 128 + m) * (4 * H) := by
      calc (S * 128 / m + 1) * (4 * H) * m = (S * 128 / m * m + m) * (4 * H) := by ring
        _ ≤ (S * 128 + m) * (4 * H) := Nat.mul_le_mul_right _ (by omega)
    have h3 : ((r * m : Nat) : Int) ≤ (((S * 128 + m) * (4 * H) : Nat) : Int) :=
      Int.ofNat_le.mpr (le_trans h1 h2)
    push_cast at h3
    linarith
  · have h1 : S * 128 / m * (4 * H) * m ≤ r * m := Nat.mul_le_mul_right m hlo
    have h2 : S * 128 * (4 * H) ≤ (S * 128 / m * m + m) * (4 * H) :=
      Nat.mul_le_mul_right _ (by
        have : (S * 128 / m + 1) * m = S * 128 / m * m + m := by ring
        omega)
    have h3 : S * 128 * (4 * H) ≤ r * m + m * (4 * H) := by
      calc S * 128 * (4 * H) ≤ (S * 128 / m * m + m) * (4 * H) := h2
        _ = S * 128 / m * (4 * H) * m + m * (4 * H) := by ring
        _ ≤ r * m + m * (4 * H) := Nat.add_le_add_right h1 _
    have h4 : ((S * 128 * (4 * H) : Nat) : Int) ≤ ((r * m + m * (4 * H) : Nat) : Int) :=
      Int.ofNat_le.mpr h3
    push_cast at h4
    linarith
  · intro q hq
    have hq53 : q < 2 ^ 53 := by
      have : q ≤ q * m := Nat.le_mul_of_pos_right q hm
      norm_num
      omega
    have hexact := round_exact_nat (((S * 2 ^ 1074 : Nat) : Int) * ((2 ^ 1074 : Nat) : Int)) (q * 2 ^ 1074)
      (m * 2 ^ 1074) hden (isBinary64_mul_pow q hq53) (by
        have e : q * m * 2 ^ 1074 * 2 ^ 1074 = q * 2 ^ 1074 * (m * 2 ^ 1074) := by ring
        rw [hnum, ← Nat.cast_mul, hq, e])
    rw [hexact] at he
    have hrq := ofUnits_injective he
    rw [← hrq, hP]
    push_cast
    ring

/-- With a mean as `mean_bounds` gives it, the test of the code on an interval
`x` is the exact comparison `|x - S / m| < 10`. -/
theorem isRegular64_iff (x m S r H : Nat) (hH : H = 2 ^ 1065) (hr : IsBinary64 r)
    (hx : x < 2 ^ 46) (hm : 0 < m) (hm2 : m ≤ 100)
    (h1 : (r : Int) * m - S * (512 * H) ≤ m * (4 * H))
    (h2 : (S : Int) * (512 * H) - r * m ≤ m * (4 * H))
    (hexact : ∀ q : Nat, S = q * m → (r : Int) = q * (512 * H)) :
    isRegular64 (Double.ofUnits r hr) x = decide (|(x : Int) * m - S| < 10 * m) := by
  have hx53 : x < 2 ^ 53 := lt_trans hx (by norm_num)
  have hP := pow_1074_eq H hH
  have hHpos : 0 < H := by rw [hH]; positivity
  have hHI : (0 : Int) < (H : Int) := by exact_mod_cast hHpos
  obtain ⟨harith1, harith2⟩ := regular_arith x m S r (H : Int) hHI hm hm2 h1 h2 hexact
  unfold isRegular64
  rw [ofInt_eq x hx53]
  have hsub : Double.sub (Double.ofUnits (x * 2 ^ 1074) (isBinary64_mul_pow x hx53))
      (Double.ofUnits r hr)
      = Double.round (((x * 2 ^ 1074 : Nat) : Int) + -(r : Int)) 1 := rfl
  rw [hsub, abs_round _ 1 (by norm_num)]
  have hy : (((x * 2 ^ 1074 : Nat) : Int) + -(r : Int)) = (x : Int) * (512 * (H : Int)) - r := by
    rw [hP]; push_cast; ring
  rw [hy]
  by_cases hD : |(x : Int) * m - S| < 10 * m
  · rw [decide_eq_true hD]
    have hle := harith1 hD
    have hmost : (Double.round
        ((((x : Int) * (512 * (H : Int)) - r).natAbs : Nat) : Int) 1).AtMost (5119 * H) := by
      apply round_atMost _ _ _ (Int.natCast_nonneg _) (by norm_num)
        (by rw [hH]; exact isRounded_mul_pow 5119 1065 (by norm_num))
        (by rw [hH]; norm_num)
      rw [Int.natCast_natAbs]
      push_cast
      linarith
    exact lt_of_atMost_atLeast hmost (ofInt_atLeast 10 (by norm_num)) (by rw [hP]; omega)
  · rw [decide_eq_false hD]
    have hge := harith2 hD
    have hleast : (Double.round
        ((((x : Int) * (512 * (H : Int)) - r).natAbs : Nat) : Int) 1).AtLeast (10 * 2 ^ 1074) := by
      apply round_atLeast _ _ _ (Int.natCast_nonneg _) (by norm_num)
        (isRounded_mul_pow 10 1074 (by norm_num))
      rw [Int.natCast_natAbs, hP]
      push_cast
      linarith
    exact not_lt_of_atLeast_atMost hleast (ofInt_atMost 10 (by norm_num)) (le_refl _)

theorem ofUnits_congr {a b : Nat} (ha : IsBinary64 a) (hb : IsBinary64 b) (h : a = b) :
    Double.ofUnits a ha = Double.ofUnits b hb := by
  subst h
  rfl

theorem add_ofUnits_exact (a b : Nat) (ha : IsBinary64 a) (hb : IsBinary64 b)
    (hab : IsBinary64 (a + b)) :
    Double.add (Double.ofUnits a ha) (Double.ofUnits b hb) = Double.ofUnits (a + b) hab := by
  show Double.round ((a : Int) + (b : Int)) 1 = _
  apply round_exact_nat _ _ 1 (by norm_num)
  push_cast
  ring

/-- The sum loop is exact while the sum of the intervals stays below `2^53`. -/
theorem sumIntervals64_exact (xs : List Nat) (h : xs.sum < 2 ^ 53) :
    sumIntervals64 xs = Double.ofUnits (xs.sum * 2 ^ 1074) (isBinary64_mul_pow xs.sum h) := by
  have hgen : ∀ (l : List Nat) (a : Nat) (ha : a + l.sum < 2 ^ 53),
      l.foldl
        (fun (avgInterval : Double) (interval : Nat) =>
          Double.add avgInterval (Double.ofInt (interval : Int)))
        (Double.ofUnits (a * 2 ^ 1074) (isBinary64_mul_pow a (by omega)))
        = Double.ofUnits ((a + l.sum) * 2 ^ 1074) (isBinary64_mul_pow (a + l.sum) ha) := by
    intro l
    induction l with
    | nil =>
      intro a ha
      exact ofUnits_congr _ _ (by simp)
    | cons x rest ih =>
      intro a ha
      rw [List.sum_cons] at ha
      have hx : x < 2 ^ 53 := by omega
      have hax : a + x < 2 ^ 53 := by omega
      rw [List.foldl_cons, ofInt_eq x hx,
        add_ofUnits_exact _ _ _ _ (by
          rw [← Nat.add_mul]; exact isBinary64_mul_pow (a + x) hax),
        ofUnits_congr _ (isBinary64_mul_pow (a + x) hax) (Nat.add_mul a x _).symm,
        ih (a + x) (by omega)]
      exact ofUnits_congr _ _ (by rw [List.sum_cons, Nat.add_assoc])
  have h0 := hgen xs 0 (by omega)
  unfold sumIntervals64
  have hz : Double.zero = Double.ofUnits (0 * 2 ^ 1074) (isBinary64_mul_pow 0 (by norm_num)) := by
    unfold Double.zero Double.ofUnits
    congr 1
  rw [hz, h0]
  exact ofUnits_congr _ _ (by rw [Nat.zero_add])

/-- The counting loop counts the regular intervals when there are fewer than
`2^31` intervals. -/
theorem regularCount64_eq_countP (avgInterval : Double) (intervals : List Nat)
    (hlen : intervals.length < 2 ^ 31) :
    regularCount64 avgInterval intervals
      = ((intervals.countP (isRegular64 avgInterval) : Nat) : Int) := by
  unfold regularCount64
  have hgen : ∀ (l : List Nat) (n : Nat), n + l.length < 2 ^ 31 →
      l.foldl
        (fun (regularCount : Int) (interval : Nat) =>
          if isRegular64 avgInterval interval = true then wrapInt32 (regularCount + 1)
          else regularCount) (n : Int)
        = ((n + l.countP (isRegular64 avgInterval) : Nat) : Int) := by
    intro l
    induction l with
    | nil => intro n _; simp
    | cons x rest ih =>
      intro n hn
      rw [List.length_cons] at hn
      rw [List.foldl_cons]
      by_cases hx : isRegular64 avgInterval x = true
      · rw [if_pos hx, wrapInt32_of_range _ (by omega) (by omega),
          show ((n : Int) + 1) = ((n + 1 : Nat) : Int) by push_cast; rfl,
          ih (n + 1) (by omega), List.countP_cons_of_pos _ _ hx]
        congr 1
        omega
      · rw [if_neg hx, ih n (by omega), List.countP_cons_of_neg _ _ hx]
  have h0 := hgen intervals 0 (by omega)
  simpa using h0

/-- For each number `m < 100` of intervals, the rounded product `m * 0.8` lies
at or above the integer part of `4 m / 5` and below the next integer. -/
theorem threshold_table :
    (List.range 100).all (fun m =>
      (Double.lt (Double.mul (Double.ofInt (m : Int)) (Double.ofRatio 8 10))
          (Double.ofInt ((4 * m / 5 : Nat) : Int)) == false) &&
      (Double.lt (Double.mul (Double.ofInt (m : Int)) (Double.ofRatio 8 10))
          (Double.ofInt ((4 * m / 5 + 1 : Nat) : Int)) == true)) = true := by
  decide!

theorem lt_ofUnits_false_mono (t : Double) (a b : Nat) (ha : IsBinary64 a) (hb : IsBinary64 b)
    (h : Double.lt t (Double.ofUnits a ha) = false) (hba : b ≤ a) :
    Double.lt t (Double.ofUnits b hb) = false := by
  cases t with
  | finite n hn =>
    have h1 : ¬ n < (a : Int) := of_decide_eq_false h
    show decide (n < (b : Int)) = false
    rw [decide_eq_false_iff_not]
    omega
  | posInf => rfl
  | negInf =>
    have ht : Double.lt Double.negInf (Double.ofUnits a ha) = true := rfl
    rw [ht] at h
    exact absurd h (by decide)
  | nan => rfl

theorem lt_ofUnits_true_mono (t : Double) (a b : Nat) (ha : IsBinary64 a) (hb : IsBinary64 b)
    (h : Double.lt t (Double.ofUnits a ha) = true) (hab : a ≤ b) :
    Double.lt t (Double.ofUnits b hb) = true := by
  cases t with
  | finite n hn =>
    have h1 : n < (a : Int) := of_decide_eq_true h
    show decide (n < (b : Int)) = true
    rw [decide_eq_true_iff]
    omega
  | posInf =>
    have ht : Double.lt Double.posInf (Double.ofUnits a ha) = false := rfl
    rw [ht] at h
    exact absurd h (by decide)
  | negInf => rfl
  | nan =>
    have ht : Double.lt Double.nan (Double.ofUnits a ha) = false := rfl
    rw [ht] at h
    exact absurd h (by decide)

/-- With fewer than 100 intervals, a count exceeds the rounded product of their
number and 0.8 exactly when it exceeds four fifths of the number. -/
theorem count_exceeds_iff (m c : Nat) (hm : m < 100) (hc : c < 2 ^ 53) :
    Double.lt (Double.mul (Double.ofInt (m : Int)) (Double.ofRatio 8 10)) (Double.ofInt (c : Int))
      = decide (4 * m < 5 * c) := by
  have htab := List.all_eq_true.mp threshold_table m (List.mem_range.mpr hm)
  rw [Bool.and_eq_true, beq_iff_eq, beq_iff_eq] at htab
  obtain ⟨hlow, hhigh⟩ := htab
  have hK : 4 * m / 5 + 1 < 2 ^ 53 := by norm_num; omega
  have hK0 : 4 * m / 5 < 2 ^ 53 := by norm_num; omega
  rw [ofInt_eq _ hK0] at hlow
  rw [ofInt_eq _ hK] at hhigh
  rw [ofInt_eq c hc]
  by_cases hle : c ≤ 4 * m / 5
  · have hno : ¬ 4 * m < 5 * c := by omega
    rw [decide_eq_false hno]
    exact lt_ofUnits_false_mono _ _ _ _ _ hlow (Nat.mul_le_mul_right _ hle)
  · have hyes : 4 * m < 5 * c := by omega
    rw [decide_eq_true hyes]
    exact lt_ofUnits_true_mono _ _ _ _ _ hhigh (Nat.mul_le_mul_right _ (by omega))

/-! ## The specification's timing rule in integers -/

theorem specIntervals_length (h : List Nat) : (specIntervals h).length = h.length - 1 := by
  induction h with
  | nil => rfl
  | cons a rest ih =>
    cases rest with
    | nil => rfl
    | cons b rest2 =>
      simp only [specIntervals, List.length_cons] at ih ⊢
      omega

/-- The intervals of a non-decreasing history add up to the distance from its
first timestamp to one of its timestamps. -/
theorem specIntervals_sum (a : Nat) (rest : List Nat)
    (hsorted : List.Sorted (· ≤ ·) (a :: rest)) :
    ∃ t ∈ a :: rest, a + (specIntervals (a :: rest)).sum = t := by
  induction rest generalizing a with
  | nil => exact ⟨a, List.mem_cons_self _ _, by simp [specIntervals]⟩
  | cons b rest2 ih =>
    have hab : a ≤ b := List.rel_of_sorted_cons hsorted b (List.mem_cons_self _ _)
    obtain ⟨t, ht, hsum⟩ := ih b hsorted.of_cons
    refine ⟨t, List.mem_cons_of_mem _ ht, ?_⟩
    simp only [specIntervals, List.sum_cons]
    omega

theorem specIntervals_sum_lt (h : List Nat) (B : Nat) (hB : 0 < B)
    (hsorted : List.Sorted (· ≤ ·) h) (hrange : ∀ t ∈ h, t < B) :
    (specIntervals h).sum < B := by
  cases h with
  | nil => simpa [specIntervals] using hB
  | cons a rest =>
    obtain ⟨t, ht, hsum⟩ := specIntervals_sum a rest hsorted
    have := hrange t ht
    omega

theorem specMean_eq (xs : List Nat) : specMean xs = (xs.sum : ℚ) / xs.length := by
  unfold specMean
  rw [Nat.cast_list_sum]

/-- The test `|x - mean| < 10` of the spec, in integers. -/
theorem specRegular_iff (x S m : Nat) (hm : 0 < m) :
    |(x : ℚ) - (S : ℚ) / (m : ℚ)| < 10 ↔ |(x : Int) * m - S| < 10 * m := by
  have hmq : (0 : ℚ) < (m : ℚ) := by exact_mod_cast hm
  have hrew : (x : ℚ) - (S : ℚ) / (m : ℚ) = ((x : ℚ) * m - S) / m := by
    field_simp
  rw [hrew, abs_div, abs_of_pos hmq, div_lt_iff₀ hmq]
  have hcast : |(x : ℚ) * m - S| = ((|(x : Int) * m - S| : Int) : ℚ) := by
    push_cast; rfl
  rw [hcast]
  constructor
  · intro hq
    have : ((|(x : Int) * m - S| : Int) : ℚ) < ((10 * m : Int) : ℚ) := by
      push_cast at hq ⊢; exact hq
    exact_mod_cast this
  · intro hz
    have : ((|(x : Int) * m - S| : Int) : ℚ) < ((10 * m : Int) : ℚ) := by exact_mod_cast hz
    push_cast at this ⊢
    exact this

theorem specRegularCount_eq (xs : List Nat) (hm : 0 < xs.length) :
    specRegularCount xs
      = xs.countP (fun x : Nat => decide (|(x : Int) * xs.length - xs.sum| < 10 * xs.length)) := by
  unfold specRegularCount
  apply List.countP_congr
  intro x _
  rw [specMean_eq]
  simp only [decide_eq_true_eq]
  exact specRegular_iff x xs.sum xs.length hm

theorem spec_count_exceeds_iff (c m : Nat) : (c : ℚ) > (8 / 10) * (m : ℚ) ↔ 4 * m < 5 * c := by
  constructor
  · intro h
    have h2 : (4 : ℚ) * m < 5 * c := by linarith
    exact_mod_cast h2
  · intro h
    have h2 : (4 : ℚ) * m < 5 * c := by exact_mod_cast h
    show (8 / 10) * (m : ℚ) < (c : ℚ)
    linarith

/-! ## The code's verdict and the specification's rule -/

/-- On a non-decreasing history of 10 to 100 timestamps below `2^46`, the
verdict the code computes in binary64 is the specification's rule in exact
arithmetic. -/
theorem tooRegular64_eq_spec (h : List Nat) (hsorted : List.Sorted (· ≤ ·) h)
    (hrange : ∀ t ∈ h, t < 2 ^ 46) (h10 : 10 ≤ h.length) (h100 : h.length ≤ 100) :
    tooRegular64 (intervalsOf h)
      = decide ((specRegularCount (specIntervals h) : ℚ) > (8 / 10) * (specIntervals h).length) := by
  have hu64 : ∀ t ∈ h, t < U64 := by
    intro t ht
    have := hrange t ht
    have hU : U64 = 18446744073709551616 := by norm_num [U64]
    norm_num at this
    omega
  rw [intervalsOf_eq_specIntervals h hsorted hu64]
  have hlen := specIntervals_length h
  have hm : 0 < (specIntervals h).length := by omega
  have hm100 : (specIntervals h).length < 100 := by omega
  have hS := specIntervals_sum_lt h (2 ^ 46) (by positivity) hsorted hrange
  have hx : ∀ x ∈ specIntervals h, x < 2 ^ 46 := by
    intro x hx
    exact lt_of_le_of_lt (List.single_le_sum (fun _ _ => Nat.zero_le _) x hx) hS
  obtain ⟨r, hr, hmean, hb1, hb2, hex⟩ :=
    mean_bounds (specIntervals h).sum (specIntervals h).length (2 ^ 1065) rfl hS hm
      (by norm_num; omega)
  have hcount : (specIntervals h).countP (isRegular64 (Double.ofUnits r hr))
      = specRegularCount (specIntervals h) := by
    rw [specRegularCount_eq _ hm]
    apply List.countP_congr
    intro x hxm
    rw [isRegular64_iff x _ _ r (2 ^ 1065) rfl hr (hx x hxm) hm (by omega) hb1 hb2 hex]
  have hc53 : specRegularCount (specIntervals h) < 2 ^ 53 := by
    have hle : specRegularCount (specIntervals h) ≤ (specIntervals h).length := by
      unfold specRegularCount
      exact List.countP_le_length _
    norm_num
    omega
  unfold tooRegular64
  dsimp only
  rw [sumIntervals64_exact _ (lt_trans hS (by norm_num)), hmean,
    regularCount64_eq_countP _ _ (by norm_num; omega), hcount,
    count_exceeds_iff _ _ hm100 hc53]
  by_cases hgt : 4 * (specIntervals h).length < 5 * specRegularCount (specIntervals h)
  · rw [decide_eq_true hgt, decide_eq_true ((spec_count_exceeds_iff _ _).mpr hgt)]
  · rw [decide_eq_false hgt,
      decide_eq_false (fun hq => hgt ((spec_count_exceeds_iff _ _).mp hq))]

/-! ## C16 -/

theorem specMean_replicate (m c : Nat) (hm : 0 < m) : specMean (List.replicate m c) = c := by
  unfold specMean
  rw [List.map_replicate, List.sum_replicate, List.length_replicate, nsmul_eq_mul]
  have hm0 : (m : ℚ) ≠ 0 := by exact_mod_cast hm.ne'
  field_simp

theorem specRegularCount_replicate (m c : Nat) (hm : 0 < m) :
    specRegularCount (List.replicate m c) = m := by
  unfold specRegularCount
  rw [specMean_replicate m c hm]
  have hall : ∀ x ∈ List.replicate m c,
      (fun x : Nat => decide (|(x : ℚ) - (c : ℚ)| < 10)) x = true := by
    intro x hx
    rw [List.eq_of_mem_replicate hx]
    simp
  rw [List.countP_eq_length.mpr hall, List.length_replicate]

/-- C16, counterexample. The history of 10 timestamps 1000, 1000 + d, ...,
1000 + 9 d with d = 878849095618334326 is non-decreasing and below `2^64`. Its
nine intervals all equal d, so each differs from their arithmetic mean by 0 and
the claim's rule says true; `DetectPatternAbuse` returns false, because the
mean it computes in binary64 is 128 away from the rounded interval. -/
theorem C16_counterexample :
    List.Sorted (· ≤ ·) (evenHistory 1000 878849095618334326 10) ∧
    (∀ t ∈ evenHistory 1000 878849095618334326 10, t < U64) ∧
    (10 ≤ (evenHistory 1000 878849095618334326 10).length ∧
      (specRegularCount (specIntervals (evenHistory 1000 878849095618334326 10)) : ℚ)
        > (8 / 10) * (specIntervals (evenHistory 1000 878849095618334326 10)).length) ∧
    DetectPatternAbuse64
      { GameEngine64.fresh with spinHistory := evenHistory 1000 878849095618334326 10 }
      = false := by
  have hspec : specIntervals (evenHistory 1000 878849095618334326 10)
      = List.replicate 9 878849095618334326 := by decide
  refine ⟨by decide, by decide, ⟨by decide, ?_⟩, by decide!⟩
  rw [hspec, specRegularCount_replicate 9 _ (by norm_num), List.length_replicate]
  norm_num

/-- C16, amended. For every non-decreasing history of at most 100 timestamps
(the engine keeps no more), all below `2^46` ms, `DetectPatternAbuse` returns
true iff the history holds at least 10 timestamps and the number of consecutive
intervals that differ from the arithmetic mean of all intervals by less than
10 ms is more than 0.8 times the number of intervals; with fewer than 10
timestamps it returns false. -/
theorem C16_pattern_abuse_iff (e : GameEngine64) (hsorted : List.Sorted (· ≤ ·) e.spinHistory)
    (hrange : ∀ t ∈ e.spinHistory, t < 2 ^ 46) (hlen : e.spinHistory.length ≤ 100) :
    (DetectPatternAbuse64 e = true ↔
      10 ≤ e.spinHistory.length ∧
      (specRegularCount (specIntervals e.spinHistory) : ℚ)
        > (8 / 10) * (specIntervals e.spinHistory).length) ∧
    (e.spinHistory.length < 10 → DetectPatternAbuse64 e = false) := by
  have hshort : e.spinHistory.length < 10 → DetectPatternAbuse64 e = false := by
    intro hlt
    unfold DetectPatternAbuse64
    rw [if_pos hlt]
  refine ⟨?_, hshort⟩
  by_cases h10 : 10 ≤ e.spinHistory.length
  · have hint := intervalsOf_length e.spinHistory
    unfold DetectPatternAbuse64
    rw [if_neg (by omega), if_pos (by omega),
      tooRegular64_eq_spec e.spinHistory hsorted hrange h10 hlen, decide_eq_true_iff]
    exact ⟨fun hgt => ⟨h10, hgt⟩, fun hboth => hboth.2⟩
  · rw [hshort (by omega)]
    constructor
    · intro hc
      exact absurd hc (by decide)
    · intro hboth
      exact absurd hboth.1 h10

theorem C16_pattern_abuse_iff_witness :
    ((DetectPatternAbuse64 flaggedEngine64 = true ↔
        10 ≤ flaggedEngine64.spinHistory.length ∧
        (specRegularCount (specIntervals flaggedEngine64.spinHistory) : ℚ)
          > (8 / 10) * (specIntervals flaggedEngine64.spinHistory).length) ∧
      DetectPatternAbuse64 flaggedEngine64 = true) ∧
    ((DetectPatternAbuse64 jitterEngine64 = true ↔
        10 ≤ jitterEngine64.spinHistory.length ∧
        (specRegularCount (specIntervals jitterEngine64.spinHistory) : ℚ)
          > (8 / 10) * (specIntervals jitterEngine64.spinHistory).length) ∧
      DetectPatternAbuse64 jitterEngine64 = false) :=
  ⟨⟨(C16_pattern_abuse_iff flaggedEngine64 (by decide) (by decide) (by decide)).1, by decide!⟩,
   ⟨(C16_pattern_abuse_iff jitterEngine64 (by decide) (by decide) (by decide)).1, by decide!⟩⟩

/-! ## Binary64 engine: the jackpot test -/

/-- Unless an operand is NaN, `x <= y` fails exactly when `y < x`. -/
theorem le_eq_false_iff_lt (x y : Double) (hx : x ≠ Double.nan) (hy : y ≠ Double.nan) :
    Double.le x y = false ↔ Double.lt y x = true := by
  cases x <;> cases y <;> simp_all [Double.le, Double.lt]

/-- Unless an operand is NaN, `x < y` fails exactly when `y <= x`. -/
theorem lt_eq_false_iff_le (x y : Double) (hx : x ≠ Double.nan) (hy : y ≠ Double.nan) :
    Double.lt x y = false ↔ Double.le y x = true := by
  cases x <;> cases y <;> simp_all [Double.le, Double.lt]

/-- The difference of a balance and a finite positive amount not above it is
at least zero and at most the balance. -/
theorem sub_bounds (balance amount : Double) (hpos : Double.lt Double.zero amount = true)
    (hfin : amount.isFinite = true) (hle : Double.le amount balance = true) :
    Double.le Double.zero (Double.sub balance amount) = true ∧
    Double.le (Double.sub balance amount) balance = true := by
  cases amount with
  | finite a ha =>
    have ha0 : (0 : Int) < a := by
      have : decide ((0 : Int) < a) = true := hpos
      exact of_decide_eq_true this
    cases balance with
    | finite b hb =>
      have hab : a ≤ b := by
        have : decide (a ≤ b) = true := hle
        exact of_decide_eq_true this
      have hz : IsBinary64 (0 : Int).natAbs := by decide
      obtain ⟨r, hr, heq, h1, h2⟩ := round_between (b + -a) 1 0 b (by norm_num) hz hb
        (by push_cast; omega) (by push_cast; omega)
      have hsub : Double.sub (Double.finite b hb) (Double.finite a ha) = Double.finite r hr := heq
      rw [hsub]
      exact ⟨decide_eq_true h1, decide_eq_true h2⟩
    | posInf => exact ⟨rfl, rfl⟩
    | negInf => exact absurd hle (by simp [Double.le])
    | nan => exact absurd hle (by simp [Double.le])
  | posInf => exact absurd hfin (by simp [Double.isFinite])
  | negInf => exact absurd hfin (by simp [Double.isFinite])
  | nan => exact absurd hfin (by simp [Double.isFinite])

/-- The difference of two finite values is exact when it is a binary64 value. -/
theorem sub_exact (a b : Nat) (ha : IsBinary64 a) (hb : IsBinary64 b) (hab : a ≤ b)
    (h : IsBinary64 (b - a)) :
    Double.sub (Double.ofUnits b hb) (Double.ofUnits a ha) = Double.ofUnits (b - a) h := by
  have hn : IsBinary64 (((b - a : Nat) : Int)).natAbs := by
    rw [Int.natAbs_ofNat]; exact h
  have e := round_exact ((b - a : Nat) : Int) 1 (by norm_num) hn
  have hnum : ((b : Int) + -(a : Int)) = ((b - a : Nat) : Int) * ((1 : Nat) : Int) := by
    push_cast [Nat.cast_sub hab]
    ring
  show Double.round ((b : Int) + -(a : Int)) 1 = _
  rw [hnum, e]
  rfl

/-! ## C23 -/

/-- C23, counterexample. On a wallet of 1e16 `DeductFunds(alice, 1.0)` returns
true and the balance is still 1e16: it has not gone down by the amount. With a
NaN amount on a wallet of 100 it returns true although `amount > 0` is
false. -/
theorem C23_counterexample :
    (((paymentWallet64 (Double.ofInt 10000000000000000)).DeductFunds "alice" (Double.ofInt 1)
        "TXN_1" 1000).1 = true ∧
      ∃ wallet1,
        ((paymentWallet64 (Double.ofInt 10000000000000000)).DeductFunds "alice" (Double.ofInt 1)
          "TXN_1" 1000).2.userWallets "alice" = some wallet1 ∧
        wallet1.balance = Double.ofInt 10000000000000000 ∧
        wallet1.balance.units
          ≠ (Double.ofInt 10000000000000000).units - (Double.ofInt 1).units) ∧
    (((paymentWallet64 (Double.ofInt 100)).DeductFunds "alice" Double.nan "TXN_1" 1000).1 = true ∧
      Double.lt Double.zero Double.nan = false) := by
  have h1 : ((paymentWallet64 (Double.ofInt 10000000000000000)).DeductFunds "alice"
      (Double.ofInt 1) "TXN_1" 1000).2.userWallets "alice"
      = some { balance := Double.ofInt 10000000000000000, currency := Currency.USD,
               lastUpdated := 1000,
               recentTransactions :=
                 [{ transactionId := "TXN_1", userId := "alice",
                    amount := Double.neg (Double.ofInt 1), currency := Currency.USD,
                    method := PaymentMethod.DEBIT_CARD, status := TransactionStatus.COMPLETED,
                    timestamp := 1000, description := "Funds deducted for game play",
                    merchantReference := "", gatewayResponse := "", isRefundable := false }] } := by
    decide!
  exact ⟨⟨by decide!, _, h1, rfl, by decide!⟩, by decide!, rfl⟩

/-- C23, amended. `DeductFunds(user, amount)` returns true iff `amount <= 0` is
false, the user has a wallet and `balance < amount` is false; for an amount and
a balance that are not NaN that is `amount > 0` and `amount <= balance`. When it
returns true the balance of that wallet is the rounded difference
`balance - amount`: the exact difference when that is a binary64 value, and
between 0 and the old balance when the amount is positive, finite and not above
the balance; the other wallets are as before and one transaction has been
appended to the history. When it returns false the payment system, with every
wallet and the transaction history, is unchanged. -/
theorem C23_deduct_funds (p : PaymentSystem64) (userId : String) (amount : Double)
    (transactionId : String) (currentTime : Nat) :
    ((p.DeductFunds userId amount transactionId currentTime).1 = true ↔
      Double.le amount Double.zero = false ∧
        ∃ wallet, p.userWallets userId = some wallet ∧
          Double.lt wallet.balance amount = false) ∧
    (amount ≠ Double.nan →
      ((Double.le amount Double.zero = false ↔ Double.lt Double.zero amount = true) ∧
        ∀ wallet, p.userWallets userId = some wallet → wallet.balance ≠ Double.nan →
          (Double.lt wallet.balance amount = false ↔
            Double.le amount wallet.balance = true))) ∧
    ((p.DeductFunds userId amount transactionId currentTime).1 = true →
      ∃ wallet wallet1, p.userWallets userId = some wallet ∧
        (p.DeductFunds userId amount transactionId currentTime).2.userWallets userId
          = some wallet1 ∧
        wallet1.balance = Double.sub wallet.balance amount ∧
        (∀ (a b : Nat) (ha : IsBinary64 a) (hb : IsBinary64 b) (hd : IsBinary64 (b - a)),
          amount = Double.ofUnits a ha → wallet.balance = Double.ofUnits b hb →
          a ≤ b ∧ wallet1.balance = Double.ofUnits (b - a) hd) ∧
        (Double.lt Double.zero amount = true → amount.isFinite = true →
          Double.le amount wallet.balance = true →
          Double.le Double.zero wallet1.balance = true ∧
          Double.le wallet1.balance wallet.balance = true) ∧
        (∀ other, other ≠ userId →
          (p.DeductFunds userId amount transactionId currentTime).2.userWallets other
            = p.userWallets other) ∧
        (p.DeductFunds userId amount transactionId currentTime).2.transactionHistory.length
          = p.transactionHistory.length + 1) ∧
    ((p.DeductFunds userId amount transactionId currentTime).1 = false →
      (p.DeductFunds userId amount transactionId currentTime).2 = p) := by
  have hnan : amount ≠ Double.nan →
      ((Double.le amount Double.zero = false ↔ Double.lt Double.zero amount = true) ∧
        ∀ wallet, p.userWallets userId = some wallet → wallet.balance ≠ Double.nan →
          (Double.lt wallet.balance amount = false ↔
            Double.le amount wallet.balance = true)) := by
    intro ha
    exact ⟨le_eq_false_iff_lt amount Double.zero ha (by decide),
      fun wallet _ hb => lt_eq_false_iff_le wallet.balance amount hb ha⟩
  refine ⟨?_, hnan, ?_⟩
  all_goals unfold PaymentSystem64.DeductFunds
  · by_cases ha : Double.le amount Double.zero = true
    · rw [if_pos ha]
      simp [ha]
    · rw [if_neg ha]
      have ha2 : Double.le amount Double.zero = false := by simpa using ha
      cases hw : p.userWallets userId with
      | none => simp
      | some wallet =>
        dsimp only
        by_cases hb : Double.lt wallet.balance amount = true
        · rw [if_pos hb]
          simp [hb]
        · rw [if_neg hb]
          have hb2 : Double.lt wallet.balance amount = false := by simpa using hb
          simp [ha2, hb2]
  · by_cases ha : Double.le amount Double.zero = true
    · rw [if_pos ha]
      exact ⟨fun h => absurd h (by simp), fun _ => rfl⟩
    · rw [if_neg ha]
      cases hw : p.userWallets userId with
      | none => exact ⟨fun h => absurd h (by simp), fun _ => rfl⟩
      | some wallet =>
        dsimp only
        by_cases hb : Double.lt wallet.balance amount = true
        · rw [if_pos hb]
          exact ⟨fun h => absurd h (by simp), fun _ => rfl⟩
        · rw [if_neg hb]
          refine ⟨fun _ => ?_, fun h => absurd h (by simp)⟩
          refine ⟨wallet, _, rfl, Function.update_same _ _ _, rfl, ?_, ?_, ?_, ?_⟩
          · intro a b hA hB hd hamt hbal
            have hab : a ≤ b := by
              by_contra hc
              apply hb
              rw [hamt, hbal]
              show decide ((b : Int) < (a : Int)) = true
              exact decide_eq_true (by omega)
            refine ⟨hab, ?_⟩
            show Double.sub wallet.balance amount = _
            rw [hamt, hbal]
            exact sub_exact a b hA hB hab hd
          · intro hpos hfin hle
            exact sub_bounds wallet.balance amount hpos hfin hle
          · intro other hne
            exact Function.update_noteq hne _ _
          · simp

theorem C23_deduct_funds_witness :
    ((paymentWallet64 (Double.ofInt 100)).DeductFunds "alice" (Double.ofInt 30) "TXN_1" 1000).1
      = true ∧
    ((paymentWallet64 (Double.ofInt 100)).DeductFunds "alice" (Double.ofInt 130) "TXN_1" 1000).2
      = paymentWallet64 (Double.ofInt 100) :=
  ⟨(C23_deduct_funds (paymentWallet64 (Double.ofInt 100)) "alice" (Double.ofInt 30) "TXN_1"
      1000).1.mpr ⟨by decide!, _, rfl, by decide!⟩,
   (C23_deduct_funds (paymentWallet64 (Double.ofInt 100)) "alice" (Double.ofInt 130) "TXN_1"
      1000).2.2.2 (by decide!)⟩

/-! ## PaymentSystem.cpp in binary64 arithmetic: fraud checks -/

end Sloter
